import Mathlib

/-!
# Conformance validation of parsed configuration blocks against a provider schema

A shallow embedding of the validation core of the `diffy` package
(`block_data.go`, `validator.go`, `parser.go`) together with theorems about it.

Modelling conventions.

* A Go `map[string]V` is an association list `List (String × V)`.  Looking a key
  up is `List.lookup`; `for k, v := range m` visits the entries in list order.
  Go leaves the iteration order of a map unspecified, and every theorem below
  quantifies over all association lists, hence over every possible order.
  Two loops over one map may take different orders: a statement that compares
  the order of the findings of two calls takes one listing of the schema for
  each call (`SchemaBlock.sameSchema`).
  A Go map holds each key once; where a statement depends on that, it carries
  the hypothesis that the keys of the list are pairwise distinct.
* `*[]ValidationFinding` output parameters are only ever appended to, so each
  function returns the list of findings it appends, in the order of the appends.
* `BlockData.Properties` is a `map[string]bool` in which the code only ever stores
  `true`; it is the list of its keys, and `bd.Properties[name]` is membership.
* `strings.EqualFold` belongs to the Go standard library.  It is a parameter
  `equalFold` of every definition that uses it; nothing is assumed about it.
* A function that mutates its receiver or its first argument (`mergeBlocks`,
  `ParseBlocks`) returns the value the mutated object has after the call.
* The syntax tree of `hclsyntax` and the values of `cty` are modelled by what the
  code reads of them; evaluating an expression (`attr.Expr.Value(nil)`) is the
  parameter `exprValue`.  A panic of a library call (`AsString`, `ElementIterator`)
  is the result `none`.  Log lines are not modelled.
-/

namespace Diffy

/-! ## Data model -/

/-- Modelled from the spec: the declaration of `SchemaAttribute` is not part of the
sources at hand.  The four flags are the ones `validateAttributes` reads. -/
structure SchemaAttribute where
  Required : Bool
  Optional : Bool
  Computed : Bool
  Deprecated : Bool
deriving DecidableEq, Repr

mutual
/-- Modelled from the spec: the declaration of `SchemaBlock` is not part of the
sources at hand.  `Attributes` and `BlockTypes` are string-keyed maps. -/
inductive SchemaBlock where
  | mk (Attributes : List (String × SchemaAttribute))
       (BlockTypes : List (String × SchemaBlockType))
/-- Modelled from the spec: the declaration of `SchemaBlockType` is not part of the
sources at hand.  `Block` is a pointer and may be nil. -/
inductive SchemaBlockType where
  | mk (MinItems : Int) (Block : Option SchemaBlock) (Deprecated : Bool)
end

/-- Field `Attributes` of a schema block. -/
def SchemaBlock.Attributes : SchemaBlock → List (String × SchemaAttribute)
  | .mk attrs _ => attrs

/-- Field `BlockTypes` of a schema block. -/
def SchemaBlock.BlockTypes : SchemaBlock → List (String × SchemaBlockType)
  | .mk _ bts => bts

/-- Field `MinItems` of a schema block type. -/
def SchemaBlockType.MinItems : SchemaBlockType → Int
  | .mk m _ _ => m

/-- Field `Block` of a schema block type: the nested schema, possibly nil. -/
def SchemaBlockType.Block : SchemaBlockType → Option SchemaBlock
  | .mk _ b _ => b

/-- Field `Deprecated` of a schema block type. -/
def SchemaBlockType.Deprecated : SchemaBlockType → Bool
  | .mk _ _ d => d

mutual
/-- Modelled from the spec: the declaration of `BlockData` is not part of the sources
at hand.  `Properties` is the set of attribute names written in the block (the code
only ever stores `true` in that map), `StaticBlocks` and `DynamicBlocks` map a block
type name to one child, `IgnoreChanges` is the block's own ignore list. -/
inductive BlockData where
  | mk (Properties : List String)
       (StaticBlocks : List (String × ParsedBlock))
       (DynamicBlocks : List (String × ParsedBlock))
       (IgnoreChanges : List String)
/-- Modelled from the spec: the declaration of `ParsedBlock` is not part of the
sources at hand.  It wraps one `BlockData`. -/
inductive ParsedBlock where
  | mk (Data : BlockData)
end

/-- Field `Properties` of a block. -/
def BlockData.Properties : BlockData → List String
  | .mk p _ _ _ => p

/-- Field `StaticBlocks` of a block. -/
def BlockData.StaticBlocks : BlockData → List (String × ParsedBlock)
  | .mk _ s _ _ => s

/-- Field `DynamicBlocks` of a block. -/
def BlockData.DynamicBlocks : BlockData → List (String × ParsedBlock)
  | .mk _ _ d _ => d

/-- Field `IgnoreChanges` of a block. -/
def BlockData.IgnoreChanges : BlockData → List String
  | .mk _ _ _ i => i

/-- Field `Data` of a parsed block. -/
def ParsedBlock.Data : ParsedBlock → BlockData
  | .mk d => d

/-- Modelled from the spec: the declaration of `ValidationFinding` is not part of the
sources at hand.  The fields are the ones the validator and the deduplicator use. -/
structure ValidationFinding where
  ResourceType : String
  Path : String
  Name : String
  Required : Bool
  IsBlock : Bool
  IsDataSource : Bool
  SubmoduleName : String
deriving DecidableEq, Repr

/-! ## The validator (`block_data.go`) -/

section Validator

variable (equalFold : String → String → Bool)

/-- Function `isIgnored`: the wildcard token or a case-insensitive match, scanning left to right. -/
def isIgnored : List String → String → Bool
  | [], _ => false
  | item :: rest, name =>
    if item = "*all*" then true
    else if equalFold item name then true
    else isIgnored rest name

/-- The body of the loop of `validateAttributes` for one map entry: the finding it
appends, if any. -/
def attributeFinding (bd : BlockData) (resType path : String) (ignore : List String)
    (entry : String × SchemaAttribute) : Option ValidationFinding :=
  if entry.1 = "id" then none
  else if entry.2.Computed && !entry.2.Optional && !entry.2.Required then none
  else if entry.2.Deprecated then none
  else if isIgnored equalFold ignore entry.1 then none
  else if !(decide (entry.1 ∈ bd.Properties)) then
    some { ResourceType := resType, Path := path, Name := entry.1,
           Required := entry.2.Required, IsBlock := false,
           IsDataSource := false, SubmoduleName := "" }
  else none

/-- Method `BlockData.validateAttributes`: one pass over the attribute map of the schema node. -/
def validateAttributes (bd : BlockData) (resType path : String) (schema : SchemaBlock)
    (ignore : List String) : List ValidationFinding :=
  schema.Attributes.filterMap (attributeFinding equalFold bd resType path ignore)

/-- The `target` of `validateBlocks`: the static child when there is one, else the
dynamic child; `none` when both lookups come back nil. -/
def selectTarget (bd : BlockData) (name : String) : Option ParsedBlock :=
  match bd.StaticBlocks.lookup name with
  | some static => some static
  | none => bd.DynamicBlocks.lookup name

/-- The finding `validateBlocks` appends for a block type with no child in the block. -/
def missingBlockFinding (resType path name : String) (minItems : Int) : ValidationFinding :=
  { ResourceType := resType, Path := path, Name := name,
    Required := decide (minItems > 0), IsBlock := true,
    IsDataSource := false, SubmoduleName := "" }

mutual
/-- Method `BlockData.Validate`: nothing for a nil schema, otherwise the attribute pass
followed by the block pass, both under `parentIgnore ++ bd.IgnoreChanges`. -/
def Validate (bd : BlockData) (resourceType path : String) :
    Option SchemaBlock → List String → List ValidationFinding
  | none, _ => []
  | some schema, parentIgnore =>
    validateAttributes equalFold bd resourceType path schema
        (parentIgnore ++ bd.IgnoreChanges)
      ++ validateBlocks bd resourceType path schema (parentIgnore ++ bd.IgnoreChanges)
/-- Method `BlockData.validateBlocks`: one pass over the block-type map of the schema node. -/
def validateBlocks (bd : BlockData) (resType path : String) :
    SchemaBlock → List String → List ValidationFinding
  | .mk _ bts, ignore => validateBlocksLoop bd resType path bts ignore
/-- The loop of `BlockData.validateBlocks` over the entries of `schema.BlockTypes`. -/
def validateBlocksLoop (bd : BlockData) (resType path : String) :
    List (String × SchemaBlockType) → List String → List ValidationFinding
  | [], _ => []
  | (name, .mk minItems block deprecated) :: rest, ignore =>
    (if name = "timeouts" || isIgnored equalFold ignore name then []
     else if deprecated then []
     else
       match selectTarget bd name with
       | none => [missingBlockFinding resType path name minItems]
       | some target =>
         Validate target.Data resType (path ++ "." ++ name) block ignore)
      ++ validateBlocksLoop bd resType path rest ignore
end

/-- What one entry of `schema.BlockTypes` contributes to the output of `validateBlocks`:
the body of its loop, as a function of the entry. -/
def blockEntryFindings (bd : BlockData) (resType path : String) (ignore : List String)
    (entry : String × SchemaBlockType) : List ValidationFinding :=
  if entry.1 = "timeouts" || isIgnored equalFold ignore entry.1 then []
  else if entry.2.Deprecated then []
  else
    match selectTarget bd entry.1 with
    | none => [missingBlockFinding resType path entry.1 entry.2.MinItems]
    | some target =>
      Validate equalFold target.Data resType (path ++ "." ++ entry.1) entry.2.Block ignore

end Validator

/-- Case-insensitive comparison of ASCII letters: what Go's `strings.EqualFold` computes
on strings of ASCII characters.  Used to instantiate `equalFold` on concrete inputs. -/
def equalFoldASCII (s t : String) : Bool :=
  s.data.map Char.toLower == t.data.map Char.toLower

section CallTree

variable (equalFold : String → String → Bool)

/-- One invocation of `Validate` with a non-nil schema: the receiver, the path, the
schema node and the inherited ignore list. -/
structure Invocation where
  bd : BlockData
  path : String
  schema : SchemaBlock
  parentIgnore : List String

/-- The local `ignore` of an invocation: `parentIgnore` followed by the block's own list. -/
def Invocation.ignore (c : Invocation) : List String :=
  c.parentIgnore ++ c.bd.IgnoreChanges

/-- The recursive calls `validateBlocks` makes on behalf of an invocation: one for every
block type that passes the three `continue` guards, has a child in the block, and whose
nested schema is not nil. -/
inductive Calls : Invocation → Invocation → Prop where
  | nested (c : Invocation) (name : String) (bt : SchemaBlockType) (target : ParsedBlock)
      (s : SchemaBlock) :
      (name, bt) ∈ c.schema.BlockTypes → name ≠ "timeouts" →
      isIgnored equalFold c.ignore name = false → bt.Deprecated = false →
      selectTarget c.bd name = some target → bt.Block = some s →
      Calls c { bd := target.Data, path := c.path ++ "." ++ name, schema := s,
                parentIgnore := c.ignore }

/-- The invocations reached from an invocation by zero or more recursive calls. -/
def Reaches : Invocation → Invocation → Prop :=
  Relation.ReflTransGen (Calls equalFold)

/-- The child the recursion rule selects for block type `n`: `staticBlocks[n]` when it
exists, `dynamicBlocks[n]` otherwise. -/
def selectedChild (bd : BlockData) (n : String) : Option ParsedBlock :=
  (bd.StaticBlocks.lookup n).orElse (fun _ => bd.DynamicBlocks.lookup n)

/-- The block findings of the current level, as the recursion rule words them: one finding
for every block type that is not `timeouts`, not suppressed, not deprecated, and has an
entry in neither child map. -/
def levelBlockFindings (bd : BlockData) (rt p : String) (schema : SchemaBlock)
    (ignore : List String) : List ValidationFinding :=
  schema.BlockTypes.filterMap fun (e : String × SchemaBlockType) =>
    if e.1 ≠ "timeouts" ∧ isIgnored equalFold ignore e.1 = false ∧ e.2.Deprecated = false
        ∧ (bd.StaticBlocks.lookup e.1).isNone = true
        ∧ (bd.DynamicBlocks.lookup e.1).isNone = true then
      some { ResourceType := rt, Path := p, Name := e.1,
             Required := decide (e.2.MinItems > 0), IsBlock := true,
             IsDataSource := false, SubmoduleName := "" }
    else none

/-- The nested findings, as the recursion rule words them: for every block type that is
not `timeouts`, not suppressed, not deprecated and present in the block, the findings of
`Validate` on the selected child under the extended path, the nested schema and the
effective ignore list; nothing for any other block type. -/
def nestedFindings (bd : BlockData) (rt p : String) (schema : SchemaBlock)
    (ignore : List String) : List ValidationFinding :=
  schema.BlockTypes.flatMap fun (e : String × SchemaBlockType) =>
    if e.1 = "timeouts" ∨ isIgnored equalFold ignore e.1 = true ∨ e.2.Deprecated = true then []
    else
      match selectedChild bd e.1 with
      | none => []
      | some child => Validate equalFold child.Data rt (p ++ "." ++ e.1) e.2.Block ignore

end CallTree

/-! ## Example inputs -/

/-- Attributes `name` (required), `tags` (optional) and `id` (required). -/
def schemaNameTagsId : SchemaBlock :=
  .mk [("name", ⟨true, false, false, false⟩), ("tags", ⟨false, true, false, false⟩),
       ("id", ⟨true, false, false, false⟩)] []

/-- A block that sets only `name`. -/
def blockNameOnly : BlockData := .mk ["name"] [] [] []

/-- One optional attribute `tags`. -/
def schemaTags : SchemaBlock := .mk [("tags", ⟨false, true, false, false⟩)] []

/-- A required block type `network_config` (MinItems 1) whose nested schema has the
required attribute `subnet_id`. -/
def schemaNetworkConfig : SchemaBlock :=
  .mk [] [("network_config", .mk 1 (some (.mk [("subnet_id", ⟨true, false, false, false⟩)] []))
            false)]

/-- A block with no attributes, no child blocks and an empty ignore list. -/
def blockEmpty : BlockData := .mk [] [] [] []

/-- A computed-only attribute `etag`, an optional attribute `tags`, and a block type
`identity` whose nested schema has a computed-only `principal_id` and an optional `type`. -/
def schemaComputed : SchemaBlock :=
  .mk [("etag", ⟨false, false, true, false⟩), ("tags", ⟨false, true, false, false⟩)]
      [("identity", .mk 0
          (some (.mk [("principal_id", ⟨false, false, true, false⟩),
                      ("type", ⟨false, true, false, false⟩)] [])) false)]

/-- A block with an empty `identity` child block. -/
def blockWithIdentity : BlockData := .mk [] [("identity", .mk blockEmpty)] [] []

/-! ## Deduplication of findings (`validator.go`) -/

/-- The verb `%v` of `fmt.Sprintf` applied to a `bool`. -/
def formatBool (b : Bool) : String :=
  if b then "true" else "false"

/-- The `key` of `DeduplicateFindings`:
`fmt.Sprintf("%s|%s|%s|%v|%v|%s", ResourceType, Path, Name, IsBlock, IsDataSource, SubmoduleName)`. -/
def dedupKey (f : ValidationFinding) : String :=
  f.ResourceType ++ "|" ++ f.Path ++ "|" ++ f.Name ++ "|" ++ formatBool f.IsBlock ++ "|"
    ++ formatBool f.IsDataSource ++ "|" ++ f.SubmoduleName

/-- One iteration of the loop of `DeduplicateFindings` on the state `(seen, result)`: the
key set `seen` is kept as the list of the keys inserted so far. -/
def dedupStep (state : List String × List ValidationFinding) (f : ValidationFinding) :
    List String × List ValidationFinding :=
  if dedupKey f ∈ state.1 then state
  else (dedupKey f :: state.1, state.2 ++ [f])

/-- Function `DeduplicateFindings`: a single pass from the empty `seen` set and the empty result. -/
def DeduplicateFindings (findings : List ValidationFinding) : List ValidationFinding :=
  (findings.foldl dedupStep ([], [])).2

/-- The identity tuple of a finding:
(ResourceType, Path, Name, IsBlock, IsDataSource, SubmoduleName). -/
def identity (f : ValidationFinding) : String × String × String × Bool × Bool × String :=
  (f.ResourceType, f.Path, f.Name, f.IsBlock, f.IsDataSource, f.SubmoduleName)

/-- A finding whose `Path` contains the separator of the key: path `root|x`, name `y`. -/
def findingBarInPath : ValidationFinding :=
  { ResourceType := "azurerm_subnet", Path := "root|x", Name := "y", Required := false,
    IsBlock := true, IsDataSource := false, SubmoduleName := "" }

/-- A finding whose `Name` contains the separator of the key: path `root`, name `x|y`. -/
def findingBarInName : ValidationFinding :=
  { ResourceType := "azurerm_subnet", Path := "root", Name := "x|y", Required := false,
    IsBlock := true, IsDataSource := false, SubmoduleName := "" }

/-- A finding of type `a|b` at path `c` in submodule `m`. -/
def findingTypeAB : ValidationFinding :=
  { ResourceType := "a|b", Path := "c", Name := "n", Required := true,
    IsBlock := false, IsDataSource := false, SubmoduleName := "m" }

/-- A finding of type `a` at path `b|c` in submodule `m`. -/
def findingPathBC : ValidationFinding :=
  { ResourceType := "a", Path := "b|c", Name := "n", Required := true,
    IsBlock := false, IsDataSource := false, SubmoduleName := "m" }

/-- The findings the loop of `DeduplicateFindings` still appends when it has `seen` in hand
and `fs` ahead of it. -/
def keepUnseen (seen : List String) : List ValidationFinding → List ValidationFinding
  | [] => []
  | f :: fs =>
    if dedupKey f ∈ seen then keepUnseen seen fs
    else f :: keepUnseen (dedupKey f :: seen) fs

/-! ## Merging blocks (`block_data.go`) -/

/-- The loop `for k := range src.Data.Properties` of `mergeBlocks`: every key of `src` is
stored in `dest`; a key that is new comes after the keys already there. -/
def mergeProperties (dest : List String) : List String → List String
  | [] => dest
  | k :: rest => mergeProperties (if k ∈ dest then dest else dest ++ [k]) rest

/-- The assignment `m[k] = v` on a map of child blocks: the value under an existing key is
replaced, a new key is added. -/
def mapStore (m : List (String × ParsedBlock)) (k : String) (v : ParsedBlock) :
    List (String × ParsedBlock) :=
  if (m.lookup k).isSome then m.map (fun e => if e.1 = k then (k, v) else e)
  else m ++ [(k, v)]

mutual
/-- Function `mergeBlocks(dest, src)`, read as the value of `dest` after the call. -/
def mergeBlocks (dest : ParsedBlock) : ParsedBlock → ParsedBlock
  | .mk srcData => .mk (mergeBlockData dest.Data srcData)
/-- The four steps of `mergeBlocks` on the `Data` fields. -/
def mergeBlockData (dest : BlockData) : BlockData → BlockData
  | .mk properties staticBlocks dynamicBlocks ignoreChanges =>
    .mk (mergeProperties dest.Properties properties)
        (mergeChildren dest.StaticBlocks staticBlocks)
        (mergeChildren dest.DynamicBlocks dynamicBlocks)
        (dest.IgnoreChanges ++ ignoreChanges)
/-- The loops `for k, v := range src.Data.StaticBlocks` and `... DynamicBlocks` of
`mergeBlocks`: an existing child is merged with `v` in place, a missing one becomes `v`. -/
def mergeChildren (destMap : List (String × ParsedBlock)) :
    List (String × ParsedBlock) → List (String × ParsedBlock)
  | [] => destMap
  | (k, v) :: rest =>
    match destMap.lookup k with
    | some existing => mergeChildren (mapStore destMap k (mergeBlocks existing v)) rest
    | none => mergeChildren (mapStore destMap k v) rest
end

mutual
/-- A block is a tree of Go maps: at every level the property names are pairwise distinct
and so are the keys of the two child maps. -/
def ParsedBlock.distinctKeys : ParsedBlock → Bool
  | .mk d => d.distinctKeys
/-- The same for the `Data` of a block. -/
def BlockData.distinctKeys : BlockData → Bool
  | .mk properties staticBlocks dynamicBlocks _ =>
    decide properties.Nodup
      && decide (staticBlocks.map Prod.fst).Nodup
      && decide (dynamicBlocks.map Prod.fst).Nodup
      && childrenDistinctKeys staticBlocks
      && childrenDistinctKeys dynamicBlocks
/-- Every child of a child map is a tree of Go maps. -/
def childrenDistinctKeys : List (String × ParsedBlock) → Bool
  | [] => true
  | (_, v) :: rest => v.distinctKeys && childrenDistinctKeys rest
end

/-- What `mergeChildren` leaves under the key of a `dest` entry: the entry merged with the
child `src` has under that key, or the entry itself when `src` has none. -/
def mergeEntry (src : List (String × ParsedBlock)) (e : String × ParsedBlock) :
    String × ParsedBlock :=
  (e.1, match src.lookup e.1 with
        | some w => mergeBlocks e.2 w
        | none => e.2)

/-- The child map `mergeChildren` computes from two maps with distinct keys, in closed form:
the entries of `dest`, merged where `src` has the key, then the entries of `src` whose key
`dest` lacks. -/
def mergedChildren (dest src : List (String × ParsedBlock)) : List (String × ParsedBlock) :=
  dest.map (mergeEntry src) ++ src.filter (fun e => (dest.lookup e.1).isNone)

/-- An example block: property `a`, a static child `x` and the ignore entry `u`. -/
def mergeExampleA : ParsedBlock :=
  .mk (.mk ["a"] [("x", .mk (.mk ["p"] [] [] ["i"]))] [] ["u"])

/-- An example block: properties `b`, `a`, static children `x` and `y`, a dynamic child `z`. -/
def mergeExampleB : ParsedBlock :=
  .mk (.mk ["b", "a"] [("x", .mk (.mk ["q"] [] [] ["j"])), ("y", .mk (.mk [] [] [] []))]
        [("z", .mk (.mk ["r"] [] [] []))] ["v"])

/-- An example block: property `c`, static children `y` and `x`, a dynamic child `z`. -/
def mergeExampleC : ParsedBlock :=
  .mk (.mk ["c"] [("y", .mk (.mk ["s"] [] [] [])), ("x", .mk (.mk ["p", "t"] [] [] ["k"]))]
        [("z", .mk (.mk ["w"] [] [] ["l"]))] ["w"])

/-! ## Building a block from a source body (`block_data.go`, `parser.go`)

The syntax tree (`hclsyntax`) and the values (`cty`) belong to external libraries.  They are
modelled by what the code observes of them. -/

/-- An element of a collection of strings: a known string, or a string that is null or
unknown, on which `AsString` panics. -/
inductive CtyString where
  | known (s : String)
  | nullOrUnknown
deriving DecidableEq, Repr

/-- A `cty.Value` as the code observes it.  All elements of a collection have the element
type of the collection, so a collection holds strings only or no string at all.

* `string s` is a known string;
* `stringCollection elements` is a known list, set or map of strings, with its elements in
  the order of `ElementIterator`; each element is known, or null or unknown;
* `otherCollection` is a known collection whose elements are not strings;
* `nullOrUnknownCollection` is a null or unknown value of a collection type, on which
  `ElementIterator` panics;
* `other` is any other value: its type is not a collection type and it is not a known
  string. -/
inductive CtyValue where
  | string (s : String)
  | stringCollection (elements : List CtyString)
  | otherCollection
  | nullOrUnknownCollection
  | other
deriving DecidableEq, Repr

/-- An `hclsyntax.Expression` as the code observes it: the three expression kinds of the type
switch of `extractLifecycleIgnoreChangesFromAST`, the tuple constructor around them, and any
other expression.  A traversal is the list of the names of its steps, the root name first.
The value of a literal is the one the parser stored: a quoted piece of text is a known
string, and no other literal has the type string. -/
inductive Expression where
  | TupleConsExpr (Exprs : List Expression)
  | ScopeTraversalExpr (Traversal : List String)
  | TemplateExpr (Parts : List Expression)
  | LiteralValueExpr (Val : CtyValue)
  | other

mutual
/-- An `hclsyntax.Body`: the attribute map and the blocks in source order. -/
inductive Body where
  | mk (Attributes : List (String × Expression)) (Blocks : List Block)
/-- An `hclsyntax.Block`: type, labels and body. -/
inductive Block where
  | mk (TypeName : String) (Labels : List String) (Body : Body)
end

/-- Field `Attributes` of a body. -/
def Body.Attributes : Body → List (String × Expression)
  | .mk attrs _ => attrs

/-- Field `Blocks` of a body. -/
def Body.Blocks : Body → List Block
  | .mk _ blocks => blocks

/-- Field `Type` of a block (`Type` is reserved in Lean). -/
def Block.TypeName : Block → String
  | .mk t _ _ => t

/-- Field `Labels` of a block. -/
def Block.Labels : Block → List String
  | .mk _ l _ => l

/-- Field `Body` of a block. -/
def Block.Body : Block → Body
  | .mk _ _ b => b

/-- Function `NewBlockData`: empty maps and an empty ignore list. -/
def NewBlockData : BlockData := .mk [] [] [] []

/-- The assignment `bd.Properties[name] = true`. -/
def setProperty (properties : List String) (name : String) : List String :=
  if name ∈ properties then properties else properties ++ [name]

/-- Method `BlockData.ParseAttributes`: every attribute name of the body becomes a property. -/
def ParseAttributes (bd : BlockData) (body : Body) : BlockData :=
  .mk ((body.Attributes.map Prod.fst).foldl setProperty bd.Properties)
    bd.StaticBlocks bd.DynamicBlocks bd.IgnoreChanges

/-- The statement `bd.IgnoreChanges = append(bd.IgnoreChanges, extracted...)`. -/
def BlockData.appendIgnoreChanges (bd : BlockData) (extracted : List String) : BlockData :=
  .mk bd.Properties bd.StaticBlocks bd.DynamicBlocks (bd.IgnoreChanges ++ extracted)

/-- The loop of `extractIgnoreChanges` over the elements of a collection of strings, with
the list `changes` built so far.  Every element passes the test `v.Type() == cty.String`, so
`v.AsString()` is called on it: on a null or unknown element that call panics (`none`); the
string `all` ends the loop with the wildcard list; any other string is appended. -/
def extractIgnoreChangesLoop (changes : List String) : List CtyString → Option (List String)
  | [] => some changes
  | .nullOrUnknown :: _ => none
  | .known str :: rest =>
    if str = "all" then some ["*all*"] else extractIgnoreChangesLoop (changes ++ [str]) rest

/-- Function `extractIgnoreChanges`; `none` stands for a panic.  A value whose type is a
collection type is iterated: `ElementIterator` panics on a null or unknown collection, the
loop runs over a collection of strings, and in any other collection no element passes the
test `v.Type() == cty.String`.  Any other value leaves `changes` empty. -/
def extractIgnoreChanges : CtyValue → Option (List String)
  | .stringCollection elements => extractIgnoreChangesLoop [] elements
  | .otherCollection => some []
  | .nullOrUnknownCollection => none
  | .string _ => some []
  | .other => some []

/-- A value on which `extractIgnoreChanges` returns.  `parseLifecycle` hands the evaluated
value to `extractIgnoreChanges` as it is; where that call panics the program stops and no
block is built, so building a block is described for the values on which the call
returns. -/
structure ExtractableValue where
  val : CtyValue
  returns : (extractIgnoreChanges val).isSome = true

/-- The type switch of `extractLifecycleIgnoreChangesFromAST` on one element of the tuple:
the strings it appends. -/
def literalIgnoreEntry : Expression → List String
  | .ScopeTraversalExpr (root :: _) => [root]
  | .TemplateExpr [.LiteralValueExpr (.string s)] => [s]
  | .LiteralValueExpr (.string s) => [s]
  | _ => []

/-- What `extractLifecycleIgnoreChangesFromAST` appends for one attribute of a lifecycle
block. -/
def literalIgnoreAttribute (entry : String × Expression) : List String :=
  if entry.1 = "ignore_changes" then
    match entry.2 with
    | .TupleConsExpr exprs => exprs.flatMap literalIgnoreEntry
    | _ => []
  else []

/-- Function `extractLifecycleIgnoreChangesFromAST`: the literal entries of `ignore_changes`
of every lifecycle block of the body, in source order. -/
def extractLifecycleIgnoreChangesFromAST (body : Body) : List String :=
  body.Blocks.flatMap fun (block : Block) =>
    if block.TypeName = "lifecycle" then block.Body.Attributes.flatMap literalIgnoreAttribute
    else []

section Parse

variable (exprValue : Expression → Option ExtractableValue)

/-- Method `BlockData.parseLifecycle`: for the attribute `ignore_changes`, the entries
extracted from its evaluated value are appended, unless evaluation reports errors.
`exprValue` stands for `attr.Expr.Value(nil)`: `none` when the diagnostics have errors,
else the value, on which the call of `extractIgnoreChanges` returns. -/
def parseLifecycle (bd : BlockData) (body : Body) : BlockData :=
  body.Attributes.foldl
    (fun (bd : BlockData) (entry : String × Expression) =>
      if entry.1 = "ignore_changes" then
        match exprValue entry.2 with
        | some v => bd.appendIgnoreChanges ((extractIgnoreChanges v.val).get v.returns)
        | none => bd
      else bd)
    bd

/-- The second half of `BlockData.parseDynamicBlock`: the parsed content is merged into the
entry under the label when there is one, and stored under the label otherwise. -/
def storeDynamicBlock (bd : BlockData) (name : String) (parsed : ParsedBlock) : BlockData :=
  match bd.DynamicBlocks.lookup name with
  | some existing =>
    .mk bd.Properties bd.StaticBlocks
      (mapStore bd.DynamicBlocks name (mergeBlocks existing parsed)) bd.IgnoreChanges
  | none =>
    .mk bd.Properties bd.StaticBlocks (mapStore bd.DynamicBlocks name parsed) bd.IgnoreChanges

/-- The body of the loop of `BlockData.ParseBlocks` for one block, given the block built from
its body (`parsedBody`) and the block built from its content (`parsedContent`). -/
def parseBlockStep (bd : BlockData) (type : String) (labels : List String) (body : Body)
    (parsedBody parsedContent : ParsedBlock) : BlockData :=
  if type = "lifecycle" then parseLifecycle exprValue bd body
  else if type = "dynamic" then
    match labels with
    | [label] => storeDynamicBlock bd label parsedContent
    | _ => bd
  else
    .mk bd.Properties (mapStore bd.StaticBlocks type parsedBody) bd.DynamicBlocks
      bd.IgnoreChanges

/-- The first statement of `BlockData.ParseBlocks`: the literal entries are appended when
there are any. -/
def appendDirectIgnoreChanges (bd : BlockData) (body : Body) : BlockData :=
  if (extractLifecycleIgnoreChangesFromAST body).length > 0 then
    bd.appendIgnoreChanges (extractLifecycleIgnoreChangesFromAST body)
  else bd

/-- The value `ParseSyntaxBody` returns.  `blk := &ParsedBlock{Data: bd}` copies `bd` before
anything is parsed: the three maps of the copy are the maps the parse fills, while
`IgnoreChanges` is a slice that `append` replaces in `bd` only, so the copy keeps the empty
list of `NewBlockData`. -/
def returnedBlock (parsed : BlockData) : ParsedBlock :=
  .mk (.mk parsed.Properties parsed.StaticBlocks parsed.DynamicBlocks
    NewBlockData.IgnoreChanges)

mutual
/-- Function `ParseSyntaxBody`: a new block filled by `ParseAttributes` and `ParseBlocks`. -/
def ParseSyntaxBody : Body → ParsedBlock
  | .mk attrs blocks =>
    returnedBlock
      (parseBlocksLoop
        (appendDirectIgnoreChanges (ParseAttributes NewBlockData (.mk attrs blocks))
          (.mk attrs blocks))
        blocks)
/-- The loop of `BlockData.ParseBlocks` over the blocks of the body. -/
def parseBlocksLoop (bd : BlockData) : List Block → BlockData
  | [] => bd
  | .mk type labels body :: rest =>
    parseBlocksLoop
      (parseBlockStep exprValue bd type labels body (ParseSyntaxBody body) (parseContent body))
      rest
/-- The first half of `BlockData.parseDynamicBlock`:
`ParseSyntaxBody(findContentBlockInBody(body))`. -/
def parseContent : Body → ParsedBlock
  | .mk attrs blocks =>
    match parseFirstContent blocks with
    | some parsed => parsed
    | none =>
      returnedBlock
        (parseBlocksLoop
          (appendDirectIgnoreChanges (ParseAttributes NewBlockData (.mk attrs blocks))
            (.mk attrs blocks))
          blocks)
/-- The block built from the body of the first block of type `content`, if there is one. -/
def parseFirstContent : List Block → Option ParsedBlock
  | [] => none
  | .mk type _ body :: rest =>
    if type = "content" then some (ParseSyntaxBody body) else parseFirstContent rest
end

/-- Method `BlockData.ParseBlocks`: the literal entries, then the loop over the blocks. -/
def ParseBlocks (bd : BlockData) (body : Body) : BlockData :=
  parseBlocksLoop exprValue (appendDirectIgnoreChanges bd body) body.Blocks

end Parse

/-- A body whose lifecycle block sets `ignore_changes = [all]` (bare identifier), next to
the attribute `location`. -/
def bodyIgnoreBareAll : Body :=
  .mk [("location", .other)]
    [.mk "lifecycle" []
      (.mk [("ignore_changes", .TupleConsExpr [.ScopeTraversalExpr ["all"]])] [])]

/-- A body whose lifecycle block sets `ignore_changes = ["all"]` (quoted string), next to
the attribute `location`. -/
def bodyIgnoreQuotedAll : Body :=
  .mk [("location", .other)]
    [.mk "lifecycle" []
      (.mk [("ignore_changes",
              .TupleConsExpr [.TemplateExpr [.LiteralValueExpr (.string "all")]])] [])]

/-- Evaluation without variables, on the two example bodies: a tuple that holds a bare
identifier has error diagnostics, any other tuple evaluates to a tuple value, which is not
a collection. -/
def exprValueNoVariables : Expression → Option ExtractableValue
  | .TupleConsExpr [.ScopeTraversalExpr _] => none
  | _ => some ⟨.other, rfl⟩

/-- A schema with the required attributes `name` and `location`. -/
def schemaNameLocation : SchemaBlock :=
  .mk [("name", ⟨true, false, false, false⟩), ("location", ⟨true, false, false, false⟩)] []

/-! ## Rendering a finding (`validator.go`) -/

/-- The scan of `strings.ReplaceAll` for a non-empty `old`, on the characters still ahead:
`skip` counts the characters of a match that remain to be passed over.  Matches are taken
left to right and do not overlap. -/
def replaceAllLoop (old new : List Char) : Nat → List Char → List Char
  | _, [] => []
  | skip + 1, _ :: rest => replaceAllLoop old new skip rest
  | 0, c :: rest =>
    if old.isPrefixOf (c :: rest) then new ++ replaceAllLoop old new (old.length - 1) rest
    else c :: replaceAllLoop old new 0 rest

/-- Go's `strings.ReplaceAll(s, old, new)` for a non-empty `old`. -/
def ReplaceAll (s old new : String) : String :=
  ⟨replaceAllLoop old.data new.data 0 s.data⟩

/-- Function `FormatFinding`. -/
def FormatFinding (f : ValidationFinding) : String :=
  let cleanPath := ReplaceAll f.Path "root." ""
  let cleanPath := if cleanPath = "root" then "root" else cleanPath
  let requiredOptional := if f.Required then "required" else "optional"
  let blockOrProp := if f.IsBlock then "block" else "property"
  let entityType := if f.IsDataSource then "data source" else "resource"
  let place :=
    if f.SubmoduleName ≠ "" then cleanPath ++ " in submodule " ++ f.SubmoduleName
    else cleanPath
  f.ResourceType ++ ": missing " ++ requiredOptional ++ " " ++ blockOrProp ++ " " ++ f.Name
    ++ " in " ++ place ++ " (" ++ entityType ++ ")"

/-- A finding for the attribute `sku` of a block type `bar` nested in a block type
`foo_root`. -/
def findingUnderFooRoot : ValidationFinding :=
  { ResourceType := "azurerm_example", Path := "root.foo_root.bar", Name := "sku",
    Required := true, IsBlock := false, IsDataSource := false, SubmoduleName := "" }

/-- A finding for the block type `subnet` nested in `network`, found in the submodule
`storage`. -/
def findingUnderNetwork : ValidationFinding :=
  { ResourceType := "azurerm_example", Path := "root.network", Name := "subnet",
    Required := false, IsBlock := true, IsDataSource := true, SubmoduleName := "storage" }

/-! ## Filtering and validating resource records (`validator.go`) -/

/-- Modelled from the spec: the declaration of `ParsedResource` is not part of the sources
at hand.  It carries the type, the name and the block (`Type` is reserved in Lean). -/
structure ParsedResource where
  TypeName : String
  Name : String
  Data : BlockData

/-- Modelled from the spec: the declaration of `ParsedDataSource` is not part of the sources
at hand.  It carries the type, the name and the block. -/
structure ParsedDataSource where
  TypeName : String
  Name : String
  Data : BlockData

/-- Modelled from the spec: the declaration of `ProviderConfig` is not part of the sources
at hand: the normalised source and the version. -/
structure ProviderConfig where
  Source : String
  Version : String

/-- Modelled from the spec: the declaration of the schema entry of one resource or data
source type is not part of the sources at hand; the code reads its field `Block`. -/
structure ResourceSchema where
  Block : Option SchemaBlock

/-- Modelled from the spec: the declaration of the schema branch of one provider is not part
of the sources at hand: resource type to schema entry, data source type to schema entry. -/
structure ProviderSchema where
  ResourceSchemas : List (String × ResourceSchema)
  DataSourceSchemas : List (String × ResourceSchema)

/-- Modelled from the spec: the declaration of `TerraformSchema` is not part of the sources
at hand: provider source to schema branch. -/
structure TerraformSchema where
  ProviderSchemas : List (String × ProviderSchema)

/-- Function `filterResources`: the input itself for an empty exclusion list, otherwise the
records whose type is not contained in it, appended one by one. -/
def filterResources (resources : List ParsedResource) (excluded : List String) :
    List ParsedResource :=
  if excluded.length = 0 then resources
  else
    resources.foldl
      (fun (filtered : List ParsedResource) (r : ParsedResource) =>
        if !(excluded.contains r.TypeName) then filtered ++ [r] else filtered)
      []

/-- Function `filterDataSources`: the same on data source records. -/
def filterDataSources (dataSources : List ParsedDataSource) (excluded : List String) :
    List ParsedDataSource :=
  if excluded.length = 0 then dataSources
  else
    dataSources.foldl
      (fun (filtered : List ParsedDataSource) (ds : ParsedDataSource) =>
        if !(excluded.contains ds.TypeName) then filtered ++ [ds] else filtered)
      []

/-- Go's `strings.SplitN(s, "_", 2)` on the characters of `s`: the string itself when it has
no underscore, otherwise the part before the first underscore and the part after it. -/
def splitAtUnderscore : List Char → List (List Char)
  | [] => [[]]
  | c :: rest =>
    if c = '_' then [[], rest]
    else
      match splitAtUnderscore rest with
      | first :: more => (c :: first) :: more
      | [] => [[c]]

/-- The expression `strings.SplitN(typeName, "_", 2)[0]`.  The list is never empty, see
`splitAtUnderscore_ne_nil`, so the default of `headD` is never used. -/
def provName (typeName : String) : String :=
  ⟨(splitAtUnderscore typeName.data).headD []⟩

section Orchestrator

variable (equalFold : String → String → Bool)

/-- The inner loops of `ValidateResources` over `local`: a finding whose name matches an
entry of the top-level ignore list is dropped, the others are tagged with the submodule
name and appended. -/
def tagResourceFindings (ignoreChanges : List String) (submoduleName : String)
    (findings : List ValidationFinding) : List ValidationFinding :=
  (findings.filter fun (f : ValidationFinding) =>
      !(ignoreChanges.any fun ignored => equalFold ignored f.Name)).map
    fun (f : ValidationFinding) => { f with SubmoduleName := submoduleName }

/-- The inner loops of `ValidateDataSources` over `local`: as for resources, and the data
source flag is set. -/
def tagDataSourceFindings (ignoreChanges : List String) (submoduleName : String)
    (findings : List ValidationFinding) : List ValidationFinding :=
  (findings.filter fun (f : ValidationFinding) =>
      !(ignoreChanges.any fun ignored => equalFold ignored f.Name)).map
    fun (f : ValidationFinding) =>
      { f with SubmoduleName := submoduleName, IsDataSource := true }

/-- One iteration of the loop of `ValidateResources`: the findings it appends for the
resource `r`, none when a lookup fails (the log lines are not modelled). -/
def resourceFindings (schema : TerraformSchema) (providers : List (String × ProviderConfig))
    (submoduleName : String) (r : ParsedResource) : List ValidationFinding :=
  match providers.lookup (provName r.TypeName) with
  | none => []
  | some cfg =>
    match schema.ProviderSchemas.lookup cfg.Source with
    | none => []
    | some pSchema =>
      match pSchema.ResourceSchemas.lookup r.TypeName with
      | none => []
      | some resSchema =>
        tagResourceFindings equalFold r.Data.IgnoreChanges submoduleName
          (Validate equalFold r.Data r.TypeName "root" resSchema.Block r.Data.IgnoreChanges)

/-- One iteration of the loop of `ValidateDataSources`. -/
def dataSourceFindings (schema : TerraformSchema) (providers : List (String × ProviderConfig))
    (submoduleName : String) (ds : ParsedDataSource) : List ValidationFinding :=
  match providers.lookup (provName ds.TypeName) with
  | none => []
  | some cfg =>
    match schema.ProviderSchemas.lookup cfg.Source with
    | none => []
    | some pSchema =>
      match pSchema.DataSourceSchemas.lookup ds.TypeName with
      | none => []
      | some dsSchema =>
        tagDataSourceFindings equalFold ds.Data.IgnoreChanges submoduleName
          (Validate equalFold ds.Data ds.TypeName "root" dsSchema.Block ds.Data.IgnoreChanges)

/-- Method `DefaultSchemaValidator.ValidateResources`: the findings of the iterations, in
the order of the resources.  `dir` only occurs in log lines and is left out. -/
def ValidateResources (resources : List ParsedResource) (schema : TerraformSchema)
    (providers : List (String × ProviderConfig)) (submoduleName : String) :
    List ValidationFinding :=
  resources.foldl
    (fun (findings : List ValidationFinding) (r : ParsedResource) =>
      findings ++ resourceFindings equalFold schema providers submoduleName r)
    []

/-- Method `DefaultSchemaValidator.ValidateDataSources`. -/
def ValidateDataSources (dataSources : List ParsedDataSource) (schema : TerraformSchema)
    (providers : List (String × ProviderConfig)) (submoduleName : String) :
    List ValidationFinding :=
  dataSources.foldl
    (fun (findings : List ValidationFinding) (ds : ParsedDataSource) =>
      findings ++ dataSourceFindings equalFold schema providers submoduleName ds)
    []

end Orchestrator

/-- A resource is routable when its provider alias has a provider config, the source of that
config has a schema branch, and the branch has an entry for the resource type. -/
def routableResource (schema : TerraformSchema) (providers : List (String × ProviderConfig))
    (r : ParsedResource) : Bool :=
  match providers.lookup (provName r.TypeName) with
  | none => false
  | some cfg =>
    match schema.ProviderSchemas.lookup cfg.Source with
    | none => false
    | some pSchema => (pSchema.ResourceSchemas.lookup r.TypeName).isSome

/-- The same for a data source, with the data source entries of the branch. -/
def routableDataSource (schema : TerraformSchema) (providers : List (String × ProviderConfig))
    (ds : ParsedDataSource) : Bool :=
  match providers.lookup (provName ds.TypeName) with
  | none => false
  | some cfg =>
    match schema.ProviderSchemas.lookup cfg.Source with
    | none => false
    | some pSchema => (pSchema.DataSourceSchemas.lookup ds.TypeName).isSome

/-- An example schema document: the provider `registry.terraform.io/hashicorp/azurerm` with
the resource type `azurerm_resource_group` and the data source type `azurerm_subnet`. -/
def exampleTerraformSchema : TerraformSchema :=
  { ProviderSchemas :=
      [("registry.terraform.io/hashicorp/azurerm",
        { ResourceSchemas := [("azurerm_resource_group", ⟨some schemaNameLocation⟩)],
          DataSourceSchemas := [("azurerm_subnet", ⟨some schemaNameLocation⟩)] })] }

/-- Example provider configs: the alias `azurerm`, and the alias `random` whose source has
no schema branch. -/
def exampleProviders : List (String × ProviderConfig) :=
  [("azurerm", ⟨"registry.terraform.io/hashicorp/azurerm", "~> 4.0"⟩),
   ("random", ⟨"registry.terraform.io/hashicorp/random", "~> 3.0"⟩)]

/-- Example resources: a routable resource group that sets `location`, a resource of an
alias without provider config, one whose provider has no schema branch, one whose type has
no schema entry, and a second routable resource group that sets `name`. -/
def exampleResources : List ParsedResource :=
  [⟨"azurerm_resource_group", "a", .mk ["location"] [] [] []⟩,
   ⟨"aws_instance", "b", .mk [] [] [] []⟩,
   ⟨"random_id", "c", .mk [] [] [] []⟩,
   ⟨"azurerm_unknown", "d", .mk [] [] [] []⟩,
   ⟨"azurerm_resource_group", "e", .mk ["name"] [] [] []⟩]

/-! ## Changing the ignore list of a child block -/

/-- A block with its ignore list replaced, everything else kept. -/
def ParsedBlock.withIgnoreChanges (child : ParsedBlock) (ignoreChanges : List String) :
    ParsedBlock :=
  .mk (.mk child.Data.Properties child.Data.StaticBlocks child.Data.DynamicBlocks ignoreChanges)

/-- The block `bd` after only the ignore list of its selected child under the block type name
`c` is changed: the static child when there is one, the dynamic child otherwise; `bd` itself
when it has no child under `c`. -/
def withChildIgnore (bd : BlockData) (c : String) (ignoreChanges : List String) : BlockData :=
  match bd.StaticBlocks.lookup c with
  | some child =>
    .mk bd.Properties (mapStore bd.StaticBlocks c (child.withIgnoreChanges ignoreChanges))
      bd.DynamicBlocks bd.IgnoreChanges
  | none =>
    match bd.DynamicBlocks.lookup c with
    | some child =>
      .mk bd.Properties bd.StaticBlocks
        (mapStore bd.DynamicBlocks c (child.withIgnoreChanges ignoreChanges)) bd.IgnoreChanges
    | none => bd

/-- A schema with the optional attribute `tags` and two block types, `identity` and
`network`, each with one optional attribute in its nested schema. -/
def schemaTwoBlocks : SchemaBlock :=
  .mk [("tags", ⟨false, true, false, false⟩)]
      [("identity", .mk 0 (some (.mk [("type", ⟨false, true, false, false⟩)] [])) false),
       ("network", .mk 0 (some (.mk [("subnet_id", ⟨false, true, false, false⟩)] [])) false)]

/-- A block with an empty `identity` child and an empty `network` child. -/
def blockTwoChildren : BlockData :=
  .mk [] [("identity", .mk blockEmpty), ("network", .mk blockEmpty)] [] []

/-- A routable resource group whose own ignore list holds `Name`. -/
def resourceIgnoringName : ParsedResource :=
  ⟨"azurerm_resource_group", "rg", .mk [] [] [] ["Name"]⟩

/-! ## The toolchain runner

The runner that implements `TerraformRunner` is not part of the sources at hand; only its
interface, its callers and its tests are.  It is modelled from the specification. -/

/-- Modelled from the spec: the two requests the runner sends to the external toolchain,
initialisation of a directory and retrieval of its schema document. -/
inductive ToolchainCommand where
  | init
  | providersSchema
deriving DecidableEq, Repr

/-- Modelled from the spec: what one run of the external process gives back: the exit code,
the diagnostic output, and the schema document decoded from its output when there is one. -/
structure ProcessResult where
  exitCode : Nat
  output : String
  document : Option TerraformSchema

/-- Modelled from the spec: one entry of the record of toolchain invocations: the command
and the directory it ran in. -/
structure ToolchainCall where
  command : ToolchainCommand
  dir : String
deriving DecidableEq, Repr

/-- Modelled from the spec: the runner, missing from the sources, as an explicit cache object
keyed by the resolved absolute directory.  `initialized` holds the directories whose
initialisation succeeded, `schemaCache` maps a directory to the address of its schema,
`heap` holds the schemas fetched so far (the address of a schema is its position), and
`calls` records the toolchain invocations made, oldest first. -/
structure RunnerState where
  initialized : List String
  schemaCache : List (String × Nat)
  heap : List TerraformSchema
  calls : List ToolchainCall

/-- Modelled from the spec: the result of `GetSchema`, a pointer to the in-memory schema or
an error carrying the diagnostic output. -/
inductive SchemaResult where
  | schema (address : Nat)
  | error (diagnostic : String)
deriving DecidableEq, Repr

/-- Modelled from the spec: the constructor `NewTerraformRunner` of the missing runner, with
empty caches. -/
def NewTerraformRunner : RunnerState :=
  { initialized := [], schemaCache := [], heap := [], calls := [] }

section Runner

variable (absPath : String → String)
variable (toolchain : Nat → ToolchainCommand → String → ProcessResult)

/-- Modelled from the spec: the method `Init` of the missing runner, with get-or-compute
semantics: a directory already initialised is not initialised again; otherwise the toolchain
runs once, a non-zero exit surfaces as an error carrying its diagnostic output, and a zero
exit marks the directory as initialised.  The result is the error, `none` on success.
`absPath` resolves the directory to the memoisation key; `toolchain n` is the outcome of the
invocation made after `n` earlier ones. -/
def Init (r : RunnerState) (dir : String) : RunnerState × Option String :=
  if absPath dir ∈ r.initialized then (r, none)
  else if (toolchain r.calls.length .init (absPath dir)).exitCode ≠ 0 then
    ({ r with calls := r.calls ++ [⟨.init, absPath dir⟩] },
     some (toolchain r.calls.length .init (absPath dir)).output)
  else
    ({ r with calls := r.calls ++ [⟨.init, absPath dir⟩],
              initialized := r.initialized ++ [absPath dir] },
     none)

/-- Modelled from the spec: the method `GetSchema` of the missing runner, with
get-or-compute semantics: a directory whose schema is cached gets the cached pointer without
any invocation; otherwise the toolchain runs once, a non-zero exit (or an output that is not
a schema document) surfaces as an error, and a schema document is stored at a new address,
cached under the directory and returned. -/
def GetSchema (r : RunnerState) (dir : String) : RunnerState × SchemaResult :=
  match r.schemaCache.lookup (absPath dir) with
  | some address => (r, .schema address)
  | none =>
    if (toolchain r.calls.length .providersSchema (absPath dir)).exitCode ≠ 0 then
      ({ r with calls := r.calls ++ [⟨.providersSchema, absPath dir⟩] },
       .error (toolchain r.calls.length .providersSchema (absPath dir)).output)
    else
      match (toolchain r.calls.length .providersSchema (absPath dir)).document with
      | none =>
        ({ r with calls := r.calls ++ [⟨.providersSchema, absPath dir⟩] },
         .error (toolchain r.calls.length .providersSchema (absPath dir)).output)
      | some document =>
        ({ r with calls := r.calls ++ [⟨.providersSchema, absPath dir⟩],
                  heap := r.heap ++ [document],
                  schemaCache := r.schemaCache ++ [(absPath dir, r.heap.length)] },
         .schema r.heap.length)

end Runner

/-- A toolchain that always exits with code 0 and prints the example schema document. -/
def toolchainSucceeding (_ : Nat) (_ : ToolchainCommand) (_ : String) : ProcessResult :=
  { exitCode := 0, output := "", document := some exampleTerraformSchema }

/-- A toolchain that always exits with code 2 and the diagnostic `boom`. -/
def toolchainFailing (_ : Nat) (_ : ToolchainCommand) (_ : String) : ProcessResult :=
  { exitCode := 2, output := "boom", document := none }

/-! ## Two visits of one schema

A `for ... range` loop over a Go map takes the entries in an order that can differ from one
loop to the next, so two calls of `Validate` on one schema may visit its maps in different
orders.  Two association lists describe the same map when one is a rearrangement of the
other; for a schema this is required at every level of the tree. -/

mutual
/-- Schemas `s` and `other` are two listings of one schema tree: the attribute map of
`other` is a rearrangement of the one of `s`, and its block type map is a rearrangement of
the one of `s` in which every nested schema is again listed anew. -/
def SchemaBlock.sameSchema : SchemaBlock → SchemaBlock → Prop
  | .mk attrs bts, other =>
    attrs.Perm other.Attributes ∧ ∃ mid, sameEntries bts mid ∧ mid.Perm other.BlockTypes
/-- Two block type maps with the same names in the same order, whose block types
correspond. -/
def sameEntries : List (String × SchemaBlockType) → List (String × SchemaBlockType) → Prop
  | [], other => other = []
  | (name, bt) :: rest, other =>
    ∃ bt' rest', other = (name, bt') :: rest' ∧ bt.sameBlockType bt' ∧ sameEntries rest rest'
/-- Two block types with the same `MinItems` and `Deprecated` whose nested schemas are two
listings of one schema tree, or both nil. -/
def SchemaBlockType.sameBlockType : SchemaBlockType → SchemaBlockType → Prop
  | .mk minItems block deprecated, other =>
    minItems = other.MinItems ∧ deprecated = other.Deprecated ∧ sameOption block other.Block
/-- Both nil, or two listings of one schema tree. -/
def sameOption : Option SchemaBlock → Option SchemaBlock → Prop
  | none, other => other = none
  | some s, other => ∃ s', other = some s' ∧ s.sameSchema s'
end

/-- The schema `schemaTwoBlocks` with its two block types listed in the other order. -/
def schemaTwoBlocksSwapped : SchemaBlock :=
  .mk [("tags", ⟨false, true, false, false⟩)]
      [("network", .mk 0 (some (.mk [("subnet_id", ⟨false, true, false, false⟩)] [])) false),
       ("identity", .mk 0 (some (.mk [("type", ⟨false, true, false, false⟩)] [])) false)]

/-! # Theorems -/

/-! ## Unfolding the validator -/

section ValidatorFacts

variable (equalFold : String → String → Bool)

theorem Validate_none (bd : BlockData) (rt p : String) (pi : List String) :
    Validate equalFold bd rt p none pi = [] := by
  rw [Validate]

theorem Validate_some (bd : BlockData) (rt p : String) (s : SchemaBlock) (pi : List String) :
    Validate equalFold bd rt p (some s) pi =
      validateAttributes equalFold bd rt p s (pi ++ bd.IgnoreChanges)
        ++ validateBlocks equalFold bd rt p s (pi ++ bd.IgnoreChanges) := by
  rw [Validate]

theorem validateBlocksLoop_eq_flatMap (bd : BlockData) (rt p : String) (ig : List String)
    (l : List (String × SchemaBlockType)) :
    validateBlocksLoop equalFold bd rt p l ig
      = l.flatMap (blockEntryFindings equalFold bd rt p ig) := by
  induction l with
  | nil => rw [validateBlocksLoop]; rfl
  | cons e rest ih =>
    obtain ⟨name, bt⟩ := e
    cases bt with
    | mk m b d =>
      rw [validateBlocksLoop, ih, List.flatMap_cons]
      rfl

theorem validateBlocks_eq_flatMap (bd : BlockData) (rt p : String) (s : SchemaBlock)
    (ig : List String) :
    validateBlocks equalFold bd rt p s ig
      = s.BlockTypes.flatMap (blockEntryFindings equalFold bd rt p ig) := by
  cases s with
  | mk attrs bts =>
    rw [validateBlocks, validateBlocksLoop_eq_flatMap]
    rfl

/-- Induction over a schema tree: a property holds of every schema node as soon as it
holds of a node whenever it holds of all the nested schemas of its block types. -/
theorem SchemaBlock.nested_induction (P : SchemaBlock → Prop)
    (step : ∀ s : SchemaBlock,
      (∀ name bt s', (name, bt) ∈ s.BlockTypes → bt.Block = some s' → P s') → P s) :
    ∀ s, P s := by
  intro s
  refine @SchemaBlock.rec P
    (fun bt => ∀ s', bt.Block = some s' → P s')
    (fun l => ∀ name bt s', (name, bt) ∈ l → bt.Block = some s' → P s')
    (fun o => ∀ s', o = some s' → P s')
    (fun e => ∀ s', e.2.Block = some s' → P s')
    ?_ ?_ ?_ ?_ ?_ ?_ ?_ s
  · intro attrs bts ih
    exact step _ ih
  · intro m b d ih s' hs'
    exact ih s' hs'
  · intro name bt s' h
    cases h
  · intro head tail ihh iht name bt s' hmem hs'
    rcases List.mem_cons.mp hmem with h | h
    · subst h
      exact ihh s' hs'
    · exact iht name bt s' h hs'
  · intro s' h
    cases h
  · intro val ih s' h
    cases h
    exact ih
  · intro name bt ih s' hs'
    exact ih s' hs'

theorem isIgnored_of_wildcard {ignore : List String} (h : "*all*" ∈ ignore) (name : String) :
    isIgnored equalFold ignore name = true := by
  induction ignore with
  | nil => cases h
  | cons item rest ih =>
    rw [isIgnored]
    by_cases hi : item = "*all*"
    · simp [hi]
    · have : "*all*" ∈ rest := by
        rcases List.mem_cons.mp h with h | h
        · exact absurd h.symm hi
        · exact h
      simp [hi, ih this]

theorem isIgnored_of_equalFold {ignore : List String} {e name : String} (h : e ∈ ignore)
    (he : equalFold e name = true) : isIgnored equalFold ignore name = true := by
  induction ignore with
  | nil => cases h
  | cons item rest ih =>
    rw [isIgnored]
    by_cases hi : item = "*all*"
    · simp [hi]
    · rcases List.mem_cons.mp h with h | h
      · subst h
        simp [he]
      · simp [ih h]

theorem isIgnored_eq_false_iff {ignore : List String} {name : String} :
    isIgnored equalFold ignore name = false
      ↔ ∀ item ∈ ignore, item ≠ "*all*" ∧ equalFold item name = false := by
  induction ignore with
  | nil => simp [isIgnored]
  | cons item rest ih =>
    rw [isIgnored]
    by_cases hi : item = "*all*"
    · simp [hi]
    · by_cases he : equalFold item name = true
      · simp [hi, he]
      · simp [hi, he, ih]

end ValidatorFacts

section ValidatorFacts2

variable (equalFold : String → String → Bool)

theorem attributeFinding_eq_some_iff (bd : BlockData) (rt p : String) (ig : List String)
    (entry : String × SchemaAttribute) (f : ValidationFinding) :
    attributeFinding equalFold bd rt p ig entry = some f ↔
      entry.1 ≠ "id" ∧ (entry.2.Computed && !entry.2.Optional && !entry.2.Required) = false
        ∧ entry.2.Deprecated = false ∧ isIgnored equalFold ig entry.1 = false
        ∧ entry.1 ∉ bd.Properties
        ∧ f = { ResourceType := rt, Path := p, Name := entry.1, Required := entry.2.Required,
                IsBlock := false, IsDataSource := false, SubmoduleName := "" } := by
  unfold attributeFinding
  by_cases h1 : entry.1 = "id"
  · simp [h1]
  by_cases h2 : (entry.2.Computed && !entry.2.Optional && !entry.2.Required) = true
  · simp [h1, h2]
  by_cases h3 : entry.2.Deprecated = true
  · simp [h1, h2, h3]
  by_cases h4 : isIgnored equalFold ig entry.1 = true
  · simp [h1, h2, h3, h4]
  by_cases h5 : entry.1 ∈ bd.Properties
  · simp [h1, h2, h3, h4, h5]
  · rw [if_neg h1, if_neg h2, if_neg h3, if_neg h4]
    simp only [h5, decide_False, Bool.not_false, if_true, Option.some.injEq]
    constructor
    · intro h
      exact ⟨h1, by simpa using h2, by simpa using h3, by simpa using h4, not_false, h.symm⟩
    · intro h
      exact h.2.2.2.2.2.symm

theorem mem_blockEntryFindings_iff (bd : BlockData) (rt p : String) (ig : List String)
    (entry : String × SchemaBlockType) (f : ValidationFinding) :
    f ∈ blockEntryFindings equalFold bd rt p ig entry ↔
      entry.1 ≠ "timeouts" ∧ isIgnored equalFold ig entry.1 = false
        ∧ entry.2.Deprecated = false
        ∧ ((selectTarget bd entry.1 = none
              ∧ f = missingBlockFinding rt p entry.1 entry.2.MinItems)
           ∨ ∃ target, selectTarget bd entry.1 = some target
              ∧ f ∈ Validate equalFold target.Data rt (p ++ "." ++ entry.1) entry.2.Block ig) := by
  unfold blockEntryFindings
  by_cases h1 : entry.1 = "timeouts"
  · simp [h1]
  by_cases h2 : isIgnored equalFold ig entry.1 = true
  · simp [h1, h2]
  by_cases h3 : entry.2.Deprecated = true
  · simp [h1, h2, h3]
  have h2' : isIgnored equalFold ig entry.1 = false := by simpa using h2
  have h3' : entry.2.Deprecated = false := by simpa using h3
  have hc : ¬ ((entry.1 = "timeouts" || isIgnored equalFold ig entry.1) = true) := by
    simp [h1, h2']
  rw [if_neg hc, if_neg h3]
  cases hsel : selectTarget bd entry.1 with
  | none => simp [h1, h2', h3']
  | some t => simp [h1, h2', h3']

theorem mem_Validate_some_iff (bd : BlockData) (rt p : String) (s : SchemaBlock)
    (pi : List String) (f : ValidationFinding) :
    f ∈ Validate equalFold bd rt p (some s) pi ↔
      (∃ entry ∈ s.Attributes,
          attributeFinding equalFold bd rt p (pi ++ bd.IgnoreChanges) entry = some f)
      ∨ ∃ entry ∈ s.BlockTypes,
          f ∈ blockEntryFindings equalFold bd rt p (pi ++ bd.IgnoreChanges) entry := by
  rw [Validate_some, validateBlocks_eq_flatMap, List.mem_append, validateAttributes,
    List.mem_filterMap, List.mem_flatMap]

theorem Validate_eq_nil_of_wildcard (bd : BlockData) (rt p : String)
    (schema : Option SchemaBlock) (pi : List String)
    (h : "*all*" ∈ pi ++ bd.IgnoreChanges) :
    Validate equalFold bd rt p schema pi = [] := by
  cases schema with
  | none => exact Validate_none equalFold bd rt p pi
  | some s =>
    apply List.eq_nil_iff_forall_not_mem.mpr
    intro f hf
    have hig := isIgnored_of_wildcard equalFold h
    rcases (mem_Validate_some_iff equalFold bd rt p s pi f).mp hf with ⟨e, _, he⟩ | ⟨e, _, he⟩
    · have := ((attributeFinding_eq_some_iff equalFold bd rt p _ e f).mp he).2.2.2.1
      rw [hig e.1] at this
      cases this
    · have := ((mem_blockEntryFindings_iff equalFold bd rt p _ e f).mp he).2.1
      rw [hig e.1] at this
      cases this

/-- A name matched by an entry of the effective ignore list is reported nowhere in the
output of `Validate`, at any depth. -/
theorem Validate_name_ne_of_ignored (rt e n : String) (he : equalFold e n = true) :
    ∀ (s : SchemaBlock) (bd : BlockData) (p : String) (pi : List String),
      e ∈ pi ++ bd.IgnoreChanges →
      ∀ f ∈ Validate equalFold bd rt p (some s) pi, f.Name ≠ n := by
  intro s
  induction s using SchemaBlock.nested_induction with
  | step s ih =>
    intro bd p pi hmem f hf
    have hig := isIgnored_of_equalFold equalFold hmem he
    rcases (mem_Validate_some_iff equalFold bd rt p s pi f).mp hf with ⟨a, _, ha⟩ | ⟨b, hb, hfb⟩
    · obtain ⟨_, _, _, hni, _, hfeq⟩ := (attributeFinding_eq_some_iff equalFold bd rt p _ a f).mp ha
      intro hn
      rw [hfeq] at hn
      simp only at hn
      rw [hn, hig] at hni
      cases hni
    · obtain ⟨_, hni, _, hcase⟩ := (mem_blockEntryFindings_iff equalFold bd rt p _ b f).mp hfb
      rcases hcase with ⟨_, hfeq⟩ | ⟨t, _, hft⟩
      · intro hn
        rw [hfeq] at hn
        simp only [missingBlockFinding] at hn
        rw [hn, hig] at hni
        cases hni
      · cases hblk : b.2.Block with
        | none =>
          rw [hblk, Validate_none] at hft
          cases hft
        | some s' =>
          rw [hblk] at hft
          exact ih b.1 b.2 s' hb hblk t.Data _ _ (List.mem_append_left _ hmem) f hft

end ValidatorFacts2

section ValidatorFacts3

variable (equalFold : String → String → Bool)

/-- Every finding carries a path at least as long as the path `Validate` was called with. -/
theorem Validate_path_length (rt : String) :
    ∀ (s : SchemaBlock) (bd : BlockData) (p : String) (pi : List String),
      ∀ f ∈ Validate equalFold bd rt p (some s) pi, p.length ≤ f.Path.length := by
  intro s
  induction s using SchemaBlock.nested_induction with
  | step s ih =>
    intro bd p pi f hf
    rcases (mem_Validate_some_iff equalFold bd rt p s pi f).mp hf with ⟨a, _, ha⟩ | ⟨b, hb, hfb⟩
    · obtain ⟨_, _, _, _, _, hfeq⟩ := (attributeFinding_eq_some_iff equalFold bd rt p _ a f).mp ha
      rw [hfeq]
    · obtain ⟨_, _, _, hcase⟩ := (mem_blockEntryFindings_iff equalFold bd rt p _ b f).mp hfb
      rcases hcase with ⟨_, hfeq⟩ | ⟨t, _, hft⟩
      · rw [hfeq]
        exact Nat.le_refl _
      · cases hblk : b.2.Block with
        | none =>
          rw [hblk, Validate_none] at hft
          cases hft
        | some s' =>
          rw [hblk] at hft
          have := ih b.1 b.2 s' hb hblk t.Data _ _ f hft
          rw [String.length_append, String.length_append] at this
          omega

/-- A finding produced by a recursive call never carries the path of the caller. -/
theorem nested_path_ne (rt : String) (bd : BlockData) (p name : String)
    (o : Option SchemaBlock) (ig : List String) :
    ∀ f ∈ Validate equalFold bd rt (p ++ "." ++ name) o ig, f.Path ≠ p := by
  intro f hf hp
  cases o with
  | none =>
    rw [Validate_none] at hf
    cases hf
  | some s =>
    have := Validate_path_length equalFold rt s bd _ ig f hf
    rw [String.length_append, String.length_append, hp] at this
    have h1 : (".").length = 1 := rfl
    omega

/-- In a list of keyed entries with pairwise distinct keys, where only the entries with
key `n` contribute elements satisfying `sel`, the selected part of the whole output is
the selected part of the contribution of the entry with key `n`. -/
theorem filter_flatMap_key {α β : Type} (c : String × α → List β) (sel : β → Bool)
    (n : String) :
    ∀ (l : List (String × α)), (l.map Prod.fst).Nodup →
      (∀ e ∈ l, e.1 ≠ n → (c e).filter sel = []) →
      ((∀ e ∈ l, e.1 ≠ n) → (l.flatMap c).filter sel = [])
      ∧ (∀ e ∈ l, e.1 = n → (l.flatMap c).filter sel = (c e).filter sel) := by
  intro l
  induction l with
  | nil =>
    intro _ _
    exact ⟨fun _ => rfl, fun e he => absurd he (List.not_mem_nil e)⟩
  | cons x rest ih =>
    intro hnd hsel
    rw [List.map_cons, List.nodup_cons] at hnd
    obtain ⟨hx, hrest⟩ := hnd
    have ih' := ih hrest (fun e he => hsel e (List.mem_cons_of_mem _ he))
    constructor
    · intro hall
      rw [List.flatMap_cons, List.filter_append,
        hsel x (List.mem_cons_self _ _) (hall x (List.mem_cons_self _ _)),
        ih'.1 (fun e he => hall e (List.mem_cons_of_mem _ he))]
      rfl
    · intro e he hen
      rw [List.flatMap_cons, List.filter_append]
      rcases List.mem_cons.mp he with h | h
      · subst h
        have hnot : ∀ e' ∈ rest, e'.1 ≠ n := by
          intro e' he' h'
          apply hx
          rw [List.mem_map]
          exact ⟨e', he', h'.trans hen.symm⟩
        rw [ih'.1 hnot, List.append_nil]
      · have hxn : x.1 ≠ n := by
          intro h'
          apply hx
          rw [List.mem_map]
          exact ⟨e, h, hen.trans h'.symm⟩
        rw [hsel x (List.mem_cons_self _ _) hxn, List.nil_append]
        exact ih'.2 e h hen

/-- Distinct keys determine the value stored under a key. -/
theorem value_unique_of_nodup_keys {α : Type} :
    ∀ (l : List (String × α)), (l.map Prod.fst).Nodup →
      ∀ k a b, (k, a) ∈ l → (k, b) ∈ l → a = b := by
  intro l
  induction l with
  | nil => intro _ k a b h; cases h
  | cons x rest ih =>
    intro hnd k a b ha hb
    rw [List.map_cons, List.nodup_cons] at hnd
    obtain ⟨hx, hrest⟩ := hnd
    rcases List.mem_cons.mp ha with h1 | h1 <;> rcases List.mem_cons.mp hb with h2 | h2
    · rw [← h1] at h2
      exact (Prod.mk.inj h2).2.symm
    · exfalso; apply hx; rw [List.mem_map]
      exact ⟨(k, b), h2, by rw [← h1]⟩
    · exfalso; apply hx; rw [List.mem_map]
      exact ⟨(k, a), h1, by rw [← h2]⟩
    · exact ih hrest k a b h1 h2

theorem filterMap_eq_flatMap_toList {α β : Type} (g : α → Option β) (l : List α) :
    l.filterMap g = l.flatMap (fun e => (g e).toList) := by
  induction l with
  | nil => rfl
  | cons x rest ih =>
    rw [List.filterMap_cons, List.flatMap_cons, ← ih]
    cases g x <;> rfl

end ValidatorFacts3

section LevelFindings

variable (equalFold : String → String → Bool)

theorem selectTarget_eq_none_iff (bd : BlockData) (name : String) :
    selectTarget bd name = none
      ↔ bd.StaticBlocks.lookup name = none ∧ bd.DynamicBlocks.lookup name = none := by
  unfold selectTarget
  cases bd.StaticBlocks.lookup name <;> simp

theorem validateAttributes_isBlock (bd : BlockData) (rt p : String) (s : SchemaBlock)
    (ig : List String) :
    ∀ f ∈ validateAttributes equalFold bd rt p s ig,
      f.IsBlock = false ∧ f.Path = p ∧ f.ResourceType = rt := by
  intro f hf
  rw [validateAttributes, List.mem_filterMap] at hf
  obtain ⟨e, _, he⟩ := hf
  obtain ⟨_, _, _, _, _, hfeq⟩ := (attributeFinding_eq_some_iff equalFold bd rt p ig e f).mp he
  rw [hfeq]
  exact ⟨rfl, rfl, rfl⟩

/-- Findings of one block-type entry that carry the caller's path are findings for a
missing block, named after the entry. -/
theorem blockEntryFindings_at_path (bd : BlockData) (rt p : String) (ig : List String)
    (e : String × SchemaBlockType) :
    ∀ f ∈ blockEntryFindings equalFold bd rt p ig e, f.Path = p →
      f = missingBlockFinding rt p e.1 e.2.MinItems ∧ selectTarget bd e.1 = none := by
  intro f hf hp
  obtain ⟨_, _, _, hcase⟩ := (mem_blockEntryFindings_iff equalFold bd rt p ig e f).mp hf
  rcases hcase with ⟨hsel, hfeq⟩ | ⟨t, _, hft⟩
  · exact ⟨hfeq, hsel⟩
  · exact absurd hp (nested_path_ne equalFold rt t.Data p e.1 e.2.Block ig f hft)

theorem validateBlocks_not_attribute_at_path (bd : BlockData) (rt p : String)
    (s : SchemaBlock) (ig : List String) :
    ∀ f ∈ validateBlocks equalFold bd rt p s ig, f.Path = p → f.IsBlock = true := by
  intro f hf hp
  rw [validateBlocks_eq_flatMap, List.mem_flatMap] at hf
  obtain ⟨e, _, he⟩ := hf
  rw [(blockEntryFindings_at_path equalFold bd rt p ig e f he hp).1]
  rfl

/-- The attribute findings of the current level named `n`, when the attribute names of the
schema node are distinct. -/
theorem filter_attribute_findings (bd : BlockData) (rt p : String) (s : SchemaBlock)
    (pi : List String) (n : String) (hkeys : (s.Attributes.map Prod.fst).Nodup)
    (a : SchemaAttribute) (ha : (n, a) ∈ s.Attributes) :
    (Validate equalFold bd rt p (some s) pi).filter
        (fun f => decide (f.IsBlock = false ∧ f.Path = p ∧ f.Name = n))
      = (attributeFinding equalFold bd rt p (pi ++ bd.IgnoreChanges) (n, a)).toList := by
  rw [Validate_some, List.filter_append]
  have hblocks : (validateBlocks equalFold bd rt p s (pi ++ bd.IgnoreChanges)).filter
      (fun f => decide (f.IsBlock = false ∧ f.Path = p ∧ f.Name = n)) = [] := by
    rw [List.filter_eq_nil_iff]
    intro f hf hsel
    simp only [decide_eq_true_eq] at hsel
    have := validateBlocks_not_attribute_at_path equalFold bd rt p s _ f hf hsel.2.1
    rw [hsel.1] at this
    cases this
  rw [hblocks, List.append_nil, validateAttributes, filterMap_eq_flatMap_toList]
  have key := filter_flatMap_key
    (fun e => (attributeFinding equalFold bd rt p (pi ++ bd.IgnoreChanges) e).toList)
    (fun f => decide (f.IsBlock = false ∧ f.Path = p ∧ f.Name = n)) n s.Attributes hkeys
    (by
      intro e _ hen
      rw [List.filter_eq_nil_iff]
      intro f hf hsel
      simp only [decide_eq_true_eq] at hsel
      rw [Option.mem_toList] at hf
      obtain ⟨_, _, _, _, _, hfeq⟩ :=
        (attributeFinding_eq_some_iff equalFold bd rt p _ e f).mp hf
      rw [hfeq] at hsel
      exact hen hsel.2.2)
  rw [key.2 (n, a) ha rfl]
  rw [List.filter_eq_self]
  intro f hf
  rw [Option.mem_toList] at hf
  obtain ⟨_, _, _, _, _, hfeq⟩ :=
    (attributeFinding_eq_some_iff equalFold bd rt p _ (n, a) f).mp hf
  rw [hfeq]
  simp

/-- The block findings of the current level named `n`, when the block type names of the
schema node are distinct. -/
theorem filter_block_findings (bd : BlockData) (rt p : String) (s : SchemaBlock)
    (pi : List String) (n : String) (hkeys : (s.BlockTypes.map Prod.fst).Nodup)
    (bt : SchemaBlockType) (hbt : (n, bt) ∈ s.BlockTypes) :
    (Validate equalFold bd rt p (some s) pi).filter
        (fun f => decide (f.IsBlock = true ∧ f.Path = p ∧ f.Name = n))
      = (blockEntryFindings equalFold bd rt p (pi ++ bd.IgnoreChanges) (n, bt)).filter
          (fun f => decide (f.IsBlock = true ∧ f.Path = p ∧ f.Name = n)) := by
  rw [Validate_some, List.filter_append]
  have hattrs : (validateAttributes equalFold bd rt p s (pi ++ bd.IgnoreChanges)).filter
      (fun f => decide (f.IsBlock = true ∧ f.Path = p ∧ f.Name = n)) = [] := by
    rw [List.filter_eq_nil_iff]
    intro f hf hsel
    simp only [decide_eq_true_eq] at hsel
    have := (validateAttributes_isBlock equalFold bd rt p s _ f hf).1
    rw [hsel.1] at this
    cases this
  rw [hattrs, List.nil_append, validateBlocks_eq_flatMap]
  have key := filter_flatMap_key
    (blockEntryFindings equalFold bd rt p (pi ++ bd.IgnoreChanges))
    (fun f => decide (f.IsBlock = true ∧ f.Path = p ∧ f.Name = n)) n s.BlockTypes hkeys
    (by
      intro e _ hen
      rw [List.filter_eq_nil_iff]
      intro f hf hsel
      simp only [decide_eq_true_eq] at hsel
      have := (blockEntryFindings_at_path equalFold bd rt p _ e f hf hsel.2.1).1
      rw [this] at hsel
      exact hen hsel.2.2)
  exact key.2 (n, bt) hbt rfl

end LevelFindings

section Claims

variable (equalFold : String → String → Bool)

/-- Every attribute finding in the output of `Validate` is appended by the attribute pass of
an invocation reached from the outer call. -/
theorem attribute_finding_origin (rt : String) :
    ∀ (s : SchemaBlock) (bd : BlockData) (p : String) (pi : List String),
      ∀ f ∈ Validate equalFold bd rt p (some s) pi, f.IsBlock = false →
        ∃ c : Invocation,
          Reaches equalFold { bd := bd, path := p, schema := s, parentIgnore := pi } c
          ∧ ∃ e ∈ c.schema.Attributes,
              attributeFinding equalFold c.bd rt c.path c.ignore e = some f := by
  intro s
  induction s using SchemaBlock.nested_induction with
  | step s ih =>
    intro bd p pi f hf hattr
    rcases (mem_Validate_some_iff equalFold bd rt p s pi f).mp hf with ⟨a, ha, hfa⟩ | ⟨b, hb, hfb⟩
    · exact ⟨_, Relation.ReflTransGen.refl, a, ha, hfa⟩
    · obtain ⟨h1, h2, h3, hcase⟩ := (mem_blockEntryFindings_iff equalFold bd rt p _ b f).mp hfb
      rcases hcase with ⟨_, hfeq⟩ | ⟨t, hsel, hft⟩
      · rw [hfeq] at hattr
        cases hattr
      · cases hblk : b.2.Block with
        | none =>
          rw [hblk, Validate_none] at hft
          cases hft
        | some s' =>
          rw [hblk] at hft
          obtain ⟨c, hreach, hc⟩ := ih b.1 b.2 s' hb hblk t.Data _ _ f hft hattr
          refine ⟨c, Relation.ReflTransGen.head ?_ hreach, hc⟩
          exact Calls.nested { bd := bd, path := p, schema := s, parentIgnore := pi }
            b.1 b.2 t s' hb h1 h2 h3 hsel hblk

theorem flatMap_append_perm {α β : Type} [DecidableEq β] (A B : α → List β) (l : List α) :
    (l.flatMap (fun e => A e ++ B e)).Perm (l.flatMap A ++ l.flatMap B) := by
  induction l with
  | nil => exact List.Perm.refl _
  | cons x rest ih =>
    rw [List.flatMap_cons, List.flatMap_cons, List.flatMap_cons]
    refine (List.Perm.append_left _ ih).trans ?_
    rw [List.perm_iff_count]
    intro a
    simp only [List.count_append]
    omega

theorem selectedChild_eq_selectTarget (bd : BlockData) (n : String) :
    selectedChild bd n = selectTarget bd n := by
  unfold selectedChild selectTarget
  cases bd.StaticBlocks.lookup n <;> rfl

/-- The contribution of one block-type entry splits into its current-level finding and its
nested findings. -/
theorem blockEntryFindings_split (bd : BlockData) (rt p : String) (ig : List String)
    (e : String × SchemaBlockType) :
    blockEntryFindings equalFold bd rt p ig e =
      (if e.1 ≠ "timeouts" ∧ isIgnored equalFold ig e.1 = false ∧ e.2.Deprecated = false
          ∧ (bd.StaticBlocks.lookup e.1).isNone = true
          ∧ (bd.DynamicBlocks.lookup e.1).isNone = true then
        some { ResourceType := rt, Path := p, Name := e.1,
               Required := decide (e.2.MinItems > 0), IsBlock := true,
               IsDataSource := false, SubmoduleName := "" }
       else none : Option ValidationFinding).toList
      ++ (if e.1 = "timeouts" ∨ isIgnored equalFold ig e.1 = true ∨ e.2.Deprecated = true
          then []
          else
            match selectedChild bd e.1 with
            | none => []
            | some child =>
              Validate equalFold child.Data rt (p ++ "." ++ e.1) e.2.Block ig) := by
  unfold blockEntryFindings
  rw [selectedChild_eq_selectTarget]
  by_cases h1 : e.1 = "timeouts"
  · simp [h1]
  by_cases h2 : isIgnored equalFold ig e.1 = true
  · simp [h1, h2]
  by_cases h3 : e.2.Deprecated = true
  · simp [h1, h2, h3]
  have h2' : isIgnored equalFold ig e.1 = false := by simpa using h2
  have h3' : e.2.Deprecated = false := by simpa using h3
  cases hsel : selectTarget bd e.1 with
  | none =>
    obtain ⟨hs, hd⟩ := (selectTarget_eq_none_iff bd e.1).mp hsel
    simp [h1, h2', h3', hs, hd, missingBlockFinding]
  | some t =>
    have hne : ¬ ((bd.StaticBlocks.lookup e.1).isNone = true
        ∧ (bd.DynamicBlocks.lookup e.1).isNone = true) := by
      intro h
      have : selectTarget bd e.1 = none := by
        rw [selectTarget_eq_none_iff]
        exact ⟨Option.isNone_iff_eq_none.mp h.1, Option.isNone_iff_eq_none.mp h.2⟩
      rw [hsel] at this
      cases this
    have hne' : ¬ (e.1 ≠ "timeouts" ∧ isIgnored equalFold ig e.1 = false
        ∧ e.2.Deprecated = false ∧ (bd.StaticBlocks.lookup e.1).isNone = true
        ∧ (bd.DynamicBlocks.lookup e.1).isNone = true) := fun h => hne h.2.2.2
    rw [if_neg hne']
    simp [h1, h2', h3']

end Claims

section Dedup

theorem foldl_dedupStep (fs : List ValidationFinding) :
    ∀ (seen : List String) (result : List ValidationFinding),
      (fs.foldl dedupStep (seen, result)).2 = result ++ keepUnseen seen fs := by
  induction fs with
  | nil =>
    intro seen result
    simp [keepUnseen]
  | cons f fs ih =>
    intro seen result
    rw [List.foldl_cons, keepUnseen]
    by_cases h : dedupKey f ∈ seen
    · have hs : dedupStep (seen, result) f = (seen, result) := by
        simp [dedupStep, h]
      rw [hs, ih, if_pos h]
    · have hs : dedupStep (seen, result) f = (dedupKey f :: seen, result ++ [f]) := by
        simp [dedupStep, h]
      rw [hs, ih, if_neg h, List.append_assoc]
      rfl

theorem DeduplicateFindings_eq_keepUnseen (fs : List ValidationFinding) :
    DeduplicateFindings fs = keepUnseen [] fs := by
  rw [DeduplicateFindings, foldl_dedupStep, List.nil_append]

theorem keepUnseen_key_not_seen (fs : List ValidationFinding) :
    ∀ (seen : List String), ∀ g ∈ keepUnseen seen fs, dedupKey g ∉ seen := by
  induction fs with
  | nil => intro seen g hg; cases hg
  | cons f fs ih =>
    intro seen g hg
    rw [keepUnseen] at hg
    by_cases h : dedupKey f ∈ seen
    · rw [if_pos h] at hg
      exact ih seen g hg
    · rw [if_neg h] at hg
      rcases List.mem_cons.mp hg with hgf | hgf
      · rw [hgf]
        exact h
      · intro hmem
        exact ih (dedupKey f :: seen) g hgf (List.mem_cons_of_mem _ hmem)

theorem keepUnseen_pairwise (fs : List ValidationFinding) :
    ∀ (seen : List String),
      (keepUnseen seen fs).Pairwise (fun a b => dedupKey a ≠ dedupKey b) := by
  induction fs with
  | nil => intro seen; exact List.Pairwise.nil
  | cons f fs ih =>
    intro seen
    rw [keepUnseen]
    by_cases h : dedupKey f ∈ seen
    · rw [if_pos h]
      exact ih seen
    · rw [if_neg h]
      refine List.Pairwise.cons ?_ (ih _)
      intro g hg heq
      exact keepUnseen_key_not_seen fs _ g hg (heq ▸ List.mem_cons_self _ _)

theorem keepUnseen_of_fresh (fs : List ValidationFinding) :
    ∀ (seen : List String), (∀ g ∈ fs, dedupKey g ∉ seen) →
      fs.Pairwise (fun a b => dedupKey a ≠ dedupKey b) → keepUnseen seen fs = fs := by
  induction fs with
  | nil => intro seen _ _; rfl
  | cons f fs ih =>
    intro seen hfresh hpw
    rw [keepUnseen, if_neg (hfresh f (List.mem_cons_self _ _))]
    rw [List.pairwise_cons] at hpw
    congr 1
    apply ih _ _ hpw.2
    intro g hg hmem
    rcases List.mem_cons.mp hmem with h | h
    · exact hpw.1 g hg h.symm
    · exact hfresh g (List.mem_cons_of_mem _ hg) h

theorem keepUnseen_sublist (fs : List ValidationFinding) :
    ∀ (seen : List String), (keepUnseen seen fs).Sublist fs := by
  induction fs with
  | nil => intro seen; exact List.Sublist.slnil
  | cons f fs ih =>
    intro seen
    rw [keepUnseen]
    by_cases h : dedupKey f ∈ seen
    · rw [if_pos h]
      exact List.Sublist.cons _ (ih seen)
    · rw [if_neg h]
      exact List.Sublist.cons₂ _ (ih _)

theorem keepUnseen_covers (fs : List ValidationFinding) :
    ∀ (seen : List String), ∀ f ∈ fs, dedupKey f ∉ seen →
      ∃ g ∈ keepUnseen seen fs, dedupKey g = dedupKey f := by
  induction fs with
  | nil => intro seen f hf; cases hf
  | cons x rest ih =>
    intro seen f hf hfresh
    rw [keepUnseen]
    by_cases h : dedupKey x ∈ seen
    · rw [if_pos h]
      rcases List.mem_cons.mp hf with hfx | hfx
      · rw [hfx] at hfresh
        exact absurd h hfresh
      · exact ih seen f hfx hfresh
    · rw [if_neg h]
      by_cases hk : dedupKey f = dedupKey x
      · exact ⟨x, List.mem_cons_self _ _, hk.symm⟩
      · rcases List.mem_cons.mp hf with hfx | hfx
        · exact absurd (by rw [hfx]) hk
        · have hfresh2 : dedupKey f ∉ dedupKey x :: seen := by
            intro hmem
            rcases List.mem_cons.mp hmem with h1 | h1
            · exact hk h1
            · exact hfresh h1
          obtain ⟨g, hg, hgk⟩ := ih (dedupKey x :: seen) f hfx hfresh2
          exact ⟨g, List.mem_cons_of_mem _ hg, hgk⟩

/-- What the single pass does in terms of the rendered key: the output is a subsequence of
the input, its keys are pairwise distinct, and every input finding has an output finding
with the same key. -/
theorem DeduplicateFindings_by_key (fs : List ValidationFinding) :
    (DeduplicateFindings fs).Sublist fs
    ∧ (DeduplicateFindings fs).Pairwise (fun a b => dedupKey a ≠ dedupKey b)
    ∧ ∀ f ∈ fs, ∃ g ∈ DeduplicateFindings fs, dedupKey g = dedupKey f := by
  rw [DeduplicateFindings_eq_keepUnseen]
  exact ⟨keepUnseen_sublist fs [], keepUnseen_pairwise fs [],
    fun f hf => keepUnseen_covers fs [] f hf (List.not_mem_nil _)⟩

theorem string_append_left_cancel (a b c : String) (h : a ++ b = a ++ c) : b = c := by
  apply String.ext
  have := congrArg String.data h
  rw [String.data_append, String.data_append] at this
  exact List.append_cancel_left this

end Dedup

/-! ## The claims -/

section ValidatorClaims

variable (equalFold : String → String → Bool)

/-- C1: a finding for an attribute (`IsBlock = false`) returned by `Validate` is appended by
the attribute pass of an invocation reached from the outer call by recursion, and the
attribute of that invocation's schema node which the finding names is not computed-only
(computed, not optional, not required), whatever the block contains. -/
theorem computed_only_attribute_never_reported (rt : String) (bd : BlockData) (p : String)
    (schema : SchemaBlock) (pi : List String) (f : ValidationFinding)
    (hf : f ∈ Validate equalFold bd rt p (some schema) pi) (hattr : f.IsBlock = false) :
    ∃ c : Invocation,
      Reaches equalFold { bd := bd, path := p, schema := schema, parentIgnore := pi } c
      ∧ f ∈ validateAttributes equalFold c.bd rt c.path c.schema c.ignore
      ∧ (∃ a, (f.Name, a) ∈ c.schema.Attributes
            ∧ (a.Computed && !a.Optional && !a.Required) = false)
      ∧ ((c.schema.Attributes.map Prod.fst).Nodup →
            ∀ a, (f.Name, a) ∈ c.schema.Attributes →
              (a.Computed && !a.Optional && !a.Required) = false) := by
  obtain ⟨c, hreach, e, he, hfe⟩ :=
    attribute_finding_origin equalFold rt schema bd p pi f hf hattr
  obtain ⟨_, hco, _, _, _, hfeq⟩ :=
    (attributeFinding_eq_some_iff equalFold c.bd rt c.path c.ignore e f).mp hfe
  have hname : f.Name = e.1 := by rw [hfeq]
  refine ⟨c, hreach, ?_, ⟨e.2, ?_, hco⟩, ?_⟩
  · rw [validateAttributes, List.mem_filterMap]
    exact ⟨e, he, hfe⟩
  · rw [hname]
    exact he
  · intro hnd a ha
    have : a = e.2 :=
      value_unique_of_nodup_keys c.schema.Attributes hnd f.Name a e.2 ha (by rw [hname]; exact he)
    rw [this]
    exact hco

/-- C2: when the inherited ignore list followed by the block's own ignore list contains the
wildcard token `*all*` at any position, `Validate` returns no finding at all, for any
block, schema (nil or not) and path. -/
theorem wildcard_yields_no_findings (bd : BlockData) (rt p : String)
    (schema : Option SchemaBlock) (pi : List String)
    (h : "*all*" ∈ pi ++ bd.IgnoreChanges) :
    Validate equalFold bd rt p schema pi = [] :=
  Validate_eq_nil_of_wildcard equalFold bd rt p schema pi h

/-- C3: when an entry `e` of the inherited ignore list or of the block's own ignore list
equals the name `n` up to letter case (`equalFold e n`), no finding returned by `Validate`,
at this level or below, for an attribute or for a block, is named `n`; and a block whose
ignore list is `["tags"]`, checked against a schema whose only attribute is the optional
`tags`, yields no finding. -/
theorem ignore_entry_suppresses_name :
    (∀ (rt e n : String) (bd : BlockData) (p : String) (schema : Option SchemaBlock)
        (pi : List String),
        equalFold e n = true → (e ∈ pi ∨ e ∈ bd.IgnoreChanges) →
        ∀ f ∈ Validate equalFold bd rt p schema pi, f.Name ≠ n)
    ∧ (equalFold "tags" "tags" = true →
        ∀ (rt p : String),
          Validate equalFold (BlockData.mk [] [] [] ["tags"]) rt p (some schemaTags) [] = []) := by
  have general : ∀ (rt e n : String) (bd : BlockData) (p : String)
      (schema : Option SchemaBlock) (pi : List String),
      equalFold e n = true → (e ∈ pi ∨ e ∈ bd.IgnoreChanges) →
      ∀ f ∈ Validate equalFold bd rt p schema pi, f.Name ≠ n := by
    intro rt e n bd p schema pi he hmem f hf
    cases schema with
    | none =>
      rw [Validate_none] at hf
      cases hf
    | some s =>
      exact Validate_name_ne_of_ignored equalFold rt e n he s bd p pi
        (List.mem_append.mpr hmem) f hf
  refine ⟨general, ?_⟩
  intro hrefl rt p
  apply List.eq_nil_iff_forall_not_mem.mpr
  intro f hf
  have hne := general rt "tags" "tags" (BlockData.mk [] [] [] ["tags"]) p (some schemaTags) []
    hrefl (Or.inr (List.mem_singleton.mpr rfl)) f hf
  rcases (mem_Validate_some_iff equalFold _ rt p schemaTags [] f).mp hf with
    ⟨a, ha, hfa⟩ | ⟨b, hb, _⟩
  · obtain ⟨_, _, _, _, _, hfeq⟩ := (attributeFinding_eq_some_iff equalFold _ rt p _ a f).mp hfa
    have : a = ("tags", ⟨false, true, false, false⟩) := by
      simpa [schemaTags, SchemaBlock.Attributes] using ha
    apply hne
    rw [hfeq, this]
  · simp [schemaTags, SchemaBlock.BlockTypes] at hb

/-- C4: for a non-nil schema node with distinct attribute names, `Validate` returns a finding
with `IsBlock = false`, `Path = p` and `Name = n` exactly when `n` is an attribute of the
node, is not `id`, is not computed-only, not deprecated, not suppressed by the inherited
list followed by the block's own list, and not among the block's properties; in that case
the findings with these three fields are exactly one finding, whose `Required` flag is the
attribute's. -/
theorem attribute_findings_at_level_exact (bd : BlockData) (rt p : String)
    (schema : SchemaBlock) (pi : List String) (n : String)
    (hkeys : (schema.Attributes.map Prod.fst).Nodup) :
    ((∃ f ∈ Validate equalFold bd rt p (some schema) pi,
          f.IsBlock = false ∧ f.Path = p ∧ f.Name = n)
      ↔ ∃ a, (n, a) ∈ schema.Attributes ∧ n ≠ "id"
            ∧ (a.Computed && !a.Optional && !a.Required) = false
            ∧ a.Deprecated = false
            ∧ isIgnored equalFold (pi ++ bd.IgnoreChanges) n = false
            ∧ n ∉ bd.Properties)
    ∧ (∀ a, (n, a) ∈ schema.Attributes → n ≠ "id" →
          (a.Computed && !a.Optional && !a.Required) = false →
          a.Deprecated = false →
          isIgnored equalFold (pi ++ bd.IgnoreChanges) n = false →
          n ∉ bd.Properties →
          (Validate equalFold bd rt p (some schema) pi).filter
              (fun f => decide (f.IsBlock = false ∧ f.Path = p ∧ f.Name = n))
            = [{ ResourceType := rt, Path := p, Name := n, Required := a.Required,
                 IsBlock := false, IsDataSource := false, SubmoduleName := "" }]) := by
  constructor
  · constructor
    · rintro ⟨f, hf, hb, hp, hn⟩
      rw [Validate_some, List.mem_append] at hf
      rcases hf with hf | hf
      · rw [validateAttributes, List.mem_filterMap] at hf
        obtain ⟨e, he, hfe⟩ := hf
        obtain ⟨h1, h2, h3, h4, h5, hfeq⟩ :=
          (attributeFinding_eq_some_iff equalFold bd rt p _ e f).mp hfe
        have hen : e.1 = n := by rw [← hn, hfeq]
        refine ⟨e.2, ?_, ?_, h2, h3, ?_, ?_⟩
        · rw [← hen]; exact he
        · rw [← hen]; exact h1
        · rw [← hen]; exact h4
        · rw [← hen]; exact h5
      · have := validateBlocks_not_attribute_at_path equalFold bd rt p schema _ f hf hp
        rw [hb] at this
        cases this
    · rintro ⟨a, ha, h1, h2, h3, h4, h5⟩
      refine ⟨{ ResourceType := rt, Path := p, Name := n, Required := a.Required,
                IsBlock := false, IsDataSource := false, SubmoduleName := "" }, ?_, rfl, rfl, rfl⟩
      rw [mem_Validate_some_iff]
      refine Or.inl ⟨(n, a), ha, ?_⟩
      rw [attributeFinding_eq_some_iff]
      exact ⟨h1, h2, h3, h4, h5, rfl⟩
  · intro a ha h1 h2 h3 h4 h5
    rw [filter_attribute_findings equalFold bd rt p schema pi n hkeys a ha]
    have : attributeFinding equalFold bd rt p (pi ++ bd.IgnoreChanges) (n, a)
        = some { ResourceType := rt, Path := p, Name := n, Required := a.Required,
                 IsBlock := false, IsDataSource := false, SubmoduleName := "" } := by
      rw [attributeFinding_eq_some_iff]
      exact ⟨h1, h2, h3, h4, h5, rfl⟩
    rw [this]
    rfl

end ValidatorClaims

section ValidatorClaims2

variable (equalFold : String → String → Bool)

/-- C5: for a non-nil schema node with distinct block type names, `Validate` returns a
finding with `IsBlock = true`, `Path = p` and `Name = n` exactly when `n` is a block type of
the node, is not `timeouts`, is not suppressed, the block type is not deprecated, and the
block has an entry for `n` neither in `StaticBlocks` nor in `DynamicBlocks`; in that case the
findings with these three fields are exactly one finding, whose `Required` flag is
`MinItems > 0`. -/
theorem block_findings_at_level_exact (bd : BlockData) (rt p : String)
    (schema : SchemaBlock) (pi : List String) (n : String)
    (hkeys : (schema.BlockTypes.map Prod.fst).Nodup) :
    ((∃ f ∈ Validate equalFold bd rt p (some schema) pi,
          f.IsBlock = true ∧ f.Path = p ∧ f.Name = n)
      ↔ ∃ bt, (n, bt) ∈ schema.BlockTypes ∧ n ≠ "timeouts"
            ∧ isIgnored equalFold (pi ++ bd.IgnoreChanges) n = false
            ∧ bt.Deprecated = false
            ∧ bd.StaticBlocks.lookup n = none ∧ bd.DynamicBlocks.lookup n = none)
    ∧ (∀ bt, (n, bt) ∈ schema.BlockTypes → n ≠ "timeouts" →
          isIgnored equalFold (pi ++ bd.IgnoreChanges) n = false →
          bt.Deprecated = false →
          bd.StaticBlocks.lookup n = none → bd.DynamicBlocks.lookup n = none →
          (Validate equalFold bd rt p (some schema) pi).filter
              (fun f => decide (f.IsBlock = true ∧ f.Path = p ∧ f.Name = n))
            = [{ ResourceType := rt, Path := p, Name := n,
                 Required := decide (bt.MinItems > 0),
                 IsBlock := true, IsDataSource := false, SubmoduleName := "" }]) := by
  constructor
  · constructor
    · rintro ⟨f, hf, hb, hp, hn⟩
      rw [Validate_some, List.mem_append] at hf
      rcases hf with hf | hf
      · have := (validateAttributes_isBlock equalFold bd rt p schema _ f hf).1
        rw [hb] at this
        cases this
      · rw [validateBlocks_eq_flatMap, List.mem_flatMap] at hf
        obtain ⟨e, he, hfe⟩ := hf
        obtain ⟨h1, h2, h3, _⟩ := (mem_blockEntryFindings_iff equalFold bd rt p _ e f).mp hfe
        obtain ⟨hfeq, hsel⟩ := blockEntryFindings_at_path equalFold bd rt p _ e f hfe hp
        have hen : e.1 = n := by rw [← hn, hfeq]; rfl
        obtain ⟨hs, hd⟩ := (selectTarget_eq_none_iff bd e.1).mp hsel
        refine ⟨e.2, ?_, ?_, ?_, h3, ?_, ?_⟩
        · rw [← hen]; exact he
        · rw [← hen]; exact h1
        · rw [← hen]; exact h2
        · rw [← hen]; exact hs
        · rw [← hen]; exact hd
    · rintro ⟨bt, hbt, h1, h2, h3, hs, hd⟩
      refine ⟨missingBlockFinding rt p n bt.MinItems, ?_, rfl, rfl, rfl⟩
      rw [mem_Validate_some_iff]
      refine Or.inr ⟨(n, bt), hbt, ?_⟩
      rw [mem_blockEntryFindings_iff]
      exact ⟨h1, h2, h3, Or.inl ⟨(selectTarget_eq_none_iff bd n).mpr ⟨hs, hd⟩, rfl⟩⟩
  · intro bt hbt h1 h2 h3 hs hd
    rw [filter_block_findings equalFold bd rt p schema pi n hkeys bt hbt]
    have hsel : selectTarget bd n = none := (selectTarget_eq_none_iff bd n).mpr ⟨hs, hd⟩
    have : blockEntryFindings equalFold bd rt p (pi ++ bd.IgnoreChanges) (n, bt)
        = [missingBlockFinding rt p n bt.MinItems] := by
      unfold blockEntryFindings
      simp [h1, h2, h3, hsel]
    rw [this]
    simp [missingBlockFinding]

/-- C6: up to the order in which the block-type map is visited, the findings `Validate`
returns for a non-nil schema node are the attribute findings of the current level, the
block findings of the current level, and the nested findings: for each block type that is
not `timeouts`, not suppressed, not deprecated and present in the block, the output of
`Validate` on the selected child (static before dynamic) with the path extended by `.` and
the name, the nested schema and the effective ignore list; other block types contribute no
nested finding. -/
theorem validate_recursion_rule (bd : BlockData) (rt p : String) (schema : SchemaBlock)
    (pi : List String) :
    (Validate equalFold bd rt p (some schema) pi).Perm
      (validateAttributes equalFold bd rt p schema (pi ++ bd.IgnoreChanges)
        ++ levelBlockFindings equalFold bd rt p schema (pi ++ bd.IgnoreChanges)
        ++ nestedFindings equalFold bd rt p schema (pi ++ bd.IgnoreChanges)) := by
  rw [Validate_some, List.append_assoc]
  refine List.Perm.append_left _ ?_
  rw [validateBlocks_eq_flatMap, levelBlockFindings, nestedFindings,
    filterMap_eq_flatMap_toList]
  have hfun : blockEntryFindings equalFold bd rt p (pi ++ bd.IgnoreChanges)
      = fun e => _ ++ _ :=
    funext (blockEntryFindings_split equalFold bd rt p (pi ++ bd.IgnoreChanges))
  rw [hfun]
  exact flatMap_append_perm _ _ schema.BlockTypes

end ValidatorClaims2

section DedupClaims

/-- C7: `DeduplicateFindings` is idempotent. -/
theorem DeduplicateFindings_idempotent (fs : List ValidationFinding) :
    DeduplicateFindings (DeduplicateFindings fs) = DeduplicateFindings fs := by
  rw [DeduplicateFindings_eq_keepUnseen, DeduplicateFindings_eq_keepUnseen]
  apply keepUnseen_of_fresh
  · intro g _ h
    cases h
  · exact keepUnseen_pairwise fs []

/-- C8: on the two findings `findingBarInPath` (path `root|x`, name `y`) and
`findingBarInName` (path `root`, name `x|y`), which differ in identity and render to the same
key, `DeduplicateFindings` keeps only the first, so the second finding of the input has no
finding of the same identity tuple in the result. -/
theorem DeduplicateFindings_loses_identity :
    dedupKey findingBarInPath = "azurerm_subnet|root|x|y|true|false|"
    ∧ dedupKey findingBarInName = "azurerm_subnet|root|x|y|true|false|"
    ∧ DeduplicateFindings [findingBarInPath, findingBarInName] = [findingBarInPath]
    ∧ ¬ ∃ h ∈ DeduplicateFindings [findingBarInPath, findingBarInName],
        identity h = identity findingBarInName := by
  decide

/-- C9: the findings `findingTypeAB` and `findingPathBC` have different identity tuples (they
differ in `ResourceType` and in `Path`) and the same rendered key, and `DeduplicateFindings`
drops the second although no earlier finding has its tuple. -/
theorem DeduplicateFindings_drops_distinct_tuple :
    identity findingTypeAB ≠ identity findingPathBC
    ∧ dedupKey findingTypeAB = dedupKey findingPathBC
    ∧ DeduplicateFindings [findingTypeAB, findingPathBC] = [findingTypeAB] := by
  decide

/-- C10: two findings that agree on `ResourceType`, `Path`, `Name`, `IsBlock` and
`IsDataSource` and differ in `SubmoduleName` are both kept by `DeduplicateFindings`. -/
theorem DeduplicateFindings_keeps_distinct_submodules (f g : ValidationFinding)
    (hrt : f.ResourceType = g.ResourceType) (hp : f.Path = g.Path) (hn : f.Name = g.Name)
    (hb : f.IsBlock = g.IsBlock) (hd : f.IsDataSource = g.IsDataSource)
    (hs : f.SubmoduleName ≠ g.SubmoduleName) :
    DeduplicateFindings [f, g] = [f, g] := by
  have hkey : dedupKey g ≠ dedupKey f := by
    intro h
    unfold dedupKey at h
    rw [hrt, hp, hn, hb, hd] at h
    exact hs (string_append_left_cancel _ _ _ h).symm
  rw [DeduplicateFindings_eq_keepUnseen]
  simp [keepUnseen, hkey]

end DedupClaims

/-! ## The claims on concrete inputs -/

section Witnesses

/-- C1 on a block with an empty `identity` child, for the finding `type` under `root.identity`. -/
theorem computed_only_attribute_never_reported_witness :
    ∃ c : Invocation,
      Reaches equalFoldASCII
        { bd := blockWithIdentity, path := "root", schema := schemaComputed, parentIgnore := [] } c
      ∧ (⟨"r", "root.identity", "type", false, false, false, ""⟩ : ValidationFinding)
          ∈ validateAttributes equalFoldASCII c.bd "r" c.path c.schema c.ignore
      ∧ (∃ a, ("type", a) ∈ c.schema.Attributes
            ∧ (a.Computed && !a.Optional && !a.Required) = false)
      ∧ ((c.schema.Attributes.map Prod.fst).Nodup →
            ∀ a, ("type", a) ∈ c.schema.Attributes →
              (a.Computed && !a.Optional && !a.Required) = false) :=
  computed_only_attribute_never_reported equalFoldASCII "r" blockWithIdentity "root"
    schemaComputed [] ⟨"r", "root.identity", "type", false, false, false, ""⟩
    (by decide) rfl

/-- C2 on a block whose own ignore list holds the wildcard in second position. -/
theorem wildcard_yields_no_findings_witness :
    "*all*" ∈ ["name"] ++ (BlockData.mk [] [] [] ["tags", "*all*"]).IgnoreChanges
    ∧ Validate equalFoldASCII (BlockData.mk [] [] [] ["tags", "*all*"]) "r" "root"
        (some schemaNetworkConfig) ["name"] = [] :=
  ⟨by decide,
   wildcard_yields_no_findings equalFoldASCII (BlockData.mk [] [] [] ["tags", "*all*"]) "r" "root"
    (some schemaNetworkConfig) ["name"] (by decide)⟩

/-- C3 with ASCII case folding: the entry `Tags`, inherited or own, suppresses `tags`, and
the scenario of the own entry `tags` gives no finding. -/
theorem ignore_entry_suppresses_name_witness :
    (∀ f ∈ Validate equalFoldASCII (BlockData.mk [] [] [] []) "r" "root" (some schemaTags) ["Tags"],
        f.Name ≠ "tags")
    ∧ (∀ f ∈ Validate equalFoldASCII (BlockData.mk [] [] [] ["Tags"]) "r" "root"
          (some schemaTags) [], f.Name ≠ "tags")
    ∧ Validate equalFoldASCII (BlockData.mk [] [] [] ["tags"]) "r" "root" (some schemaTags) [] = [] :=
  ⟨(ignore_entry_suppresses_name equalFoldASCII).1 "r" "Tags" "tags" (BlockData.mk [] [] [] [])
      "root" (some schemaTags) ["Tags"] (by decide) (Or.inl (by decide)),
   (ignore_entry_suppresses_name equalFoldASCII).1 "r" "Tags" "tags"
      (BlockData.mk [] [] [] ["Tags"]) "root" (some schemaTags) [] (by decide)
      (Or.inr (by decide)),
   (ignore_entry_suppresses_name equalFoldASCII).2 (by decide) "r" "root"⟩

/-- C4 on the scenario name (required), tags (optional), id (required) with only `name` set:
exactly one finding, for `tags`, not required. -/
theorem attribute_findings_at_level_exact_witness :
    Validate equalFoldASCII blockNameOnly "r" "root" (some schemaNameTagsId) []
      = [⟨"r", "root", "tags", false, false, false, ""⟩]
    ∧ (Validate equalFoldASCII blockNameOnly "r" "root" (some schemaNameTagsId) []).filter
          (fun f => decide (f.IsBlock = false ∧ f.Path = "root" ∧ f.Name = "tags"))
        = [⟨"r", "root", "tags", false, false, false, ""⟩] :=
  ⟨by decide,
   (attribute_findings_at_level_exact equalFoldASCII blockNameOnly "r" "root" schemaNameTagsId []
      "tags" (by decide)).2 ⟨false, true, false, false⟩ (by decide) (by decide) (by decide)
      (by decide) (by decide) (by decide)⟩

/-- C5 on the scenario of the required block type `network_config` with no child block:
exactly one finding, for the block, required, and none for `subnet_id`. -/
theorem block_findings_at_level_exact_witness :
    Validate equalFoldASCII blockEmpty "r" "root" (some schemaNetworkConfig) []
      = [⟨"r", "root", "network_config", true, true, false, ""⟩]
    ∧ (Validate equalFoldASCII blockEmpty "r" "root" (some schemaNetworkConfig) []).filter
          (fun f => decide (f.IsBlock = true ∧ f.Path = "root" ∧ f.Name = "network_config"))
        = [⟨"r", "root", "network_config", true, true, false, ""⟩] :=
  ⟨by decide,
   (block_findings_at_level_exact equalFoldASCII blockEmpty "r" "root" schemaNetworkConfig []
      "network_config" (by decide)).2
      (.mk 1 (some (.mk [("subnet_id", ⟨true, false, false, false⟩)] [])) false)
      (by simp [schemaNetworkConfig, SchemaBlock.BlockTypes]) (by decide) (by decide) rfl rfl rfl⟩

/-- C10 on the root module and the submodule `storage`. -/
theorem DeduplicateFindings_keeps_distinct_submodules_witness :
    DeduplicateFindings
        [⟨"azurerm_storage_account", "root", "tags", false, false, false, ""⟩,
         ⟨"azurerm_storage_account", "root", "tags", false, false, false, "storage"⟩]
      = [⟨"azurerm_storage_account", "root", "tags", false, false, false, ""⟩,
         ⟨"azurerm_storage_account", "root", "tags", false, false, false, "storage"⟩] :=
  DeduplicateFindings_keeps_distinct_submodules
    ⟨"azurerm_storage_account", "root", "tags", false, false, false, ""⟩
    ⟨"azurerm_storage_account", "root", "tags", false, false, false, "storage"⟩
    rfl rfl rfl rfl rfl (by decide)

end Witnesses

/-! ## Filtering and validating resource records -/

section Filter

theorem foldl_append_if {α : Type} (p : α → Bool) (l : List α) :
    ∀ (acc : List α),
      l.foldl (fun (filtered : List α) (x : α) => if p x then filtered ++ [x] else filtered) acc
        = acc ++ l.filter p := by
  induction l with
  | nil => intro acc; simp
  | cons x rest ih =>
    intro acc
    rw [List.foldl_cons, ih, List.filter_cons]
    by_cases h : p x = true
    · simp [h]
    · simp [h]

theorem filterResources_eq_filter (resources : List ParsedResource) (excluded : List String) :
    filterResources resources excluded
      = resources.filter (fun r => decide (r.TypeName ∉ excluded)) := by
  unfold filterResources
  by_cases h : excluded.length = 0
  · rw [if_pos h]
    have : excluded = [] := List.length_eq_zero.mp h
    rw [this]
    simp
  · rw [if_neg h, foldl_append_if (fun (r : ParsedResource) => !(excluded.contains r.TypeName)), List.nil_append]
    apply List.filter_congr
    intro r _
    simp

theorem filterDataSources_eq_filter (dataSources : List ParsedDataSource)
    (excluded : List String) :
    filterDataSources dataSources excluded
      = dataSources.filter (fun ds => decide (ds.TypeName ∉ excluded)) := by
  unfold filterDataSources
  by_cases h : excluded.length = 0
  · rw [if_pos h]
    have : excluded = [] := List.length_eq_zero.mp h
    rw [this]
    simp
  · rw [if_neg h, foldl_append_if (fun (ds : ParsedDataSource) => !(excluded.contains ds.TypeName)),
      List.nil_append]
    apply List.filter_congr
    intro ds _
    simp

/-- C18: `filterResources` keeps exactly the records whose full type is not an element of
the exclusion list, in their original order, and returns the input unchanged for an empty
exclusion list; `filterDataSources` does the same on data source records.  On the example
resources, excluding `azurerm_resource`, `AWS_INSTANCE` and `random_id` drops only the
record of type `random_id`: a shared beginning or a different letter case excludes
nothing. -/
theorem filter_by_exact_type :
    (∀ (resources : List ParsedResource) (excluded : List String),
        filterResources resources excluded
          = resources.filter (fun r => decide (r.TypeName ∉ excluded)))
    ∧ (∀ (resources : List ParsedResource), filterResources resources [] = resources)
    ∧ (∀ (dataSources : List ParsedDataSource) (excluded : List String),
        filterDataSources dataSources excluded
          = dataSources.filter (fun ds => decide (ds.TypeName ∉ excluded)))
    ∧ (∀ (dataSources : List ParsedDataSource), filterDataSources dataSources [] = dataSources)
    ∧ (filterResources exampleResources ["azurerm_resource", "AWS_INSTANCE", "random_id"]).map
          (fun r => r.Name)
        = ["a", "b", "d", "e"] := by
  refine ⟨filterResources_eq_filter, fun _ => rfl, filterDataSources_eq_filter, fun _ => rfl, ?_⟩
  decide

end Filter

section Routing

variable (equalFold : String → String → Bool)

theorem splitAtUnderscore_head (l : List Char) :
    ∃ more, splitAtUnderscore l = l.takeWhile (fun c => decide (c ≠ '_')) :: more := by
  induction l with
  | nil => exact ⟨[], rfl⟩
  | cons c rest ih =>
    obtain ⟨more, hmore⟩ := ih
    rw [splitAtUnderscore, List.takeWhile_cons]
    by_cases h : c = '_'
    · rw [if_pos h]
      simp [h]
    · rw [if_neg h, hmore]
      simp [h]

theorem splitAtUnderscore_ne_nil (l : List Char) : splitAtUnderscore l ≠ [] := by
  obtain ⟨more, h⟩ := splitAtUnderscore_head l
  rw [h]
  exact List.cons_ne_nil _ _

theorem provName_eq (typeName : String) :
    provName typeName = ⟨typeName.data.takeWhile (fun c => decide (c ≠ '_'))⟩ := by
  obtain ⟨more, h⟩ := splitAtUnderscore_head typeName.data
  unfold provName
  rw [h]
  rfl

theorem foldl_append_eq_flatMap {α β : Type} (g : α → List β) (l : List α) :
    ∀ (acc : List β),
      l.foldl (fun (findings : List β) (x : α) => findings ++ g x) acc = acc ++ l.flatMap g := by
  induction l with
  | nil => intro acc; simp
  | cons x rest ih =>
    intro acc
    rw [List.foldl_cons, ih, List.flatMap_cons, List.append_assoc]

theorem ValidateResources_eq_flatMap (resources : List ParsedResource)
    (schema : TerraformSchema) (providers : List (String × ProviderConfig))
    (submoduleName : String) :
    ValidateResources equalFold resources schema providers submoduleName
      = resources.flatMap (resourceFindings equalFold schema providers submoduleName) := by
  unfold ValidateResources
  rw [foldl_append_eq_flatMap, List.nil_append]

theorem ValidateDataSources_eq_flatMap (dataSources : List ParsedDataSource)
    (schema : TerraformSchema) (providers : List (String × ProviderConfig))
    (submoduleName : String) :
    ValidateDataSources equalFold dataSources schema providers submoduleName
      = dataSources.flatMap (dataSourceFindings equalFold schema providers submoduleName) := by
  unfold ValidateDataSources
  rw [foldl_append_eq_flatMap, List.nil_append]

theorem resourceFindings_of_not_routable (schema : TerraformSchema)
    (providers : List (String × ProviderConfig)) (submoduleName : String) (r : ParsedResource)
    (h : routableResource schema providers r = false) :
    resourceFindings equalFold schema providers submoduleName r = [] := by
  unfold routableResource at h
  unfold resourceFindings
  cases hp : providers.lookup (provName r.TypeName) with
  | none => rfl
  | some cfg =>
    rw [hp] at h
    simp only at h ⊢
    cases hs : schema.ProviderSchemas.lookup cfg.Source with
    | none => rfl
    | some pSchema =>
      rw [hs] at h
      simp only at h ⊢
      cases hr : pSchema.ResourceSchemas.lookup r.TypeName with
      | none => rfl
      | some e =>
        rw [hr] at h
        cases h

theorem dataSourceFindings_of_not_routable (schema : TerraformSchema)
    (providers : List (String × ProviderConfig)) (submoduleName : String)
    (ds : ParsedDataSource) (h : routableDataSource schema providers ds = false) :
    dataSourceFindings equalFold schema providers submoduleName ds = [] := by
  unfold routableDataSource at h
  unfold dataSourceFindings
  cases hp : providers.lookup (provName ds.TypeName) with
  | none => rfl
  | some cfg =>
    rw [hp] at h
    simp only at h ⊢
    cases hs : schema.ProviderSchemas.lookup cfg.Source with
    | none => rfl
    | some pSchema =>
      rw [hs] at h
      simp only at h ⊢
      cases hr : pSchema.DataSourceSchemas.lookup ds.TypeName with
      | none => rfl
      | some e =>
        rw [hr] at h
        cases h

theorem flatMap_filter_of_nil {α β : Type} (g : α → List β) (p : α → Bool)
    (h : ∀ x, p x = false → g x = []) (l : List α) :
    (l.filter p).flatMap g = l.flatMap g := by
  induction l with
  | nil => rfl
  | cons x rest ih =>
    rw [List.filter_cons]
    by_cases hx : p x = true
    · rw [if_pos hx, List.flatMap_cons, List.flatMap_cons, ih]
    · rw [if_neg hx, List.flatMap_cons, ih, h x (by simpa using hx), List.nil_append]

theorem ValidateResources_singleton (r : ParsedResource) (schema : TerraformSchema)
    (providers : List (String × ProviderConfig)) (submoduleName : String) :
    ValidateResources equalFold [r] schema providers submoduleName
      = resourceFindings equalFold schema providers submoduleName r := by
  rw [ValidateResources_eq_flatMap]
  simp

theorem ValidateDataSources_singleton (ds : ParsedDataSource) (schema : TerraformSchema)
    (providers : List (String × ProviderConfig)) (submoduleName : String) :
    ValidateDataSources equalFold [ds] schema providers submoduleName
      = dataSourceFindings equalFold schema providers submoduleName ds := by
  rw [ValidateDataSources_eq_flatMap]
  simp

/-- C19: the provider alias is the part of the type name before the first underscore (the
whole name when there is none), and the split it is taken from is never empty, so the index
`[0]` never fails; a resource or data source that is not routable (no provider config for the
alias, no schema branch for its source, or no schema entry for the type) contributes no
finding; and the result for a list of instances is the concatenation, in instance order, of
the results for the routable instances alone. -/
theorem routing_skips_unroutable_instances (schema : TerraformSchema)
    (providers : List (String × ProviderConfig)) (submoduleName : String) :
    (∀ typeName : String,
        splitAtUnderscore typeName.data ≠ []
        ∧ provName typeName = ⟨typeName.data.takeWhile (fun c => decide (c ≠ '_'))⟩)
    ∧ (∀ r : ParsedResource, routableResource schema providers r = false →
        ValidateResources equalFold [r] schema providers submoduleName = [])
    ∧ (∀ resources : List ParsedResource,
        ValidateResources equalFold resources schema providers submoduleName
          = (resources.filter (routableResource schema providers)).flatMap
              (fun r => ValidateResources equalFold [r] schema providers submoduleName))
    ∧ (∀ ds : ParsedDataSource, routableDataSource schema providers ds = false →
        ValidateDataSources equalFold [ds] schema providers submoduleName = [])
    ∧ (∀ dataSources : List ParsedDataSource,
        ValidateDataSources equalFold dataSources schema providers submoduleName
          = (dataSources.filter (routableDataSource schema providers)).flatMap
              (fun ds => ValidateDataSources equalFold [ds] schema providers submoduleName)) := by
  refine ⟨fun t => ⟨splitAtUnderscore_ne_nil _, provName_eq t⟩, ?_, ?_, ?_, ?_⟩
  · intro r h
    rw [ValidateResources_singleton]
    exact resourceFindings_of_not_routable equalFold schema providers submoduleName r h
  · intro resources
    rw [ValidateResources_eq_flatMap]
    have : (fun r => ValidateResources equalFold [r] schema providers submoduleName)
        = resourceFindings equalFold schema providers submoduleName :=
      funext (fun r => ValidateResources_singleton equalFold r schema providers submoduleName)
    rw [this]
    exact (flatMap_filter_of_nil _ _
      (resourceFindings_of_not_routable equalFold schema providers submoduleName) resources).symm
  · intro ds h
    rw [ValidateDataSources_singleton]
    exact dataSourceFindings_of_not_routable equalFold schema providers submoduleName ds h
  · intro dataSources
    rw [ValidateDataSources_eq_flatMap]
    have : (fun ds => ValidateDataSources equalFold [ds] schema providers submoduleName)
        = dataSourceFindings equalFold schema providers submoduleName :=
      funext (fun ds => ValidateDataSources_singleton equalFold ds schema providers submoduleName)
    rw [this]
    exact (flatMap_filter_of_nil _ _
      (dataSourceFindings_of_not_routable equalFold schema providers submoduleName)
      dataSources).symm

/-- C19 on the example resources: the alias of the empty type name is the empty string, the
resource of type `aws_instance` (no provider config) contributes nothing, and the batch
yields the findings of the two routable resource groups, in order. -/
theorem routing_skips_unroutable_instances_witness :
    provName "" = ""
    ∧ provName "azurerm_resource_group" = "azurerm"
    ∧ ValidateResources equalFoldASCII [⟨"aws_instance", "b", .mk [] [] [] []⟩]
        exampleTerraformSchema exampleProviders "storage" = []
    ∧ ValidateResources equalFoldASCII exampleResources exampleTerraformSchema exampleProviders
        "storage"
        = [⟨"azurerm_resource_group", "root", "name", true, false, false, "storage"⟩,
           ⟨"azurerm_resource_group", "root", "location", true, false, false, "storage"⟩] :=
  ⟨by decide, by decide,
   (routing_skips_unroutable_instances equalFoldASCII exampleTerraformSchema exampleProviders
      "storage").2.1 ⟨"aws_instance", "b", .mk [] [] [] []⟩ (by decide),
   by decide⟩

end Routing

section Tagging

variable (equalFold : String → String → Bool)

/-- What `Validate` puts in the fields of a finding: the resource type it was called with,
no data source flag, no submodule name, and the path it was called with, possibly extended
by `.` and further names. -/
theorem Validate_fields (rt : String) :
    ∀ (s : SchemaBlock) (bd : BlockData) (p : String) (pi : List String),
      ∀ f ∈ Validate equalFold bd rt p (some s) pi,
        f.ResourceType = rt ∧ f.IsDataSource = false ∧ f.SubmoduleName = ""
          ∧ (f.Path = p ∨ ∃ rest, f.Path = p ++ "." ++ rest) := by
  intro s
  induction s using SchemaBlock.nested_induction with
  | step s ih =>
    intro bd p pi f hf
    rcases (mem_Validate_some_iff equalFold bd rt p s pi f).mp hf with ⟨a, _, ha⟩ | ⟨b, hb, hfb⟩
    · obtain ⟨_, _, _, _, _, hfeq⟩ := (attributeFinding_eq_some_iff equalFold bd rt p _ a f).mp ha
      rw [hfeq]
      exact ⟨rfl, rfl, rfl, Or.inl rfl⟩
    · obtain ⟨_, _, _, hcase⟩ := (mem_blockEntryFindings_iff equalFold bd rt p _ b f).mp hfb
      rcases hcase with ⟨_, hfeq⟩ | ⟨t, _, hft⟩
      · rw [hfeq]
        exact ⟨rfl, rfl, rfl, Or.inl rfl⟩
      · cases hblk : b.2.Block with
        | none =>
          rw [hblk, Validate_none] at hft
          cases hft
        | some s' =>
          rw [hblk] at hft
          obtain ⟨h1, h2, h3, h4⟩ := ih b.1 b.2 s' hb hblk t.Data _ _ f hft
          refine ⟨h1, h2, h3, Or.inr ?_⟩
          rcases h4 with h4 | ⟨rest, h4⟩
          · exact ⟨b.1, h4⟩
          · refine ⟨b.1 ++ "." ++ rest, ?_⟩
            rw [h4]
            simp only [String.append_assoc]

theorem Validate_fields_option (rt : String) (o : Option SchemaBlock) (bd : BlockData)
    (p : String) (pi : List String) :
    ∀ f ∈ Validate equalFold bd rt p o pi,
      f.ResourceType = rt ∧ f.IsDataSource = false ∧ f.SubmoduleName = ""
        ∧ (f.Path = p ∨ ∃ rest, f.Path = p ++ "." ++ rest) := by
  cases o with
  | none =>
    intro f hf
    rw [Validate_none] at hf
    cases hf
  | some s => exact Validate_fields equalFold rt s bd p pi

theorem mem_tagResourceFindings (ignoreChanges : List String) (submoduleName : String)
    (findings : List ValidationFinding) (f : ValidationFinding)
    (h : f ∈ tagResourceFindings equalFold ignoreChanges submoduleName findings) :
    ∃ g ∈ findings, f = { g with SubmoduleName := submoduleName } := by
  unfold tagResourceFindings at h
  rw [List.mem_map] at h
  obtain ⟨g, hg, hgf⟩ := h
  exact ⟨g, (List.mem_filter.mp hg).1, hgf.symm⟩

theorem mem_tagDataSourceFindings (ignoreChanges : List String) (submoduleName : String)
    (findings : List ValidationFinding) (f : ValidationFinding)
    (h : f ∈ tagDataSourceFindings equalFold ignoreChanges submoduleName findings) :
    ∃ g ∈ findings, f = { g with SubmoduleName := submoduleName, IsDataSource := true } := by
  unfold tagDataSourceFindings at h
  rw [List.mem_map] at h
  obtain ⟨g, hg, hgf⟩ := h
  exact ⟨g, (List.mem_filter.mp hg).1, hgf.symm⟩

theorem root_dot_append (rest : String) : "root" ++ "." ++ rest = "root." ++ rest := by
  have : ("root" : String) ++ "." = "root." := by decide
  rw [this]

theorem resourceFindings_fields (schema : TerraformSchema)
    (providers : List (String × ProviderConfig)) (submoduleName : String) (r : ParsedResource) :
    ∀ f ∈ resourceFindings equalFold schema providers submoduleName r,
      f.SubmoduleName = submoduleName ∧ f.IsDataSource = false ∧ f.ResourceType = r.TypeName
        ∧ (f.Path = "root" ∨ ∃ rest, f.Path = "root." ++ rest) := by
  intro f hf
  unfold resourceFindings at hf
  cases hp : providers.lookup (provName r.TypeName) with
  | none => rw [hp] at hf; cases hf
  | some cfg =>
    rw [hp] at hf
    simp only at hf
    cases hs : schema.ProviderSchemas.lookup cfg.Source with
    | none => rw [hs] at hf; cases hf
    | some pSchema =>
      rw [hs] at hf
      simp only at hf
      cases hr : pSchema.ResourceSchemas.lookup r.TypeName with
      | none => rw [hr] at hf; cases hf
      | some resSchema =>
        rw [hr] at hf
        simp only at hf
        obtain ⟨g, hg, hfg⟩ := mem_tagResourceFindings equalFold _ _ _ f hf
        obtain ⟨h1, h2, _, h4⟩ := Validate_fields_option equalFold r.TypeName resSchema.Block
          r.Data "root" r.Data.IgnoreChanges g hg
        rw [hfg]
        refine ⟨rfl, h2, h1, ?_⟩
        rcases h4 with h4 | ⟨rest, h4⟩
        · exact Or.inl h4
        · exact Or.inr ⟨rest, by rw [← root_dot_append]; exact h4⟩

theorem dataSourceFindings_fields (schema : TerraformSchema)
    (providers : List (String × ProviderConfig)) (submoduleName : String)
    (ds : ParsedDataSource) :
    ∀ f ∈ dataSourceFindings equalFold schema providers submoduleName ds,
      f.SubmoduleName = submoduleName ∧ f.IsDataSource = true ∧ f.ResourceType = ds.TypeName
        ∧ (f.Path = "root" ∨ ∃ rest, f.Path = "root." ++ rest) := by
  intro f hf
  unfold dataSourceFindings at hf
  cases hp : providers.lookup (provName ds.TypeName) with
  | none => rw [hp] at hf; cases hf
  | some cfg =>
    rw [hp] at hf
    simp only at hf
    cases hs : schema.ProviderSchemas.lookup cfg.Source with
    | none => rw [hs] at hf; cases hf
    | some pSchema =>
      rw [hs] at hf
      simp only at hf
      cases hr : pSchema.DataSourceSchemas.lookup ds.TypeName with
      | none => rw [hr] at hf; cases hf
      | some dsSchema =>
        rw [hr] at hf
        simp only at hf
        obtain ⟨g, hg, hfg⟩ := mem_tagDataSourceFindings equalFold _ _ _ f hf
        obtain ⟨h1, _, _, h4⟩ := Validate_fields_option equalFold ds.TypeName dsSchema.Block
          ds.Data "root" ds.Data.IgnoreChanges g hg
        rw [hfg]
        refine ⟨rfl, rfl, h1, ?_⟩
        rcases h4 with h4 | ⟨rest, h4⟩
        · exact Or.inl h4
        · exact Or.inr ⟨rest, by rw [← root_dot_append]; exact h4⟩

/-- C20: every finding returned by `ValidateResources` carries the submodule name passed in,
has `IsDataSource = false`, has the type of the instance whose iteration produced it as
`ResourceType`, and a path that is `root` or starts with `root.`; every finding returned by
`ValidateDataSources` has the same properties with `IsDataSource = true`. -/
theorem findings_are_tagged (schema : TerraformSchema)
    (providers : List (String × ProviderConfig)) (submoduleName : String) :
    (∀ (resources : List ParsedResource),
        ∀ f ∈ ValidateResources equalFold resources schema providers submoduleName,
          f.SubmoduleName = submoduleName ∧ f.IsDataSource = false
            ∧ (∃ r ∈ resources,
                f ∈ ValidateResources equalFold [r] schema providers submoduleName
                  ∧ f.ResourceType = r.TypeName)
            ∧ (f.Path = "root" ∨ ∃ rest, f.Path = "root." ++ rest))
    ∧ (∀ (dataSources : List ParsedDataSource),
        ∀ f ∈ ValidateDataSources equalFold dataSources schema providers submoduleName,
          f.SubmoduleName = submoduleName ∧ f.IsDataSource = true
            ∧ (∃ ds ∈ dataSources,
                f ∈ ValidateDataSources equalFold [ds] schema providers submoduleName
                  ∧ f.ResourceType = ds.TypeName)
            ∧ (f.Path = "root" ∨ ∃ rest, f.Path = "root." ++ rest)) := by
  constructor
  · intro resources f hf
    rw [ValidateResources_eq_flatMap, List.mem_flatMap] at hf
    obtain ⟨r, hr, hfr⟩ := hf
    obtain ⟨h1, h2, h3, h4⟩ :=
      resourceFindings_fields equalFold schema providers submoduleName r f hfr
    refine ⟨h1, h2, ⟨r, hr, ?_, h3⟩, h4⟩
    rw [ValidateResources_singleton]
    exact hfr
  · intro dataSources f hf
    rw [ValidateDataSources_eq_flatMap, List.mem_flatMap] at hf
    obtain ⟨ds, hds, hfds⟩ := hf
    obtain ⟨h1, h2, h3, h4⟩ :=
      dataSourceFindings_fields equalFold schema providers submoduleName ds f hfds
    refine ⟨h1, h2, ⟨ds, hds, ?_, h3⟩, h4⟩
    rw [ValidateDataSources_singleton]
    exact hfds

/-- C20 on the example resources, for the finding `location` of the second resource group. -/
theorem findings_are_tagged_witness :
    (⟨"azurerm_resource_group", "root", "location", true, false, false, "storage"⟩ :
        ValidationFinding).SubmoduleName = "storage"
    ∧ (⟨"azurerm_resource_group", "root", "location", true, false, false, "storage"⟩ :
        ValidationFinding).IsDataSource = false
    ∧ (∃ r ∈ exampleResources,
        (⟨"azurerm_resource_group", "root", "location", true, false, false, "storage"⟩ :
            ValidationFinding)
          ∈ ValidateResources equalFoldASCII [r] exampleTerraformSchema exampleProviders "storage"
        ∧ (⟨"azurerm_resource_group", "root", "location", true, false, false, "storage"⟩ :
            ValidationFinding).ResourceType = r.TypeName)
    ∧ ((⟨"azurerm_resource_group", "root", "location", true, false, false, "storage"⟩ :
          ValidationFinding).Path = "root"
        ∨ ∃ rest, (⟨"azurerm_resource_group", "root", "location", true, false, false,
            "storage"⟩ : ValidationFinding).Path = "root." ++ rest) :=
  (findings_are_tagged equalFoldASCII exampleTerraformSchema exampleProviders "storage").1
    exampleResources ⟨"azurerm_resource_group", "root", "location", true, false, false, "storage"⟩
    (by decide)

end Tagging

/-! ## Merging blocks -/

section Merge

theorem mergeBlocks_eq (dest src : ParsedBlock) :
    mergeBlocks dest src = .mk (mergeBlockData dest.Data src.Data) := by
  cases src with
  | mk d => rw [mergeBlocks]; rfl

theorem mergeBlockData_eq (dest src : BlockData) :
    mergeBlockData dest src =
      .mk (mergeProperties dest.Properties src.Properties)
        (mergeChildren dest.StaticBlocks src.StaticBlocks)
        (mergeChildren dest.DynamicBlocks src.DynamicBlocks)
        (dest.IgnoreChanges ++ src.IgnoreChanges) := by
  cases src with
  | mk p s d i => rw [mergeBlockData]; rfl

theorem mem_mergeProperties (src : List String) :
    ∀ (dest : List String) (k : String),
      k ∈ mergeProperties dest src ↔ k ∈ dest ∨ k ∈ src := by
  induction src with
  | nil => intro dest k; simp [mergeProperties]
  | cons x rest ih =>
    intro dest k
    rw [mergeProperties, ih]
    by_cases hx : x ∈ dest
    · rw [if_pos hx]
      constructor
      · rintro (h | h)
        · exact Or.inl h
        · exact Or.inr (List.mem_cons_of_mem _ h)
      · rintro (h | h)
        · exact Or.inl h
        · rcases List.mem_cons.mp h with h | h
          · exact Or.inl (h ▸ hx)
          · exact Or.inr h
    · rw [if_neg hx]
      simp only [List.mem_append, List.mem_singleton, List.mem_cons]
      tauto

theorem mergeProperties_eq (src : List String) :
    ∀ (dest : List String), src.Nodup →
      mergeProperties dest src = dest ++ src.filter (fun k => decide (k ∉ dest)) := by
  induction src with
  | nil => intro dest _; simp [mergeProperties]
  | cons x rest ih =>
    intro dest hnd
    rw [List.nodup_cons] at hnd
    rw [mergeProperties, ih _ hnd.2]
    by_cases hx : x ∈ dest
    · rw [if_pos hx, List.filter_cons]
      simp [hx]
    · rw [if_neg hx, List.filter_cons]
      simp only [hx, not_false_eq_true, decide_True, if_true, List.append_assoc,
        List.singleton_append]
      congr 2
      apply List.filter_congr
      intro y hy
      have : y ≠ x := fun h => hnd.1 (h ▸ hy)
      simp [this]

end Merge

section Lookup

theorem lookup_some_mem {β : Type} (k : String) (v : β) :
    ∀ (l : List (String × β)), l.lookup k = some v → (k, v) ∈ l := by
  intro l
  induction l with
  | nil => intro h; simp at h
  | cons e rest ih =>
    obtain ⟨k', v'⟩ := e
    intro h
    rw [List.lookup_cons] at h
    by_cases hk : k = k'
    · subst hk
      simp at h
      subst h
      exact List.mem_cons_self _ _
    · have : (k == k') = false := by simpa using hk
      rw [this] at h
      exact List.mem_cons_of_mem _ (ih h)

theorem lookup_eq_none_iff_not_mem_keys {β : Type} (k : String) :
    ∀ (l : List (String × β)), l.lookup k = none ↔ k ∉ l.map Prod.fst := by
  intro l
  induction l with
  | nil => simp
  | cons e rest ih =>
    obtain ⟨k', v'⟩ := e
    rw [List.lookup_cons]
    by_cases hk : k = k'
    · subst hk
      simp
    · have : (k == k') = false := by simpa using hk
      rw [this]
      simp only [List.map_cons, List.mem_cons, not_or]
      rw [ih]
      exact ⟨fun h => ⟨hk, h⟩, fun h => h.2⟩

theorem lookup_of_mem_nodup {β : Type} (l : List (String × β)) (hnd : (l.map Prod.fst).Nodup)
    (k : String) (v : β) (h : (k, v) ∈ l) : l.lookup k = some v := by
  cases hl : l.lookup k with
  | none =>
    exfalso
    rw [lookup_eq_none_iff_not_mem_keys] at hl
    exact hl (List.mem_map.mpr ⟨(k, v), h, rfl⟩)
  | some w =>
    rw [value_unique_of_nodup_keys l hnd k v w h (lookup_some_mem k w l hl)]

theorem lookup_map_key {β : Type} (g : String × β → String × β) (hg : ∀ e, (g e).1 = e.1)
    (k : String) :
    ∀ (l : List (String × β)), (l.map g).lookup k = (l.lookup k).map (fun v => (g (k, v)).2) := by
  intro l
  induction l with
  | nil => simp
  | cons e rest ih =>
    obtain ⟨k', v'⟩ := e
    have he : g (k', v') = (k', (g (k', v')).2) := by
      apply Prod.ext
      · exact hg _
      · rfl
    rw [List.map_cons, he, List.lookup_cons, List.lookup_cons]
    by_cases hk : k = k'
    · subst hk
      simp
    · have : (k == k') = false := by simpa using hk
      rw [this]
      exact ih

theorem lookup_filter_key {β : Type} (p : String → Bool) (k : String) :
    ∀ (l : List (String × β)),
      (l.filter (fun e => p e.1)).lookup k = if p k = true then l.lookup k else none := by
  intro l
  induction l with
  | nil => simp
  | cons e rest ih =>
    obtain ⟨k', v'⟩ := e
    rw [List.filter_cons]
    by_cases hp : p k' = true
    · simp only [hp, if_true]
      rw [List.lookup_cons, List.lookup_cons]
      by_cases hk : k = k'
      · subst hk
        simp [hp]
      · have : (k == k') = false := by simpa using hk
        rw [this]
        exact ih
    · simp only [hp, Bool.false_eq_true, if_false]
      rw [ih, List.lookup_cons]
      by_cases hk : k = k'
      · subst hk
        simp [hp]
      · have : (k == k') = false := by simpa using hk
        rw [this]

theorem lookup_mapStore_self (m : List (String × ParsedBlock)) (k : String) (v : ParsedBlock) :
    (mapStore m k v).lookup k = some v := by
  unfold mapStore
  cases hl : m.lookup k with
  | none =>
    simp only [Option.isSome_none, Bool.false_eq_true, if_false]
    rw [List.lookup_append, hl]
    simp
  | some w =>
    simp only [Option.isSome_some, if_true]
    rw [lookup_map_key (fun e => if e.1 = k then (k, v) else e)
      (by intro e; by_cases h : e.1 = k <;> simp [h]) k m, hl]
    simp

theorem lookup_mapStore_ne (m : List (String × ParsedBlock)) (k k' : String) (v : ParsedBlock)
    (h : k' ≠ k) : (mapStore m k v).lookup k' = m.lookup k' := by
  unfold mapStore
  cases hl : m.lookup k with
  | none =>
    simp only [Option.isSome_none, Bool.false_eq_true, if_false]
    rw [List.lookup_append]
    have : List.lookup k' [(k, v)] = none := by
      rw [List.lookup_cons]
      have : (k' == k) = false := by simpa using h
      rw [this]
      rfl
    rw [this]
    cases m.lookup k' <;> rfl
  | some w =>
    simp only [Option.isSome_some, if_true]
    rw [lookup_map_key (fun e => if e.1 = k then (k, v) else e)
      (by intro e; by_cases h : e.1 = k <;> simp [h]) k' m]
    cases m.lookup k' with
    | none => rfl
    | some x => simp [h]

theorem mergeEntry_fst (src : List (String × ParsedBlock)) (e : String × ParsedBlock) :
    (mergeEntry src e).1 = e.1 := rfl

theorem lookup_mergedChildren (dest src : List (String × ParsedBlock)) (k : String) :
    (mergedChildren dest src).lookup k =
      match dest.lookup k, src.lookup k with
      | some x, some y => some (mergeBlocks x y)
      | some x, none => some x
      | none, some y => some y
      | none, none => none := by
  unfold mergedChildren
  rw [List.lookup_append, lookup_map_key (mergeEntry src) (mergeEntry_fst src) k dest,
    lookup_filter_key (fun k' => (dest.lookup k').isNone) k src]
  cases hd : dest.lookup k with
  | none =>
    cases hs : src.lookup k <;> simp
  | some x =>
    cases hs : src.lookup k <;> simp [mergeEntry, hs]

end Lookup

section ClosedForm

theorem mergeEntry_of_lookup_none (src : List (String × ParsedBlock)) (e : String × ParsedBlock)
    (h : src.lookup e.1 = none) : mergeEntry src e = e := by
  unfold mergeEntry
  rw [h]

theorem mergeEntry_cons_ne (k : String) (v : ParsedBlock) (rest : List (String × ParsedBlock))
    (e : String × ParsedBlock) (h : e.1 ≠ k) :
    mergeEntry ((k, v) :: rest) e = mergeEntry rest e := by
  unfold mergeEntry
  rw [List.lookup_cons]
  have : (e.1 == k) = false := by simpa using h
  rw [this]

theorem keys_map_mergeEntry (src dest : List (String × ParsedBlock)) :
    (dest.map (mergeEntry src)).map Prod.fst = dest.map Prod.fst := by
  rw [List.map_map]
  apply List.map_congr_left
  intro e _
  rfl

theorem mergeChildren_eq_mergedChildren (src : List (String × ParsedBlock)) :
    ∀ (dest : List (String × ParsedBlock)),
      (src.map Prod.fst).Nodup → (dest.map Prod.fst).Nodup →
      mergeChildren dest src = mergedChildren dest src := by
  induction src with
  | nil =>
    intro dest _ _
    rw [mergeChildren]
    unfold mergedChildren
    rw [List.filter_nil, List.append_nil]
    have : dest.map (mergeEntry []) = dest.map id := by
      apply List.map_congr_left
      intro e _
      exact mergeEntry_of_lookup_none [] e rfl
    rw [this, List.map_id]
  | cons x rest ih =>
    obtain ⟨k, v⟩ := x
    intro dest hsrc hdest
    rw [List.map_cons, List.nodup_cons] at hsrc
    obtain ⟨hk, hrest⟩ := hsrc
    have hknone : rest.lookup k = none := (lookup_eq_none_iff_not_mem_keys k rest).mpr hk
    have hrest_ne : ∀ e ∈ rest, e.1 ≠ k := by
      intro e he h
      exact hk (List.mem_map.mpr ⟨e, he, h⟩)
    rw [mergeChildren]
    cases hl : dest.lookup k with
    | none =>
      have hkd : k ∉ dest.map Prod.fst := (lookup_eq_none_iff_not_mem_keys k dest).mp hl
      have hdest_ne : ∀ e ∈ dest, e.1 ≠ k := by
        intro e he h
        exact hkd (List.mem_map.mpr ⟨e, he, h⟩)
      have hstore : mapStore dest k v = dest ++ [(k, v)] := by
        unfold mapStore
        rw [hl]
        rfl
      have hnd' : ((dest ++ [(k, v)]).map Prod.fst).Nodup := by
        rw [List.map_append, List.nodup_append]
        refine ⟨hdest, List.nodup_singleton _, ?_⟩
        intro a ha hb
        simp only [List.map_cons, List.map_nil, List.mem_singleton] at hb
        exact hkd (hb ▸ ha)
      show mergeChildren (mapStore dest k v) rest = _
      rw [hstore, ih _ hrest hnd']
      unfold mergedChildren
      rw [List.map_append, List.map_cons, List.map_nil,
        mergeEntry_of_lookup_none rest (k, v) hknone, List.filter_cons]
      have hhead : (dest.lookup (k, v).1).isNone = true := by
        show (dest.lookup k).isNone = true
        rw [hl]
        rfl
      rw [if_pos hhead]
      have hmap : dest.map (mergeEntry rest) = dest.map (mergeEntry ((k, v) :: rest)) := by
        apply List.map_congr_left
        intro e he
        exact (mergeEntry_cons_ne k v rest e (hdest_ne e he)).symm
      have hfilter : rest.filter (fun e => ((dest ++ [(k, v)]).lookup e.1).isNone)
          = rest.filter (fun e => (dest.lookup e.1).isNone) := by
        apply List.filter_congr
        intro e he
        rw [List.lookup_append]
        have : List.lookup e.1 [(k, v)] = none := by
          rw [List.lookup_cons]
          have : (e.1 == k) = false := by simpa using hrest_ne e he
          rw [this]
          rfl
        rw [this]
        cases dest.lookup e.1 <;> rfl
      rw [hmap, hfilter, List.append_assoc]
      rfl
    | some existing =>
      have hstore : mapStore dest k (mergeBlocks existing v)
          = dest.map (fun e => if e.1 = k then (k, mergeBlocks existing v) else e) := by
        unfold mapStore
        rw [hl]
        rfl
      have hkeys : (dest.map (fun e => if e.1 = k then (k, mergeBlocks existing v) else e)).map
          Prod.fst = dest.map Prod.fst := by
        rw [List.map_map]
        apply List.map_congr_left
        intro e _
        by_cases h : e.1 = k <;> simp [h]
      show mergeChildren (mapStore dest k (mergeBlocks existing v)) rest = _
      rw [hstore, ih _ hrest (by rw [hkeys]; exact hdest)]
      unfold mergedChildren
      rw [List.filter_cons]
      have hhead : ¬ ((dest.lookup (k, v).1).isNone = true) := by
        show ¬ ((dest.lookup k).isNone = true)
        rw [hl]
        simp
      rw [if_neg hhead, List.map_map]
      have hmap : dest.map (mergeEntry rest ∘
            fun e => if e.1 = k then (k, mergeBlocks existing v) else e)
          = dest.map (mergeEntry ((k, v) :: rest)) := by
        apply List.map_congr_left
        intro e he
        simp only [Function.comp]
        by_cases h : e.1 = k
        · rw [if_pos h, mergeEntry_of_lookup_none rest _ hknone]
          have he2 : e.2 = existing := by
            have hmem : (k, e.2) ∈ dest := by
              rw [← h]
              exact he
            exact value_unique_of_nodup_keys dest hdest k e.2 existing hmem
              (lookup_some_mem k existing dest hl)
          unfold mergeEntry
          rw [h, List.lookup_cons_self, he2]
        · rw [if_neg h, mergeEntry_cons_ne k v rest e h]
      have hfilter : rest.filter (fun e =>
            ((dest.map (fun e => if e.1 = k then (k, mergeBlocks existing v) else e)).lookup
              e.1).isNone)
          = rest.filter (fun e => (dest.lookup e.1).isNone) := by
        apply List.filter_congr
        intro e _
        rw [lookup_map_key (fun e => if e.1 = k then (k, mergeBlocks existing v) else e)
          (by intro e; by_cases h : e.1 = k <;> simp [h]) e.1 dest]
        cases dest.lookup e.1 <;> rfl
      rw [hmap, hfilter]

theorem keys_mergedChildren_nodup (dest src : List (String × ParsedBlock))
    (hd : (dest.map Prod.fst).Nodup) (hs : (src.map Prod.fst).Nodup) :
    ((mergedChildren dest src).map Prod.fst).Nodup := by
  unfold mergedChildren
  rw [List.map_append, keys_map_mergeEntry, List.nodup_append]
  refine ⟨hd, ?_, ?_⟩
  · exact (List.Nodup.sublist (List.Sublist.map _ (List.filter_sublist _)) hs)
  · intro a ha hb
    rw [List.mem_map] at hb
    obtain ⟨e, he, hea⟩ := hb
    rw [List.mem_filter] at he
    have hnone : dest.lookup e.1 = none := Option.isNone_iff_eq_none.mp he.2
    rw [lookup_eq_none_iff_not_mem_keys] at hnone
    exact hnone (hea ▸ ha)

end ClosedForm

section MergeAssoc

theorem mergedChildren_assoc (a b c : List (String × ParsedBlock))
    (hassoc : ∀ k x y z, (k, x) ∈ a → (k, y) ∈ b → (k, z) ∈ c →
      mergeBlocks (mergeBlocks x y) z = mergeBlocks x (mergeBlocks y z)) :
    mergedChildren (mergedChildren a b) c = mergedChildren a (mergedChildren b c) := by
  have h1 : (a.map (mergeEntry b)).map (mergeEntry c)
      = a.map (mergeEntry (mergedChildren b c)) := by
    rw [List.map_map]
    apply List.map_congr_left
    intro e he
    simp only [Function.comp]
    unfold mergeEntry
    simp only
    rw [lookup_mergedChildren]
    cases hb : b.lookup e.1 with
    | none => cases hc : c.lookup e.1 <;> rfl
    | some y =>
      cases hc : c.lookup e.1 with
      | none => rfl
      | some z =>
        simp only
        rw [hassoc e.1 e.2 y z he (lookup_some_mem e.1 y b hb) (lookup_some_mem e.1 z c hc)]
  have h2 : (b.filter (fun e => (a.lookup e.1).isNone)).map (mergeEntry c)
      = (b.map (mergeEntry c)).filter (fun e => (a.lookup e.1).isNone) := by
    rw [List.filter_map]
    rfl
  have h3 : c.filter (fun e => ((mergedChildren a b).lookup e.1).isNone)
      = (c.filter (fun e => (b.lookup e.1).isNone)).filter (fun e => (a.lookup e.1).isNone) := by
    rw [List.filter_filter]
    apply List.filter_congr
    intro e _
    rw [lookup_mergedChildren]
    cases a.lookup e.1 <;> cases b.lookup e.1 <;> rfl
  calc mergedChildren (mergedChildren a b) c
      = (a.map (mergeEntry b) ++ b.filter (fun e => (a.lookup e.1).isNone)).map (mergeEntry c)
          ++ c.filter (fun e => ((mergedChildren a b).lookup e.1).isNone) := rfl
    _ = a.map (mergeEntry (mergedChildren b c))
          ++ ((b.map (mergeEntry c) ++ c.filter (fun e => (b.lookup e.1).isNone)).filter
                (fun e => (a.lookup e.1).isNone)) := by
        rw [List.map_append, h1, h2, h3, List.filter_append, List.append_assoc]
    _ = mergedChildren a (mergedChildren b c) := rfl

theorem mergeProperties_nodup (dest src : List String) (hd : dest.Nodup) (hs : src.Nodup) :
    (mergeProperties dest src).Nodup := by
  rw [mergeProperties_eq src dest hs, List.nodup_append]
  refine ⟨hd, hs.sublist (List.filter_sublist _), ?_⟩
  intro a ha hb
  rw [List.mem_filter] at hb
  simp only [decide_eq_true_eq] at hb
  exact hb.2 ha

theorem mergeProperties_assoc (a b c : List String) (hb : b.Nodup) (hc : c.Nodup) :
    mergeProperties (mergeProperties a b) c = mergeProperties a (mergeProperties b c) := by
  rw [mergeProperties_eq c _ hc, mergeProperties_eq b a hb,
    mergeProperties_eq _ a (mergeProperties_nodup b c hb hc), mergeProperties_eq c b hc,
    List.filter_append, List.filter_filter, List.append_assoc]
  congr 2
  apply List.filter_congr
  intro y _
  simp only [List.mem_append, List.mem_filter, decide_eq_true_eq, not_or, not_and,
    Bool.decide_and, Bool.and_eq_true, decide_not, Bool.not_eq_true', decide_eq_false_iff_not]
  by_cases h1 : y ∈ a <;> by_cases h2 : y ∈ b <;> simp [h1, h2]

/-- Induction over a block tree: a property holds of every block as soon as it holds of a
block whenever it holds of all its static and dynamic children. -/
theorem ParsedBlock.children_induction (P : ParsedBlock → Prop)
    (step : ∀ b : ParsedBlock,
      (∀ k child, ((k, child) ∈ b.Data.StaticBlocks ∨ (k, child) ∈ b.Data.DynamicBlocks) →
        P child) → P b) :
    ∀ b, P b := by
  intro b
  refine @ParsedBlock.rec
    (fun d => ∀ k child, ((k, child) ∈ d.StaticBlocks ∨ (k, child) ∈ d.DynamicBlocks) → P child)
    P
    (fun l => ∀ k child, (k, child) ∈ l → P child)
    (fun e => P e.2)
    ?_ ?_ ?_ ?_ ?_ b
  · intro p s d i ihs ihd k child h
    rcases h with h | h
    · exact ihs k child h
    · exact ihd k child h
  · intro d ih
    exact step _ ih
  · intro k child h
    cases h
  · intro head tail ihh iht k child h
    rcases List.mem_cons.mp h with h | h
    · rw [← h] at ihh
      exact ihh
    · exact iht k child h
  · intro k child ih
    exact ih

theorem childrenDistinctKeys_iff (l : List (String × ParsedBlock)) :
    childrenDistinctKeys l = true ↔ ∀ e ∈ l, e.2.distinctKeys = true := by
  induction l with
  | nil => simp [childrenDistinctKeys]
  | cons x rest ih =>
    obtain ⟨k, v⟩ := x
    rw [childrenDistinctKeys, Bool.and_eq_true, ih]
    simp

theorem BlockData.distinctKeys_iff (d : BlockData) :
    d.distinctKeys = true ↔
      d.Properties.Nodup ∧ (d.StaticBlocks.map Prod.fst).Nodup
        ∧ (d.DynamicBlocks.map Prod.fst).Nodup
        ∧ (∀ e ∈ d.StaticBlocks, e.2.distinctKeys = true)
        ∧ (∀ e ∈ d.DynamicBlocks, e.2.distinctKeys = true) := by
  cases d with
  | mk p s dy i =>
    rw [BlockData.distinctKeys]
    simp only [Bool.and_eq_true, decide_eq_true_eq, childrenDistinctKeys_iff]
    constructor
    · rintro ⟨⟨⟨⟨h1, h2⟩, h3⟩, h4⟩, h5⟩
      exact ⟨h1, h2, h3, h4, h5⟩
    · rintro ⟨h1, h2, h3, h4, h5⟩
      exact ⟨⟨⟨⟨h1, h2⟩, h3⟩, h4⟩, h5⟩

theorem ParsedBlock.distinctKeys_data (b : ParsedBlock) :
    b.distinctKeys = true ↔ b.Data.distinctKeys = true := by
  cases b with
  | mk d => rw [ParsedBlock.distinctKeys]; rfl

theorem ParsedBlock.Data_mk (d : BlockData) : (ParsedBlock.mk d).Data = d := rfl

theorem BlockData.Properties_mk (p : List String) (s d : List (String × ParsedBlock))
    (i : List String) : (BlockData.mk p s d i).Properties = p := rfl

theorem BlockData.StaticBlocks_mk (p : List String) (s d : List (String × ParsedBlock))
    (i : List String) : (BlockData.mk p s d i).StaticBlocks = s := rfl

theorem BlockData.DynamicBlocks_mk (p : List String) (s d : List (String × ParsedBlock))
    (i : List String) : (BlockData.mk p s d i).DynamicBlocks = d := rfl

theorem BlockData.IgnoreChanges_mk (p : List String) (s d : List (String × ParsedBlock))
    (i : List String) : (BlockData.mk p s d i).IgnoreChanges = i := rfl

theorem mergeBlocks_assoc_of_distinctKeys :
    ∀ (b a c : ParsedBlock), a.distinctKeys = true → b.distinctKeys = true →
      c.distinctKeys = true →
      mergeBlocks (mergeBlocks a b) c = mergeBlocks a (mergeBlocks b c) := by
  intro b
  induction b using ParsedBlock.children_induction with
  | step b ih =>
    intro a c ha hb hc
    rw [ParsedBlock.distinctKeys_data, BlockData.distinctKeys_iff] at ha hb hc
    obtain ⟨_, has, had, hacs, hacd⟩ := ha
    obtain ⟨hbp, hbs, hbd, hbcs, hbcd⟩ := hb
    obtain ⟨hcp, hcs, hcd, hccs, hccd⟩ := hc
    rw [mergeBlocks_eq (mergeBlocks a b) c, mergeBlocks_eq a b, mergeBlocks_eq a (mergeBlocks b c),
      mergeBlocks_eq b c]
    simp only [ParsedBlock.Data_mk]
    rw [mergeBlockData_eq (mergeBlockData a.Data b.Data) c.Data,
      mergeBlockData_eq a.Data (mergeBlockData b.Data c.Data),
      mergeBlockData_eq a.Data b.Data, mergeBlockData_eq b.Data c.Data]
    simp only [BlockData.Properties_mk, BlockData.StaticBlocks_mk, BlockData.DynamicBlocks_mk,
      BlockData.IgnoreChanges_mk]
    have hstatic : mergeChildren (mergeChildren a.Data.StaticBlocks b.Data.StaticBlocks)
          c.Data.StaticBlocks
        = mergeChildren a.Data.StaticBlocks
            (mergeChildren b.Data.StaticBlocks c.Data.StaticBlocks) := by
      rw [mergeChildren_eq_mergedChildren _ _ hbs has,
        mergeChildren_eq_mergedChildren _ _ hcs (keys_mergedChildren_nodup _ _ has hbs),
        mergeChildren_eq_mergedChildren _ _ hcs hbs,
        mergeChildren_eq_mergedChildren _ _ (keys_mergedChildren_nodup _ _ hbs hcs) has]
      apply mergedChildren_assoc
      intro k x y z hx hy hz
      exact ih k y (Or.inl hy) x z (hacs _ hx) (hbcs _ hy) (hccs _ hz)
    have hdynamic : mergeChildren (mergeChildren a.Data.DynamicBlocks b.Data.DynamicBlocks)
          c.Data.DynamicBlocks
        = mergeChildren a.Data.DynamicBlocks
            (mergeChildren b.Data.DynamicBlocks c.Data.DynamicBlocks) := by
      rw [mergeChildren_eq_mergedChildren _ _ hbd had,
        mergeChildren_eq_mergedChildren _ _ hcd (keys_mergedChildren_nodup _ _ had hbd),
        mergeChildren_eq_mergedChildren _ _ hcd hbd,
        mergeChildren_eq_mergedChildren _ _ (keys_mergedChildren_nodup _ _ hbd hcd) had]
      apply mergedChildren_assoc
      intro k x y z hx hy hz
      exact ih k y (Or.inr hy) x z (hacd _ hx) (hbcd _ hy) (hccd _ hz)
    rw [hstatic, hdynamic, mergeProperties_assoc _ _ _ hbp hcp, List.append_assoc]

end MergeAssoc

section MergeClaims

/-- C11: `mergeBlocks`, read as the function giving the resulting `dest`, is commutative on
the property set (a name is a property of `merge(a, b)` exactly when it is one of
`merge(b, a)`), and associative on blocks whose maps have distinct keys at every level:
`merge(merge(a, b), c) = merge(a, merge(b, c))` with the same properties, child maps and
ignore list. -/
theorem mergeBlocks_commutative_on_properties_and_associative :
    (∀ (a b : ParsedBlock) (k : String),
        k ∈ (mergeBlocks a b).Data.Properties ↔ k ∈ (mergeBlocks b a).Data.Properties)
    ∧ (∀ (a b c : ParsedBlock), a.distinctKeys = true → b.distinctKeys = true →
        c.distinctKeys = true →
        mergeBlocks (mergeBlocks a b) c = mergeBlocks a (mergeBlocks b c)) := by
  constructor
  · intro a b k
    rw [mergeBlocks_eq a b, mergeBlocks_eq b a, ParsedBlock.Data_mk, ParsedBlock.Data_mk,
      mergeBlockData_eq, mergeBlockData_eq, BlockData.Properties_mk, BlockData.Properties_mk,
      mem_mergeProperties, mem_mergeProperties]
    exact Or.comm
  · intro a b c ha hb hc
    exact mergeBlocks_assoc_of_distinctKeys b a c ha hb hc

/-- C12: after `mergeBlocks(dest, src)` on blocks whose child maps have distinct keys, the
properties of `dest` are the union of both property sets; its ignore list is its old ignore
list followed by that of `src`; and in each child map the keys are those of either side, a
key of one side only keeps that side's child, and a key of both sides holds the recursive
merge of the two children. -/
theorem mergeBlocks_union (dest src : ParsedBlock)
    (hds : (dest.Data.StaticBlocks.map Prod.fst).Nodup)
    (hdd : (dest.Data.DynamicBlocks.map Prod.fst).Nodup)
    (hss : (src.Data.StaticBlocks.map Prod.fst).Nodup)
    (hsd : (src.Data.DynamicBlocks.map Prod.fst).Nodup) :
    (∀ k, k ∈ (mergeBlocks dest src).Data.Properties
        ↔ k ∈ dest.Data.Properties ∨ k ∈ src.Data.Properties)
    ∧ (mergeBlocks dest src).Data.IgnoreChanges
        = dest.Data.IgnoreChanges ++ src.Data.IgnoreChanges
    ∧ (∀ k, k ∈ (mergeBlocks dest src).Data.StaticBlocks.map Prod.fst
        ↔ k ∈ dest.Data.StaticBlocks.map Prod.fst ∨ k ∈ src.Data.StaticBlocks.map Prod.fst)
    ∧ (∀ k, (mergeBlocks dest src).Data.StaticBlocks.lookup k =
        match dest.Data.StaticBlocks.lookup k, src.Data.StaticBlocks.lookup k with
        | some x, some y => some (mergeBlocks x y)
        | some x, none => some x
        | none, some y => some y
        | none, none => none)
    ∧ (∀ k, k ∈ (mergeBlocks dest src).Data.DynamicBlocks.map Prod.fst
        ↔ k ∈ dest.Data.DynamicBlocks.map Prod.fst ∨ k ∈ src.Data.DynamicBlocks.map Prod.fst)
    ∧ (∀ k, (mergeBlocks dest src).Data.DynamicBlocks.lookup k =
        match dest.Data.DynamicBlocks.lookup k, src.Data.DynamicBlocks.lookup k with
        | some x, some y => some (mergeBlocks x y)
        | some x, none => some x
        | none, some y => some y
        | none, none => none) := by
  rw [mergeBlocks_eq dest src, ParsedBlock.Data_mk, mergeBlockData_eq, BlockData.Properties_mk,
    BlockData.StaticBlocks_mk, BlockData.DynamicBlocks_mk, BlockData.IgnoreChanges_mk,
    mergeChildren_eq_mergedChildren _ _ hss hds, mergeChildren_eq_mergedChildren _ _ hsd hdd]
  have hkeys : ∀ (d s : List (String × ParsedBlock)) (k : String),
      k ∈ (mergedChildren d s).map Prod.fst ↔ k ∈ d.map Prod.fst ∨ k ∈ s.map Prod.fst := by
    intro d s k
    have h1 := lookup_eq_none_iff_not_mem_keys k (mergedChildren d s)
    have h2 := lookup_eq_none_iff_not_mem_keys k d
    have h3 := lookup_eq_none_iff_not_mem_keys k s
    rw [lookup_mergedChildren] at h1
    cases hd : d.lookup k <;> cases hs : s.lookup k <;> rw [hd] at h1 h2 <;> rw [hs] at h1 h3 <;>
      simp only [reduceCtorEq, false_iff, true_iff, not_not] at h1 h2 h3 <;> tauto
  exact ⟨mem_mergeProperties _ _, rfl, hkeys _ _, lookup_mergedChildren _ _, hkeys _ _,
    lookup_mergedChildren _ _⟩

/-- C11 on three example blocks that share the static child `x`. -/
theorem mergeBlocks_commutative_on_properties_and_associative_witness :
    ("b" ∈ (mergeBlocks mergeExampleA mergeExampleB).Data.Properties
        ↔ "b" ∈ (mergeBlocks mergeExampleB mergeExampleA).Data.Properties)
    ∧ mergeBlocks (mergeBlocks mergeExampleA mergeExampleB) mergeExampleC
        = mergeBlocks mergeExampleA (mergeBlocks mergeExampleB mergeExampleC) :=
  ⟨mergeBlocks_commutative_on_properties_and_associative.1 mergeExampleA mergeExampleB "b",
   mergeBlocks_commutative_on_properties_and_associative.2 mergeExampleA mergeExampleB
    mergeExampleC (by decide) (by decide) (by decide)⟩

/-- C12 on two example blocks: the shared static child `x` is merged, `y` and `z` come from
the source. -/
theorem mergeBlocks_union_witness :
    (mergeBlocks mergeExampleA mergeExampleB).Data.IgnoreChanges = ["u", "v"]
    ∧ (mergeBlocks mergeExampleA mergeExampleB).Data.StaticBlocks.lookup "x"
        = some (.mk (.mk ["p", "q"] [] [] ["i", "j"]))
    ∧ (mergeBlocks mergeExampleA mergeExampleB).Data.StaticBlocks.lookup "x" =
        match mergeExampleA.Data.StaticBlocks.lookup "x",
            mergeExampleB.Data.StaticBlocks.lookup "x" with
        | some x, some y => some (mergeBlocks x y)
        | some x, none => some x
        | none, some y => some y
        | none, none => none :=
  ⟨rfl, rfl,
   (mergeBlocks_union mergeExampleA mergeExampleB (by decide) (by decide) (by decide)
      (by decide)).2.2.2.1 "x"⟩

end MergeClaims

/-! ## Building a block from a source body -/

section ParseFacts

variable (exprValue : Expression → Option ExtractableValue)

end ParseFacts

section ParseLoop

variable (exprValue : Expression → Option ExtractableValue)

end ParseLoop

section ParseClaims

variable (exprValue : Expression → Option ExtractableValue)

end ParseClaims

/-! ## Extraction of ignore lists -/

section Extract

theorem extractIgnoreChangesLoop_known_prefix (strs : List String) (rest : List CtyString) :
    ∀ (changes : List String), "all" ∉ strs →
      extractIgnoreChangesLoop changes (strs.map CtyString.known ++ rest)
        = extractIgnoreChangesLoop (changes ++ strs) rest := by
  induction strs with
  | nil => intro changes _; simp
  | cons s more ih =>
    intro changes h
    have hs : ¬ s = "all" := fun hc => h (hc ▸ List.mem_cons_self _ _)
    have hmore : "all" ∉ more := fun hc => h (List.mem_cons_of_mem _ hc)
    rw [List.map_cons, List.cons_append, extractIgnoreChangesLoop, if_neg hs, ih _ hmore]
    simp

/-- On a known collection of strings `extractIgnoreChanges` goes through the elements in
order.  When the first element that is not an ordinary known string is the string `all`,
the result is the wildcard list, whatever follows; when every element is a known string
other than `all`, the result is the list of these strings, in order and with repetitions;
when a null or unknown element comes before any `all`, the call panics.  A collection of
other elements, a string and any other value give the empty list; a null or unknown
collection makes the call panic. -/
theorem extractIgnoreChanges_cases :
    (∀ (strs : List String) (post : List CtyString), "all" ∉ strs →
        extractIgnoreChanges
            (.stringCollection (strs.map CtyString.known ++ .known "all" :: post))
          = some ["*all*"])
    ∧ (∀ (strs : List String), "all" ∉ strs →
        extractIgnoreChanges (.stringCollection (strs.map CtyString.known)) = some strs)
    ∧ (∀ (strs : List String) (post : List CtyString), "all" ∉ strs →
        extractIgnoreChanges
            (.stringCollection (strs.map CtyString.known ++ .nullOrUnknown :: post))
          = none)
    ∧ extractIgnoreChanges .otherCollection = some []
    ∧ extractIgnoreChanges .nullOrUnknownCollection = none
    ∧ (∀ s, extractIgnoreChanges (.string s) = some [])
    ∧ extractIgnoreChanges .other = some [] := by
  refine ⟨?_, ?_, ?_, rfl, rfl, fun _ => rfl, rfl⟩
  · intro strs post h
    rw [extractIgnoreChanges, extractIgnoreChangesLoop_known_prefix strs _ [] h,
      extractIgnoreChangesLoop, if_pos rfl]
  · intro strs h
    have := extractIgnoreChangesLoop_known_prefix strs [] [] h
    rw [List.append_nil] at this
    rw [extractIgnoreChanges, this, extractIgnoreChangesLoop, List.nil_append]
  · intro strs post h
    rw [extractIgnoreChanges, extractIgnoreChangesLoop_known_prefix strs _ [] h,
      extractIgnoreChangesLoop]

/-- C14: `extractIgnoreChanges` does not return on every collection.  On the list of strings
whose elements are a null string and `all` the call of `AsString` on the first element
panics, where the claim gives `["*all*"]`; on the list with the elements `tags` and a null
string it panics, where the claim gives `["tags"]`; on a null or unknown collection
`ElementIterator` panics, where the claim gives the empty list.  On the same lists without
the null element the results are the ones the claim gives. -/
theorem extractIgnoreChanges_panics_on_null_string :
    extractIgnoreChanges (.stringCollection [.nullOrUnknown, .known "all"]) = none
    ∧ extractIgnoreChanges (.stringCollection [.known "tags", .nullOrUnknown]) = none
    ∧ extractIgnoreChanges .nullOrUnknownCollection = none
    ∧ extractIgnoreChanges (.stringCollection [.known "all"]) = some ["*all*"]
    ∧ extractIgnoreChanges (.stringCollection [.known "tags", .known "all", .nullOrUnknown])
        = some ["*all*"]
    ∧ extractIgnoreChanges (.stringCollection [.known "tags", .known "sku", .known "tags"])
        = some ["tags", "sku", "tags"] := by
  decide


/-- C15: on a lifecycle block with `ignore_changes = [all]` or `ignore_changes = ["all"]`,
`extractLifecycleIgnoreChangesFromAST` returns `["all"]`, not the wildcard list; the ignore
list `ParseBlocks` leaves in the block is `["all"]`, the block `ParseSyntaxBody` returns has
an empty one, and validating against a schema with the required attributes `name` and
`location` still reports `name`. -/
theorem extractLifecycleIgnoreChangesFromAST_keeps_all :
    extractLifecycleIgnoreChangesFromAST bodyIgnoreBareAll = ["all"]
    ∧ extractLifecycleIgnoreChangesFromAST bodyIgnoreQuotedAll = ["all"]
    ∧ (ParseBlocks exprValueNoVariables (ParseAttributes NewBlockData bodyIgnoreBareAll)
          bodyIgnoreBareAll).IgnoreChanges = ["all"]
    ∧ (ParseBlocks exprValueNoVariables (ParseAttributes NewBlockData bodyIgnoreQuotedAll)
          bodyIgnoreQuotedAll).IgnoreChanges = ["all"]
    ∧ (ParseSyntaxBody exprValueNoVariables bodyIgnoreBareAll).Data.IgnoreChanges = []
    ∧ Validate equalFoldASCII
          (ParseBlocks exprValueNoVariables (ParseAttributes NewBlockData bodyIgnoreBareAll)
            bodyIgnoreBareAll)
          "azurerm_resource_group" "root" (some schemaNameLocation) []
        = [⟨"azurerm_resource_group", "root", "name", true, false, false, ""⟩] := by
  refine ⟨by decide, by decide, rfl, rfl, rfl, by decide⟩

end Extract

/-! ## Rendering a finding -/

section Format

theorem replaceAllLoop_skip (old new : List Char) (pre : List Char) :
    ∀ (s : List Char),
      replaceAllLoop old new pre.length (pre ++ s) = replaceAllLoop old new 0 s := by
  induction pre with
  | nil => intro s; rfl
  | cons c rest ih =>
    intro s
    rw [List.length_cons, List.cons_append, replaceAllLoop]
    exact ih s

theorem replaceAllLoop_of_no_match (old new : List Char) (s : List Char)
    (h : ¬ (old <:+: s)) : replaceAllLoop old new 0 s = s := by
  induction s with
  | nil => rw [replaceAllLoop]
  | cons c rest ih =>
    have hp : ¬ (old.isPrefixOf (c :: rest) = true) := by
      intro hp
      rw [List.isPrefixOf_iff_prefix] at hp
      exact h hp.isInfix
    have hrest : ¬ (old <:+: rest) := by
      intro hin
      exact h (hin.trans (List.suffix_cons c rest).isInfix)
    rw [replaceAllLoop, if_neg hp, ih hrest]

theorem ReplaceAll_root_dot (d : String) (h : ¬ ("root.".data <:+: d.data)) :
    ReplaceAll ("root." ++ d) "root." "" = d := by
  apply String.ext
  unfold ReplaceAll
  simp only [String.data_append]
  have hdata : "root.".data = ['r', 'o', 'o', 't', '.'] := rfl
  rw [hdata] at h
  have hp : (['r', 'o', 'o', 't', '.'] : List Char).isPrefixOf
      ('r' :: (['o', 'o', 't', '.'] ++ d.data)) = true := by
    rw [List.isPrefixOf_iff_prefix]
    exact ⟨d.data, rfl⟩
  show replaceAllLoop ['r', 'o', 'o', 't', '.'] [] 0
      ('r' :: (['o', 'o', 't', '.'] ++ d.data)) = d.data
  rw [replaceAllLoop, if_pos hp]
  have hskip := replaceAllLoop_skip ['r', 'o', 'o', 't', '.'] [] ['o', 'o', 't', '.'] d.data
  have hlen : (['r', 'o', 'o', 't', '.'] : List Char).length - 1
      = (['o', 'o', 't', '.'] : List Char).length := rfl
  rw [hlen, hskip, replaceAllLoop_of_no_match _ _ _ h]
  rfl

theorem ite_root_self (x : String) : (if x = "root" then "root" else x) = x := by
  by_cases h : x = "root"
  · rw [if_pos h, h]
  · rw [if_neg h]

/-- C16: for a finding whose path is `root`, or `root.` followed by a string `d` that
contains no occurrence of `root.`, `FormatFinding` renders
`<type>: missing <required|optional> <block|property> <name> in <d>[ in submodule <name>]
(<data source|resource>)`, where `d` is `root` in the first case. -/
theorem FormatFinding_renders (f : ValidationFinding) (d : String)
    (h : (f.Path = "root" ∧ d = "root")
          ∨ (f.Path = "root." ++ d ∧ ¬ ("root.".data <:+: d.data))) :
    FormatFinding f =
      f.ResourceType ++ ": missing " ++ (if f.Required then "required" else "optional") ++ " "
        ++ (if f.IsBlock then "block" else "property") ++ " " ++ f.Name ++ " in " ++ d
        ++ (if f.SubmoduleName = "" then "" else " in submodule " ++ f.SubmoduleName)
        ++ " (" ++ (if f.IsDataSource then "data source" else "resource") ++ ")" := by
  have hclean : ReplaceAll f.Path "root." "" = d := by
    rcases h with ⟨hp, hd⟩ | ⟨hp, hd⟩
    · rw [hp, hd]
      decide
    · rw [hp]
      exact ReplaceAll_root_dot d hd
  unfold FormatFinding
  simp only [hclean, ite_root_self]
  by_cases hs : f.SubmoduleName = ""
  · simp [hs, String.append_assoc]
  · simp [hs, String.append_assoc]

/-- C16 on a block finding under `root.network` in the submodule `storage`. -/
theorem FormatFinding_renders_witness :
    FormatFinding findingUnderNetwork
      = "azurerm_example: missing optional block subnet in network in submodule storage (data source)" :=
  FormatFinding_renders findingUnderNetwork "network" (Or.inr ⟨rfl, by decide⟩)

/-- C17: for the path `root.foo_root.bar` of a block type named `foo_root`, `FormatFinding`
shows `foo_bar`: the `root.` inside `foo_root.bar` is removed as well, where stripping one
leading `root.` would show `foo_root.bar`. -/
theorem FormatFinding_strips_inner_root :
    ReplaceAll "root.foo_root.bar" "root." "" = "foo_bar"
    ∧ ReplaceAll "root.foo_root.bar" "root." "" ≠ "foo_root.bar"
    ∧ FormatFinding findingUnderFooRoot
        = "azurerm_example: missing required property sku in foo_bar (resource)" := by
  decide

end Format

/-! ## Seeding, monotonicity and scope of suppression -/

section Seeding

variable (equalFold : String → String → Bool)

/-- No finding of `Validate` is named by an entry of the effective ignore list of the outer
call. -/
theorem Validate_name_not_folded (rt : String) (o : Option SchemaBlock) (bd : BlockData)
    (p : String) (pi : List String) :
    ∀ f ∈ Validate equalFold bd rt p o pi, ∀ e ∈ pi ++ bd.IgnoreChanges,
      equalFold e f.Name = false := by
  intro f hf e he
  cases o with
  | none =>
    rw [Validate_none] at hf
    cases hf
  | some s =>
    cases hfold : equalFold e f.Name with
    | false => rfl
    | true =>
      exact absurd rfl
        (Validate_name_ne_of_ignored equalFold rt e f.Name hfold s bd p pi he f hf)

theorem tagResourceFindings_eq_map (ignoreChanges : List String) (submoduleName : String)
    (findings : List ValidationFinding)
    (h : ∀ f ∈ findings, ∀ e ∈ ignoreChanges, equalFold e f.Name = false) :
    tagResourceFindings equalFold ignoreChanges submoduleName findings
      = findings.map (fun f => { f with SubmoduleName := submoduleName }) := by
  unfold tagResourceFindings
  congr 1
  rw [List.filter_eq_self]
  intro f hf
  simp only [Bool.not_eq_true', List.any_eq_false]
  intro e he
  rw [h f hf e he]
  simp

/-- C22: for a resource that is routed to a schema entry, `ValidateResources` returns exactly
the findings of `Validate` on the resource's block, the entry's schema, the path `root` and
the resource's own ignore list as inherited list, each with the submodule name set; the name
filter of `ValidateResources` keeps every one of them, because no finding of `Validate` is
named by an entry of that ignore list. -/
theorem resource_findings_are_seeded_validate (schema : TerraformSchema)
    (providers : List (String × ProviderConfig)) (submoduleName : String) (r : ParsedResource)
    (cfg : ProviderConfig) (pSchema : ProviderSchema) (resSchema : ResourceSchema)
    (hcfg : providers.lookup (provName r.TypeName) = some cfg)
    (hbranch : schema.ProviderSchemas.lookup cfg.Source = some pSchema)
    (hentry : pSchema.ResourceSchemas.lookup r.TypeName = some resSchema) :
    ValidateResources equalFold [r] schema providers submoduleName
        = (Validate equalFold r.Data r.TypeName "root" resSchema.Block r.Data.IgnoreChanges).map
            (fun f => { f with SubmoduleName := submoduleName })
    ∧ (Validate equalFold r.Data r.TypeName "root" resSchema.Block r.Data.IgnoreChanges).filter
          (fun f => !(r.Data.IgnoreChanges.any fun ignored => equalFold ignored f.Name))
        = Validate equalFold r.Data r.TypeName "root" resSchema.Block r.Data.IgnoreChanges
    ∧ (∀ f ∈ Validate equalFold r.Data r.TypeName "root" resSchema.Block r.Data.IgnoreChanges,
        ∀ ignored ∈ r.Data.IgnoreChanges, equalFold ignored f.Name = false) := by
  have hnot : ∀ f ∈ Validate equalFold r.Data r.TypeName "root" resSchema.Block
      r.Data.IgnoreChanges, ∀ ignored ∈ r.Data.IgnoreChanges,
      equalFold ignored f.Name = false := by
    intro f hf e he
    exact Validate_name_not_folded equalFold r.TypeName resSchema.Block r.Data "root"
      r.Data.IgnoreChanges f hf e (List.mem_append_left _ he)
  refine ⟨?_, ?_, hnot⟩
  · rw [ValidateResources_singleton]
    unfold resourceFindings
    rw [hcfg]
    simp only
    rw [hbranch]
    simp only
    rw [hentry]
    exact tagResourceFindings_eq_map equalFold _ _ _ hnot
  · rw [List.filter_eq_self]
    intro f hf
    simp only [Bool.not_eq_true', List.any_eq_false]
    intro e he
    rw [hnot f hf e he]
    simp

/-- C22 on a resource group whose own ignore list holds `Name`: the finding `location` of
`Validate` comes back tagged with the submodule `storage`, and `name` is not produced. -/
theorem resource_findings_are_seeded_validate_witness :
    ValidateResources equalFoldASCII [resourceIgnoringName] exampleTerraformSchema
        exampleProviders "storage"
      = (Validate equalFoldASCII resourceIgnoringName.Data "azurerm_resource_group" "root"
          (some schemaNameLocation) ["Name"]).map (fun f => { f with SubmoduleName := "storage" })
    ∧ ValidateResources equalFoldASCII [resourceIgnoringName] exampleTerraformSchema
        exampleProviders "storage"
      = [⟨"azurerm_resource_group", "root", "location", true, false, false, "storage"⟩] :=
  ⟨(resource_findings_are_seeded_validate equalFoldASCII exampleTerraformSchema exampleProviders
      "storage" resourceIgnoringName ⟨"registry.terraform.io/hashicorp/azurerm", "~> 4.0"⟩
      { ResourceSchemas := [("azurerm_resource_group", ⟨some schemaNameLocation⟩)],
        DataSourceSchemas := [("azurerm_subnet", ⟨some schemaNameLocation⟩)] }
      ⟨some schemaNameLocation⟩ rfl rfl rfl).1,
   by decide⟩

end Seeding

section Monotone

variable (equalFold : String → String → Bool)

theorem isIgnored_mono {L L' : List String} (h : ∀ e ∈ L, e ∈ L') (name : String)
    (hi : isIgnored equalFold L name = true) : isIgnored equalFold L' name = true := by
  cases h' : isIgnored equalFold L' name with
  | true => rfl
  | false =>
    have hall := (isIgnored_eq_false_iff equalFold).mp h'
    have : isIgnored equalFold L name = false :=
      (isIgnored_eq_false_iff equalFold).mpr (fun item hitem => hall item (h item hitem))
    rw [this] at hi
    cases hi

theorem filterMap_sublist_of_none_or_eq {α β : Type} (g g' : α → Option β)
    (h : ∀ x, g' x = none ∨ g' x = g x) (l : List α) :
    (l.filterMap g').Sublist (l.filterMap g) := by
  induction l with
  | nil => exact List.Sublist.slnil
  | cons x rest ih =>
    rw [List.filterMap_cons, List.filterMap_cons]
    rcases h x with hx | hx
    · rw [hx]
      cases g x with
      | none => exact ih
      | some b => exact List.Sublist.cons _ ih
    · rw [hx]
      cases g x with
      | none => exact ih
      | some b => exact List.Sublist.cons₂ _ ih

theorem flatMap_sublist_of_sublist {α β : Type} (g g' : α → List β) (l : List α)
    (h : ∀ x ∈ l, (g' x).Sublist (g x)) : (l.flatMap g').Sublist (l.flatMap g) := by
  induction l with
  | nil => exact List.Sublist.slnil
  | cons x rest ih =>
    rw [List.flatMap_cons, List.flatMap_cons]
    exact List.Sublist.append (h x (List.mem_cons_self _ _))
      (ih (fun y hy => h y (List.mem_cons_of_mem _ hy)))

theorem attributeFinding_mono (bd : BlockData) (rt p : String) {ig ig' : List String}
    (h : ∀ e ∈ ig, e ∈ ig') (entry : String × SchemaAttribute) :
    attributeFinding equalFold bd rt p ig' entry = none
      ∨ attributeFinding equalFold bd rt p ig' entry
          = attributeFinding equalFold bd rt p ig entry := by
  by_cases hi' : isIgnored equalFold ig' entry.1 = true
  · left
    unfold attributeFinding
    simp [hi']
  · right
    have hi : ¬ isIgnored equalFold ig entry.1 = true :=
      fun hc => hi' (isIgnored_mono equalFold h entry.1 hc)
    unfold attributeFinding
    simp [hi, hi']

/-- With one and the same visiting order of the schema maps, a larger inherited ignore list
removes findings and keeps the others in place. -/
theorem Validate_sublist_of_subset (rt : String) :
    ∀ (s : SchemaBlock) (bd : BlockData) (p : String) (L L' : List String),
      (∀ e ∈ L, e ∈ L') →
      (Validate equalFold bd rt p (some s) L').Sublist (Validate equalFold bd rt p (some s) L) := by
  intro s
  induction s using SchemaBlock.nested_induction with
  | step s ih =>
    intro bd p L L' hsub
    have hig : ∀ e ∈ L ++ bd.IgnoreChanges, e ∈ L' ++ bd.IgnoreChanges := by
      intro e he
      rcases List.mem_append.mp he with h | h
      · exact List.mem_append_left _ (hsub e h)
      · exact List.mem_append_right _ h
    rw [Validate_some, Validate_some, validateBlocks_eq_flatMap, validateBlocks_eq_flatMap]
    apply List.Sublist.append
    · unfold validateAttributes
      exact filterMap_sublist_of_none_or_eq _ _ (attributeFinding_mono equalFold bd rt p hig) _
    · apply flatMap_sublist_of_sublist
      intro entry hentry
      unfold blockEntryFindings
      by_cases hi' : isIgnored equalFold (L' ++ bd.IgnoreChanges) entry.1 = true
      · simp [hi']
      · have hi : ¬ isIgnored equalFold (L ++ bd.IgnoreChanges) entry.1 = true :=
          fun hc => hi' (isIgnored_mono equalFold hig entry.1 hc)
        have hi_f : isIgnored equalFold (L ++ bd.IgnoreChanges) entry.1 = false := by
          simpa using hi
        have hi'_f : isIgnored equalFold (L' ++ bd.IgnoreChanges) entry.1 = false := by
          simpa using hi'
        rw [hi_f, hi'_f]
        by_cases ht : entry.1 = "timeouts"
        · simp [ht]
        · by_cases hd : entry.2.Deprecated = true
          · simp [hd]
          · have hc : ¬ ((decide (entry.1 = "timeouts") || false) = true) := by simp [ht]
            simp only [if_neg hc, if_neg hd]
            cases hsel : selectTarget bd entry.1 with
            | none => exact List.Sublist.refl _
            | some t =>
              simp only
              cases hblk : entry.2.Block with
              | none =>
                rw [Validate_none, Validate_none]
              | some s' =>
                exact ih entry.1 entry.2 s' hentry hblk t.Data _ _ _ hig

end Monotone

/-! ## Suppression across two visiting orders of the schema -/

section Relisting

variable (equalFold : String → String → Bool)

theorem sameEntries_refl_of (l : List (String × SchemaBlockType))
    (h : ∀ name bt s', (name, bt) ∈ l → bt.Block = some s' → s'.sameSchema s') :
    sameEntries l l := by
  induction l with
  | nil => rw [sameEntries]
  | cons e rest ih =>
    obtain ⟨name, bt⟩ := e
    rw [sameEntries]
    refine ⟨bt, rest, rfl, ?_, ih (fun n b s' hm hb => h n b s' (List.mem_cons_of_mem _ hm) hb)⟩
    cases bt with
    | mk m b d =>
      rw [SchemaBlockType.sameBlockType]
      refine ⟨rfl, rfl, ?_⟩
      cases b with
      | none => rw [sameOption]; rfl
      | some t =>
        rw [sameOption]
        exact ⟨t, rfl, h name _ t (List.mem_cons_self _ _) rfl⟩

/-- Every schema is a listing of itself. -/
theorem SchemaBlock.sameSchema_refl : ∀ s : SchemaBlock, s.sameSchema s := by
  intro s
  induction s using SchemaBlock.nested_induction with
  | step s ih =>
    cases s with
    | mk attrs bts =>
      rw [SchemaBlock.sameSchema]
      exact ⟨List.Perm.refl _, bts, sameEntries_refl_of bts ih, List.Perm.refl _⟩

theorem flatMap_perm_of_sameEntries (bd : BlockData) (rt p : String) (ig : List String)
    (l : List (String × SchemaBlockType)) :
    ∀ (mid : List (String × SchemaBlockType)), sameEntries l mid →
      (∀ name bt s', (name, bt) ∈ l → bt.Block = some s' →
        ∀ (t : SchemaBlock) (bd' : BlockData) (p' : String) (L : List String),
          s'.sameSchema t →
          (Validate equalFold bd' rt p' (some s') L).Perm
            (Validate equalFold bd' rt p' (some t) L)) →
      (l.flatMap (blockEntryFindings equalFold bd rt p ig)).Perm
        (mid.flatMap (blockEntryFindings equalFold bd rt p ig)) := by
  induction l with
  | nil =>
    intro mid h _
    rw [sameEntries] at h
    rw [h]
  | cons e rest ih =>
    intro mid h hrec
    obtain ⟨name, bt⟩ := e
    rw [sameEntries] at h
    obtain ⟨bt', rest', hmid, hbt, hrest⟩ := h
    rw [hmid, List.flatMap_cons, List.flatMap_cons]
    refine List.Perm.append ?_
      (ih rest' hrest (fun n b s' hm hb => hrec n b s' (List.mem_cons_of_mem _ hm) hb))
    cases bt with
    | mk m b d =>
      rw [SchemaBlockType.sameBlockType] at hbt
      obtain ⟨hm, hd, hb⟩ := hbt
      cases bt' with
      | mk m' b' d' =>
        have hm' : m = m' := hm
        have hd' : d = d' := hd
        have hb' : sameOption b b' := hb
        subst hm' hd'
        cases b with
        | none =>
          rw [sameOption] at hb'
          rw [hb']
        | some s' =>
          rw [sameOption] at hb'
          obtain ⟨t, ht, hst⟩ := hb'
          rw [ht]
          unfold blockEntryFindings
          by_cases h1 : (decide (name = "timeouts") || isIgnored equalFold ig name) = true
          · simp only [h1, if_true]
            exact List.Perm.refl _
          · by_cases h2 : d = true
            · simp only [h1, h2, if_true, if_false, SchemaBlockType.Deprecated]
              exact List.Perm.refl _
            · simp only [h1, h2, if_false, SchemaBlockType.Deprecated,
                SchemaBlockType.MinItems, SchemaBlockType.Block]
              cases selectTarget bd name with
              | none => exact List.Perm.refl _
              | some target =>
                exact hrec name _ s' (List.mem_cons_self _ _) rfl t target.Data _ ig hst

/-- Two listings of one schema tree give the same findings up to their order. -/
theorem Validate_perm_of_sameSchema (rt : String) :
    ∀ (s t : SchemaBlock) (bd : BlockData) (p : String) (L : List String),
      s.sameSchema t →
      (Validate equalFold bd rt p (some s) L).Perm (Validate equalFold bd rt p (some t) L) := by
  intro s
  induction s using SchemaBlock.nested_induction with
  | step s ih =>
    intro t bd p L hst
    cases s with
    | mk attrs bts =>
      rw [SchemaBlock.sameSchema] at hst
      obtain ⟨hattrs, mid, hmid, hperm⟩ := hst
      rw [Validate_some, Validate_some, validateBlocks_eq_flatMap, validateBlocks_eq_flatMap]
      apply List.Perm.append
      · unfold validateAttributes
        exact List.Perm.filterMap _ hattrs
      · exact (flatMap_perm_of_sameEntries equalFold bd rt p _ bts mid hmid ih).trans
          (List.Perm.flatMap_right _ hperm)

end Relisting

section MonotoneUpToOrder

variable (equalFold : String → String → Bool)

theorem schemaTwoBlocks_sameSchema_swapped :
    sameOption (some schemaTwoBlocks) (some schemaTwoBlocksSwapped) := by
  rw [sameOption]
  refine ⟨_, rfl, ?_⟩
  unfold schemaTwoBlocks schemaTwoBlocksSwapped
  rw [SchemaBlock.sameSchema]
  refine ⟨List.Perm.refl _, _, ?_, List.Perm.swap _ _ _⟩
  exact sameEntries_refl_of _ (fun _ _ s' _ _ => SchemaBlock.sameSchema_refl s')

/-- C23: when every entry of the inherited ignore list `L` also occurs in `L'`, the
findings of `Validate` with inherited list `L'` are, up to their order, among the findings of
`Validate` with inherited list `L`: every finding occurs with `L'` at most as often as with
`L`.  This holds for every block and path and for any two visiting orders of the schema maps
(`schema` and `schema'` are two listings of one schema tree, or both nil). -/
theorem suppression_is_monotone_up_to_order (bd : BlockData) (rt p : String)
    (schema schema' : Option SchemaBlock) (L L' : List String)
    (hs : sameOption schema schema') (h : ∀ e ∈ L, e ∈ L') :
    (Validate equalFold bd rt p schema' L').Subperm (Validate equalFold bd rt p schema L)
    ∧ ∀ f : ValidationFinding,
        (Validate equalFold bd rt p schema' L').count f
          ≤ (Validate equalFold bd rt p schema L).count f := by
  have key : (Validate equalFold bd rt p schema' L').Subperm
      (Validate equalFold bd rt p schema L) := by
    cases schema with
    | none =>
      rw [sameOption] at hs
      rw [hs, Validate_none, Validate_none]
    | some s =>
      rw [sameOption] at hs
      obtain ⟨s', hs', hss'⟩ := hs
      rw [hs']
      exact ((Validate_perm_of_sameSchema equalFold rt s s' bd p L' hss').subperm_right).mp
        (Validate_sublist_of_subset equalFold rt s bd p L L' h).subperm
  exact ⟨key, fun f => key.count_le f⟩

/-- C23 on the example schema with two block types, visited in the order `identity`,
`network` by the call with the inherited list `["tags"]` and in the order `network`,
`identity` by the call with `["TYPE", "tags"]`: the finding `type` under `root.identity` is
removed and the other is kept. -/
theorem suppression_is_monotone_up_to_order_witness :
    ((Validate equalFoldASCII blockTwoChildren "r" "root" (some schemaTwoBlocksSwapped)
        ["TYPE", "tags"]).Subperm
      (Validate equalFoldASCII blockTwoChildren "r" "root" (some schemaTwoBlocks) ["tags"])
     ∧ ∀ f : ValidationFinding,
        (Validate equalFoldASCII blockTwoChildren "r" "root" (some schemaTwoBlocksSwapped)
            ["TYPE", "tags"]).count f
          ≤ (Validate equalFoldASCII blockTwoChildren "r" "root" (some schemaTwoBlocks)
              ["tags"]).count f)
    ∧ Validate equalFoldASCII blockTwoChildren "r" "root" (some schemaTwoBlocks) ["tags"]
        = [⟨"r", "root.identity", "type", false, false, false, ""⟩,
           ⟨"r", "root.network", "subnet_id", false, false, false, ""⟩]
    ∧ Validate equalFoldASCII blockTwoChildren "r" "root" (some schemaTwoBlocksSwapped)
          ["TYPE", "tags"]
        = [⟨"r", "root.network", "subnet_id", false, false, false, ""⟩] :=
  ⟨suppression_is_monotone_up_to_order equalFoldASCII blockTwoChildren "r" "root"
      (some schemaTwoBlocks) (some schemaTwoBlocksSwapped) ["tags"] ["TYPE", "tags"]
      schemaTwoBlocks_sameSchema_swapped (by decide),
   by decide, by decide⟩

/-- C23, the order of the findings: the schema `schemaTwoBlocks` visited in the order `identity`,
`network` by the call with the empty inherited list and in the order `network`, `identity`
by the call with the inherited list `["tags"]` (which holds every entry of the empty list)
gives the findings `type`, `subnet_id` in the second call in the opposite order of the first:
they are not a sublist of the findings of the first call. -/
theorem suppression_sublist_fails_across_orders :
    sameOption (some schemaTwoBlocks) (some schemaTwoBlocksSwapped)
    ∧ (∀ e ∈ ([] : List String), e ∈ ["tags"])
    ∧ Validate equalFoldASCII blockTwoChildren "r" "root" (some schemaTwoBlocks) []
        = [⟨"r", "root", "tags", false, false, false, ""⟩,
           ⟨"r", "root.identity", "type", false, false, false, ""⟩,
           ⟨"r", "root.network", "subnet_id", false, false, false, ""⟩]
    ∧ Validate equalFoldASCII blockTwoChildren "r" "root" (some schemaTwoBlocksSwapped) ["tags"]
        = [⟨"r", "root.network", "subnet_id", false, false, false, ""⟩,
           ⟨"r", "root.identity", "type", false, false, false, ""⟩]
    ∧ ¬ (Validate equalFoldASCII blockTwoChildren "r" "root" (some schemaTwoBlocksSwapped)
            ["tags"]).Sublist
          (Validate equalFoldASCII blockTwoChildren "r" "root" (some schemaTwoBlocks) []) := by
  exact ⟨schemaTwoBlocks_sameSchema_swapped, by decide, by decide, by decide, by decide⟩

end MonotoneUpToOrder

section Scope

variable (equalFold : String → String → Bool)

theorem withChildIgnore_fields (bd : BlockData) (c : String) (newIgnore : List String) :
    (withChildIgnore bd c newIgnore).Properties = bd.Properties
    ∧ (withChildIgnore bd c newIgnore).IgnoreChanges = bd.IgnoreChanges := by
  unfold withChildIgnore
  cases bd.StaticBlocks.lookup c with
  | some child => exact ⟨rfl, rfl⟩
  | none =>
    cases bd.DynamicBlocks.lookup c with
    | some child => exact ⟨rfl, rfl⟩
    | none => exact ⟨rfl, rfl⟩

theorem withChildIgnore_lookup_ne (bd : BlockData) (c : String) (newIgnore : List String)
    (n : String) (h : n ≠ c) :
    (withChildIgnore bd c newIgnore).StaticBlocks.lookup n = bd.StaticBlocks.lookup n
    ∧ (withChildIgnore bd c newIgnore).DynamicBlocks.lookup n = bd.DynamicBlocks.lookup n := by
  unfold withChildIgnore
  cases bd.StaticBlocks.lookup c with
  | some child =>
    simp only [BlockData.StaticBlocks_mk, BlockData.DynamicBlocks_mk]
    refine ⟨?_, ?_⟩
    · exact lookup_mapStore_ne _ _ _ _ h
    · trivial
  | none =>
    cases bd.DynamicBlocks.lookup c with
    | some child =>
      simp only [BlockData.StaticBlocks_mk, BlockData.DynamicBlocks_mk]
      refine ⟨?_, ?_⟩
      · trivial
      · exact lookup_mapStore_ne _ _ _ _ h
    | none => exact ⟨rfl, rfl⟩

theorem withChildIgnore_isNone (bd : BlockData) (c : String) (newIgnore : List String)
    (n : String) :
    ((withChildIgnore bd c newIgnore).StaticBlocks.lookup n).isNone
        = (bd.StaticBlocks.lookup n).isNone
    ∧ ((withChildIgnore bd c newIgnore).DynamicBlocks.lookup n).isNone
        = (bd.DynamicBlocks.lookup n).isNone := by
  by_cases h : n = c
  · subst h
    unfold withChildIgnore
    cases hs : bd.StaticBlocks.lookup n with
    | some child =>
      simp only [BlockData.StaticBlocks_mk, BlockData.DynamicBlocks_mk]
      rw [lookup_mapStore_self]
      refine ⟨?_, ?_⟩ <;> trivial
    | none =>
      cases hd : bd.DynamicBlocks.lookup n with
      | some child =>
        simp only [BlockData.StaticBlocks_mk, BlockData.DynamicBlocks_mk]
        rw [lookup_mapStore_self]
        refine ⟨?_, ?_⟩
        · rw [hs]
        · trivial
      | none =>
        simp only
        refine ⟨?_, ?_⟩
        · rw [hs]
        · rw [hd]
  · obtain ⟨h1, h2⟩ := withChildIgnore_lookup_ne bd c newIgnore n h
    rw [h1, h2]
    exact ⟨rfl, rfl⟩

theorem blockEntryFindings_withChildIgnore (bd : BlockData) (rt p : String) (ig : List String)
    (c : String) (newIgnore : List String) (entry : String × SchemaBlockType)
    (h : entry.1 ≠ c) :
    blockEntryFindings equalFold (withChildIgnore bd c newIgnore) rt p ig entry
      = blockEntryFindings equalFold bd rt p ig entry := by
  obtain ⟨h1, h2⟩ := withChildIgnore_lookup_ne bd c newIgnore entry.1 h
  unfold blockEntryFindings selectTarget
  rw [h1, h2]

theorem validateAttributes_withChildIgnore (bd : BlockData) (rt p : String)
    (schema : SchemaBlock) (ig : List String) (c : String) (newIgnore : List String) :
    validateAttributes equalFold (withChildIgnore bd c newIgnore) rt p schema ig
      = validateAttributes equalFold bd rt p schema ig := by
  unfold validateAttributes attributeFinding
  rw [(withChildIgnore_fields bd c newIgnore).1]

theorem levelBlockFindings_withChildIgnore (bd : BlockData) (rt p : String)
    (schema : SchemaBlock) (ig : List String) (c : String) (newIgnore : List String) :
    levelBlockFindings equalFold (withChildIgnore bd c newIgnore) rt p schema ig
      = levelBlockFindings equalFold bd rt p schema ig := by
  unfold levelBlockFindings
  congr 1
  funext e
  rw [(withChildIgnore_isNone bd c newIgnore e.1).1, (withChildIgnore_isNone bd c newIgnore e.1).2]

/-- C24: changing only the ignore list of the selected child under the block type name `c`
leaves the block's own ignore list, its attribute findings and its block findings of the
current level unchanged, and leaves unchanged everything the block pass produces for any
other block type; so the findings of `Validate` on the changed block are those of the old
block except for what the entries named `c` contribute. -/
theorem child_ignore_is_scoped_downwards (bd : BlockData) (rt p : String)
    (schema : SchemaBlock) (pi : List String) (c : String) (newIgnore : List String) :
    (withChildIgnore bd c newIgnore).IgnoreChanges = bd.IgnoreChanges
    ∧ validateAttributes equalFold (withChildIgnore bd c newIgnore) rt p schema
          (pi ++ (withChildIgnore bd c newIgnore).IgnoreChanges)
        = validateAttributes equalFold bd rt p schema (pi ++ bd.IgnoreChanges)
    ∧ levelBlockFindings equalFold (withChildIgnore bd c newIgnore) rt p schema
          (pi ++ (withChildIgnore bd c newIgnore).IgnoreChanges)
        = levelBlockFindings equalFold bd rt p schema (pi ++ bd.IgnoreChanges)
    ∧ (∀ entry : String × SchemaBlockType, entry.1 ≠ c →
        blockEntryFindings equalFold (withChildIgnore bd c newIgnore) rt p
            (pi ++ (withChildIgnore bd c newIgnore).IgnoreChanges) entry
          = blockEntryFindings equalFold bd rt p (pi ++ bd.IgnoreChanges) entry)
    ∧ Validate equalFold (withChildIgnore bd c newIgnore) rt p (some schema) pi
        = validateAttributes equalFold bd rt p schema (pi ++ bd.IgnoreChanges)
          ++ schema.BlockTypes.flatMap (fun entry =>
              if entry.1 = c then
                blockEntryFindings equalFold (withChildIgnore bd c newIgnore) rt p
                  (pi ++ bd.IgnoreChanges) entry
              else blockEntryFindings equalFold bd rt p (pi ++ bd.IgnoreChanges) entry) := by
  have hig := (withChildIgnore_fields bd c newIgnore).2
  refine ⟨hig, ?_, ?_, ?_, ?_⟩
  · rw [hig]
    exact validateAttributes_withChildIgnore equalFold bd rt p schema _ c newIgnore
  · rw [hig]
    exact levelBlockFindings_withChildIgnore equalFold bd rt p schema _ c newIgnore
  · intro entry h
    rw [hig]
    exact blockEntryFindings_withChildIgnore equalFold bd rt p _ c newIgnore entry h
  · rw [Validate_some, validateBlocks_eq_flatMap, hig,
      validateAttributes_withChildIgnore equalFold bd rt p schema _ c newIgnore]
    congr 1
    congr 1
    funext entry
    by_cases h : entry.1 = c
    · rw [if_pos h]
    · rw [if_neg h]
      exact blockEntryFindings_withChildIgnore equalFold bd rt p _ c newIgnore entry h

/-- C24 on the block with two children: giving the child `identity` the wildcard removes
the finding under `root.identity`, and what the block type `network` contributes is the
same as before. -/
theorem child_ignore_is_scoped_downwards_witness :
    Validate equalFoldASCII (withChildIgnore blockTwoChildren "identity" ["*all*"]) "r" "root"
        (some schemaTwoBlocks) []
      = [⟨"r", "root", "tags", false, false, false, ""⟩,
         ⟨"r", "root.network", "subnet_id", false, false, false, ""⟩]
    ∧ Validate equalFoldASCII blockTwoChildren "r" "root" (some schemaTwoBlocks) []
      = [⟨"r", "root", "tags", false, false, false, ""⟩,
         ⟨"r", "root.identity", "type", false, false, false, ""⟩,
         ⟨"r", "root.network", "subnet_id", false, false, false, ""⟩]
    ∧ blockEntryFindings equalFoldASCII (withChildIgnore blockTwoChildren "identity" ["*all*"])
          "r" "root"
          ([] ++ (withChildIgnore blockTwoChildren "identity" ["*all*"]).IgnoreChanges)
          ("network", .mk 0 (some (.mk [("subnet_id", ⟨false, true, false, false⟩)] [])) false)
        = blockEntryFindings equalFoldASCII blockTwoChildren "r" "root"
            ([] ++ blockTwoChildren.IgnoreChanges)
            ("network", .mk 0 (some (.mk [("subnet_id", ⟨false, true, false, false⟩)] [])) false) :=
  ⟨by decide, by decide,
   (child_ignore_is_scoped_downwards equalFoldASCII blockTwoChildren "r" "root" schemaTwoBlocks []
      "identity" ["*all*"]).2.2.2.1
      ("network", .mk 0 (some (.mk [("subnet_id", ⟨false, true, false, false⟩)] [])) false)
      (by decide)⟩

end Scope

/-! ## The toolchain runner -/

section RunnerFacts

variable (absPath : String → String)
variable (toolchain : Nat → ToolchainCommand → String → ProcessResult)

theorem Init_of_initialized (r : RunnerState) (dir : String)
    (h : absPath dir ∈ r.initialized) : Init absPath toolchain r dir = (r, none) := by
  unfold Init
  rw [if_pos h]

theorem Init_success_initialized (r : RunnerState) (dir : String)
    (h : (Init absPath toolchain r dir).2 = none) :
    absPath dir ∈ (Init absPath toolchain r dir).1.initialized := by
  unfold Init at h ⊢
  by_cases hin : absPath dir ∈ r.initialized
  · rw [if_pos hin]
    exact hin
  · rw [if_neg hin] at h ⊢
    by_cases hexit : (toolchain r.calls.length .init (absPath dir)).exitCode ≠ 0
    · rw [if_pos hexit] at h
      cases h
    · rw [if_neg hexit]
      exact List.mem_append_right _ (List.mem_singleton.mpr rfl)

theorem GetSchema_of_cached (r : RunnerState) (dir : String) (address : Nat)
    (h : r.schemaCache.lookup (absPath dir) = some address) :
    GetSchema absPath toolchain r dir = (r, .schema address) := by
  unfold GetSchema
  rw [h]

theorem GetSchema_success_cached (r : RunnerState) (dir : String) (address : Nat)
    (h : (GetSchema absPath toolchain r dir).2 = .schema address) :
    (GetSchema absPath toolchain r dir).1.schemaCache.lookup (absPath dir) = some address := by
  unfold GetSchema at h ⊢
  cases hc : r.schemaCache.lookup (absPath dir) with
  | some a =>
    rw [hc] at h
    simp only at h ⊢
    rw [hc, SchemaResult.schema.inj h]
  | none =>
    rw [hc] at h
    simp only at h ⊢
    by_cases hexit : (toolchain r.calls.length .providersSchema (absPath dir)).exitCode ≠ 0
    · rw [if_pos hexit] at h
      cases h
    · rw [if_neg hexit] at h ⊢
      cases hdoc : (toolchain r.calls.length .providersSchema (absPath dir)).document with
      | none =>
        rw [hdoc] at h
        cases h
      | some document =>
        rw [hdoc] at h
        simp only at h ⊢
        rw [List.lookup_append, hc, ← SchemaResult.schema.inj h]
        simp

/-- C21: in the runner modelled from the specification, once `Init` has succeeded for a
directory a second `Init` succeeds without any toolchain invocation, so that on a new runner
with a toolchain exiting with code 0 the toolchain runs exactly once; once `GetSchema` has
returned a schema a second `GetSchema` returns the pointer to the very same schema without
any invocation, so that on a new runner exactly one invocation is made; and a non-zero exit
of an invocation makes `Init`, respectively `GetSchema`, return an error carrying the
diagnostic output. -/
theorem runner_memoises_per_directory (r : RunnerState) (dir : String) :
    ((Init absPath toolchain r dir).2 = none →
        Init absPath toolchain (Init absPath toolchain r dir).1 dir
          = ((Init absPath toolchain r dir).1, none))
    ∧ ((toolchain 0 .init (absPath dir)).exitCode = 0 →
        (Init absPath toolchain NewTerraformRunner dir).2 = none
        ∧ (Init absPath toolchain (Init absPath toolchain NewTerraformRunner dir).1 dir).2 = none
        ∧ (Init absPath toolchain (Init absPath toolchain NewTerraformRunner dir).1 dir).1.calls
            = [⟨.init, absPath dir⟩])
    ∧ (∀ address, (GetSchema absPath toolchain r dir).2 = .schema address →
        GetSchema absPath toolchain (GetSchema absPath toolchain r dir).1 dir
          = ((GetSchema absPath toolchain r dir).1, .schema address))
    ∧ (∀ document, (toolchain 0 .providersSchema (absPath dir)).exitCode = 0 →
        (toolchain 0 .providersSchema (absPath dir)).document = some document →
        (GetSchema absPath toolchain NewTerraformRunner dir).2 = .schema 0
        ∧ (GetSchema absPath toolchain
              (GetSchema absPath toolchain NewTerraformRunner dir).1 dir).2 = .schema 0
        ∧ (GetSchema absPath toolchain
              (GetSchema absPath toolchain NewTerraformRunner dir).1 dir).1.heap = [document]
        ∧ (GetSchema absPath toolchain
              (GetSchema absPath toolchain NewTerraformRunner dir).1 dir).1.calls
            = [⟨.providersSchema, absPath dir⟩])
    ∧ (absPath dir ∉ r.initialized →
        (toolchain r.calls.length .init (absPath dir)).exitCode ≠ 0 →
        (Init absPath toolchain r dir).2
          = some (toolchain r.calls.length .init (absPath dir)).output)
    ∧ (r.schemaCache.lookup (absPath dir) = none →
        (toolchain r.calls.length .providersSchema (absPath dir)).exitCode ≠ 0 →
        (GetSchema absPath toolchain r dir).2
          = .error (toolchain r.calls.length .providersSchema (absPath dir)).output) := by
  refine ⟨?_, ?_, ?_, ?_, ?_, ?_⟩
  · intro h
    exact Init_of_initialized absPath toolchain _ dir
      (Init_success_initialized absPath toolchain r dir h)
  · intro hexit
    have hfirst : Init absPath toolchain NewTerraformRunner dir
        = ({ initialized := [absPath dir], schemaCache := [], heap := [],
             calls := [⟨.init, absPath dir⟩] }, none) := by
      unfold Init NewTerraformRunner
      simp [hexit]
    rw [hfirst]
    have hsecond := Init_of_initialized absPath toolchain
      { initialized := [absPath dir], schemaCache := [], heap := [],
        calls := [⟨.init, absPath dir⟩] } dir (List.mem_singleton.mpr rfl)
    refine ⟨rfl, ?_, ?_⟩
    · show (Init absPath toolchain
        { initialized := [absPath dir], schemaCache := [], heap := [],
          calls := [⟨.init, absPath dir⟩] } dir).2 = none
      rw [hsecond]
    · show (Init absPath toolchain
        { initialized := [absPath dir], schemaCache := [], heap := [],
          calls := [⟨.init, absPath dir⟩] } dir).1.calls = [⟨.init, absPath dir⟩]
      rw [hsecond]
  · intro address h
    exact GetSchema_of_cached absPath toolchain _ dir address
      (GetSchema_success_cached absPath toolchain r dir address h)
  · intro document hexit hdoc
    have hfirst : GetSchema absPath toolchain NewTerraformRunner dir
        = ({ initialized := [], schemaCache := [(absPath dir, 0)], heap := [document],
             calls := [⟨.providersSchema, absPath dir⟩] }, .schema 0) := by
      unfold GetSchema NewTerraformRunner
      simp [hexit, hdoc]
    rw [hfirst]
    have hsecond := GetSchema_of_cached absPath toolchain
      { initialized := [], schemaCache := [(absPath dir, 0)], heap := [document],
        calls := [⟨.providersSchema, absPath dir⟩] } dir 0 (by simp)
    refine ⟨rfl, ?_, ?_, ?_⟩
    · show (GetSchema absPath toolchain
        { initialized := [], schemaCache := [(absPath dir, 0)], heap := [document],
          calls := [⟨.providersSchema, absPath dir⟩] } dir).2 = .schema 0
      rw [hsecond]
    · show (GetSchema absPath toolchain
        { initialized := [], schemaCache := [(absPath dir, 0)], heap := [document],
          calls := [⟨.providersSchema, absPath dir⟩] } dir).1.heap = [document]
      rw [hsecond]
    · show (GetSchema absPath toolchain
        { initialized := [], schemaCache := [(absPath dir, 0)], heap := [document],
          calls := [⟨.providersSchema, absPath dir⟩] } dir).1.calls
        = [⟨.providersSchema, absPath dir⟩]
      rw [hsecond]
  · intro hin hexit
    unfold Init
    rw [if_neg hin, if_pos hexit]
  · intro hc hexit
    unfold GetSchema
    rw [hc]
    simp only
    rw [if_pos hexit]

/-- C21 on a succeeding and on a failing toolchain: two `Init` and two `GetSchema` on a new
runner leave one invocation each in the record, the second `GetSchema` returns the address
of the first, and with exit code 2 `Init` returns the diagnostic `boom`. -/
theorem runner_memoises_per_directory_witness :
    ((Init id toolchainSucceeding NewTerraformRunner "/work/module").2 = none
      ∧ (Init id toolchainSucceeding
            (Init id toolchainSucceeding NewTerraformRunner "/work/module").1
            "/work/module").2 = none
      ∧ (Init id toolchainSucceeding
            (Init id toolchainSucceeding NewTerraformRunner "/work/module").1
            "/work/module").1.calls = [⟨.init, "/work/module"⟩])
    ∧ ((GetSchema id toolchainSucceeding NewTerraformRunner "/work/module").2 = .schema 0
      ∧ (GetSchema id toolchainSucceeding
            (GetSchema id toolchainSucceeding NewTerraformRunner "/work/module").1
            "/work/module").2 = .schema 0
      ∧ (GetSchema id toolchainSucceeding
            (GetSchema id toolchainSucceeding NewTerraformRunner "/work/module").1
            "/work/module").1.heap = [exampleTerraformSchema]
      ∧ (GetSchema id toolchainSucceeding
            (GetSchema id toolchainSucceeding NewTerraformRunner "/work/module").1
            "/work/module").1.calls = [⟨.providersSchema, "/work/module"⟩])
    ∧ (Init id toolchainFailing NewTerraformRunner "/work/module").2 = some "boom" :=
  ⟨(runner_memoises_per_directory id toolchainSucceeding NewTerraformRunner
      "/work/module").2.1 rfl,
   (runner_memoises_per_directory id toolchainSucceeding NewTerraformRunner
      "/work/module").2.2.2.1 exampleTerraformSchema rfl rfl,
   (runner_memoises_per_directory id toolchainFailing NewTerraformRunner
      "/work/module").2.2.2.2.1 (by decide) (by decide)⟩

end RunnerFacts

end Diffy
